import Mathlib

/-!
# ESP8266Audio: the WAV generator and its byte source

A shallow embedding of `src/src/AudioGeneratorWAV.cpp` (constructor, `stop`, `isRunning`,
`GetBufferedData`, `loop`, `ReadWAVInfo`, `begin`) together with the collaborator
interfaces the engine talks to (`AudioFileSource`, `AudioOutput`).

Conventions of the embedding

* A byte is a `Fin 256`; `uint16_t`/`uint32_t` values are naturals, `int16_t` values and the
  `int32_t` argument of `seek` are integers, with the conversions written out.
* The engine is a record of its C++ members.  The objects behind the `file` and `output`
  pointers are carried inside the record as the current state of the collaborator
  (`none` is the `NULL` pointer).
* Every call that crosses the engine's boundary is appended to the ghost field `calls`,
  together with what the call returned.
* `malloc` is taken to succeed; the heap is not part of the model.
* `AudioGeneratorWAV.h` is not among the sources.  `ReadU32` and `ReadU16`, which it
  declares, are modelled from the specification; `lastSample` is taken to be `int16_t[2]`
  and the target to be little-endian, as on the ESP8266.
* The two unbounded loops (`do ... while(1)` in `ReadWAVInfo`, `do ... while(...)` in `loop`)
  take a fuel argument; `none` means the fuel ran out before the loop ended.
* `src/src/AudioFileSourceHTTPStream.cpp` (`read`, `seek`, `close`, `isOpen`, `getSize`,
  `getPos`) is embedded as `HTTPStream`.  The `HTTPClient` and `WiFiClient` it uses belong
  to the platform libraries: they appear as a queue of buffered octets and a schedule of
  what arrives during each `yield()`.  The wait loop of `read` takes a fuel argument.
-/

namespace ESP8266Audio

/-- One octet. -/
abbrev Byte := Fin 256

/-- The octet with value `v % 256`. -/
def byteOf (v : Nat) : Byte := ⟨v % 256, Nat.mod_lt _ (by decide)⟩

/-- Little-endian value of two octets (`uint16_t` read from memory on the ESP8266). -/
def u16le (b0 b1 : Byte) : Nat := b0.val + 256 * b1.val

/-- Little-endian value of four octets (`uint32_t`). -/
def u32le (b0 b1 b2 b3 : Byte) : Nat :=
  b0.val + 256 * b1.val + 65536 * b2.val + 16777216 * b3.val

/-- The four octets of a `uint32_t`, least significant first. -/
def le32 (v : Nat) : List Byte :=
  [byteOf v, byteOf (v / 256), byteOf (v / 65536), byteOf (v / 16777216)]

/-- The two octets of a `uint16_t`, least significant first. -/
def le16 (v : Nat) : List Byte := [byteOf v, byteOf (v / 256)]

/-- Conversion of an unsigned value to `int16_t` (two's complement). -/
def toInt16 (n : Nat) : Int :=
  if n % 65536 < 32768 then ((n % 65536 : Nat) : Int) else ((n % 65536 : Nat) : Int) - 65536

/-- The bit pattern of an `int16_t`, as a natural below 65536. -/
def toUInt16 (x : Int) : Nat := (x % 65536).toNat

/-- Conversion of a `uint32_t` to the `int32_t` parameter of `AudioFileSource::seek`. -/
def toInt32 (n : Nat) : Int :=
  if n % 4294967296 < 2147483648 then ((n % 4294967296 : Nat) : Int)
  else ((n % 4294967296 : Nat) : Int) - 4294967296

/-- The word `"RIFF"` as `ReadWAVInfo` compares it. -/
def idRIFF : Nat := 0x46464952

/-- The word `"WAVE"`. -/
def idWAVE : Nat := 0x45564157

/-- The word `"fmt "`. -/
def idFmt : Nat := 0x20746d66

/-- The word `"data"`. -/
def idData : Nat := 0x61746164

/-- A call made by the engine on one of its collaborators, with the value it returned. -/
inductive Call where
  | read (len : Nat) (got : List Byte)
  | seek (k : Int) (ok : Bool)
  | close (ok : Bool)
  | isOpen (ok : Bool)
  | SetRate (hz : Nat) (ok : Bool)
  | SetBitsPerSample (bits : Nat) (ok : Bool)
  | SetChannels (ch : Nat) (ok : Bool)
  | begin (ok : Bool)
  | ConsumeSample (left right : Int) (ok : Bool)
  | free
  deriving DecidableEq, Repr

/-- The `AudioFileSource` interface over a source state `σ`.  `read` returns the octets it
stored into the caller's buffer (its return value is their number); `seek` is the
`SEEK_CUR` form, the only one the generator uses. -/
structure AudioFileSource (σ : Type) where
  read : σ → Nat → List Byte × σ
  seek : σ → Int → Bool × σ
  close : σ → Bool × σ
  isOpen : σ → Bool

/-- The `AudioOutput` interface over a sink state `τ`. -/
structure AudioOutput (τ : Type) where
  SetRate : τ → Nat → Bool × τ
  SetBitsPerSample : τ → Nat → Bool × τ
  SetChannels : τ → Nat → Bool × τ
  begin : τ → Bool × τ
  ConsumeSample : τ → Int × Int → Bool × τ

/-- The members of `AudioGeneratorWAV`.  `indetL`/`indetR` stand for whatever the
uninitialised locals `l` and `r` of `loop()` hold; `calls` is the ghost call log. -/
structure AudioGeneratorWAV (σ τ : Type) where
  running : Bool
  file : Option σ
  output : Option τ
  buffSize : Nat
  buff : Option (List Byte)
  buffPtr : Nat
  buffLen : Nat
  channels : Nat
  sampleRate : Nat
  bitsPerSample : Nat
  lastSample : Int × Int
  indetL : Byte
  indetR : Byte
  calls : List Call
  deriving DecidableEq

variable {σ τ : Type}

/-- The constructor: it assigns `running`, `file`, `output`, `buffSize`, `buff`, `buffPtr`
and `buffLen`; the other members keep what the memory `mem` held. -/
def AudioGeneratorWAV.construct (mem : AudioGeneratorWAV σ τ) : AudioGeneratorWAV σ τ :=
  { mem with running := false, file := none, output := none, buffSize := 128,
             buff := none, buffPtr := 0, buffLen := 0, calls := [] }

/-- `file->read(dest, len)`; on the `NULL` pointer nothing is called. -/
def fileRead (S : AudioFileSource σ) (e : AudioGeneratorWAV σ τ) (len : Nat) :
    List Byte × AudioGeneratorWAV σ τ :=
  match e.file with
  | none => ([], e)
  | some f =>
    let r := S.read f len
    (r.1, { e with file := some r.2, calls := e.calls ++ [Call.read len r.1] })

/-- `file->seek(u32, SEEK_CUR)`: the `uint32_t` argument is converted to the `int32_t`
parameter; the result is not looked at. -/
def fileSeek (S : AudioFileSource σ) (e : AudioGeneratorWAV σ τ) (u32 : Nat) :
    AudioGeneratorWAV σ τ :=
  match e.file with
  | none => e
  | some f =>
    let r := S.seek f (toInt32 u32)
    { e with file := some r.2, calls := e.calls ++ [Call.seek (toInt32 u32) r.1] }

/-- `file->isOpen()`. -/
def fileIsOpen (S : AudioFileSource σ) (e : AudioGeneratorWAV σ τ) :
    Bool × AudioGeneratorWAV σ τ :=
  match e.file with
  | none => (false, e)
  | some f => (S.isOpen f, { e with calls := e.calls ++ [Call.isOpen (S.isOpen f)] })

/-- `AudioGeneratorWAV::stop`. -/
def stop (S : AudioFileSource σ) (e : AudioGeneratorWAV σ τ) : Bool × AudioGeneratorWAV σ τ :=
  if e.running = false then (true, e)
  else
    let e1 := { e with running := false, buff := none, calls := e.calls ++ [Call.free] }
    match e1.file with
    | none => (false, e1)
    | some f =>
      let r := S.close f
      (r.1, { e1 with file := some r.2, calls := e1.calls ++ [Call.close r.1] })

/-- `AudioGeneratorWAV::isRunning`. -/
def isRunning (e : AudioGeneratorWAV σ τ) : Bool := e.running

/-- The reload in `GetBufferedData`: `buffPtr = 0; buffLen = file->read(buff, buffSize)`. -/
def refill (S : AudioFileSource σ) (e : AudioGeneratorWAV σ τ) : AudioGeneratorWAV σ τ :=
  let r := fileRead S e e.buffSize
  { r.2 with buffPtr := 0, buffLen := r.1.length,
             buff := r.2.buff.map (fun old => r.1 ++ old.drop r.1.length) }

/-- `buff[i]`. -/
def buffAt (e : AudioGeneratorWAV σ τ) (i : Nat) : Byte := (e.buff.getD []).getD i 0

/-- The `while (bytes--)` loop of `GetBufferedData`; `acc` is what has been stored through
`p` so far.  Returns the result, the octets stored in `dest`, and the engine. -/
def getBytes (S : AudioFileSource σ) :
    Nat → List Byte → AudioGeneratorWAV σ τ → Bool × List Byte × AudioGeneratorWAV σ τ
  | 0, acc, e => (true, acc, e)
  | n + 1, acc, e =>
    let e1 := if e.buffPtr ≥ e.buffLen then refill S e else e
    if e1.buffPtr ≥ e1.buffLen then (false, acc, e1)
    else getBytes S n (acc ++ [buffAt e1 e1.buffPtr]) { e1 with buffPtr := e1.buffPtr + 1 }

/-- `AudioGeneratorWAV::GetBufferedData`. -/
def GetBufferedData (S : AudioFileSource σ) (bytes : Nat) (e : AudioGeneratorWAV σ τ) :
    Bool × List Byte × AudioGeneratorWAV σ τ :=
  if e.running = false then (false, [], e) else getBytes S bytes [] e

/-- `output->ConsumeSample(lastSample)`. -/
def offer (O : AudioOutput τ) (e : AudioGeneratorWAV σ τ) : Bool × AudioGeneratorWAV σ τ :=
  match e.output with
  | none => (false, e)
  | some t =>
    let r := O.ConsumeSample t e.lastSample
    (r.1, { e with output := some r.2,
                   calls := e.calls ++ [Call.ConsumeSample e.lastSample.1 e.lastSample.2 r.1] })

/-- The `int16_t` found at `dest` after `GetBufferedData(2, dest)` stored `got` there. -/
def store16 (old : Int) (got : List Byte) : Int :=
  match got with
  | [] => old
  | [b0] => toInt16 (b0.val + 256 * (toUInt16 old / 256))
  | b0 :: b1 :: _ => toInt16 (u16le b0 b1)

/-- `if (!GetBufferedData(n, dest)) stop();` seen from the engine: the stored octets and the
engine afterwards. -/
def fetchOrStop (S : AudioFileSource σ) (n : Nat) (e : AudioGeneratorWAV σ τ) :
    List Byte × AudioGeneratorWAV σ τ :=
  let r := GetBufferedData S n e
  (r.2.1, if r.1 then r.2.2 else (stop S r.2.2).2)

/-- The body of the `do ... while` of `loop()`: decode one frame into `lastSample`. -/
def decodeFrame (S : AudioFileSource σ) (e : AudioGeneratorWAV σ τ) : AudioGeneratorWAV σ τ :=
  if e.bitsPerSample = 8 then
    let a := fetchOrStop S 1 e
    let l : Byte := a.1.headD e.indetL
    if a.2.channels = 2 then
      let b := fetchOrStop S 1 a.2
      let r : Byte := b.1.headD e.indetR
      { b.2 with lastSample := ((l.val : Int), (r.val : Int)) }
    else
      { a.2 with lastSample := ((l.val : Int), 0) }
  else if e.bitsPerSample = 16 then
    let a := fetchOrStop S 2 e
    let e1 : AudioGeneratorWAV σ τ :=
      { a.2 with lastSample := (store16 a.2.lastSample.1 a.1, a.2.lastSample.2) }
    if e1.channels = 2 then
      let b := fetchOrStop S 2 e1
      { b.2 with lastSample := (b.2.lastSample.1, store16 b.2.lastSample.2 b.1) }
    else
      { e1 with lastSample := (e1.lastSample.1, 0) }
  else e

/-- The `do { ... } while (running && output->ConsumeSample(lastSample));` of `loop()`. -/
def decodeLoop (S : AudioFileSource σ) (O : AudioOutput τ) :
    Nat → AudioGeneratorWAV σ τ → Option (AudioGeneratorWAV σ τ)
  | 0, _ => none
  | fuel + 1, e =>
    let e1 := decodeFrame S e
    if e1.running = false then some e1
    else
      let r := offer O e1
      if r.1 then decodeLoop S O fuel r.2 else some r.2

/-- `AudioGeneratorWAV::loop`. -/
def loop (S : AudioFileSource σ) (O : AudioOutput τ) (fuel : Nat) (e : AudioGeneratorWAV σ τ) :
    Option (Bool × AudioGeneratorWAV σ τ) :=
  if e.running = false then some (true, e)
  else
    let r := offer O e
    if r.1 = false then some (true, r.2)
    else (decodeLoop S O fuel r.2).map (fun e2 => (e2.running, e2))

/-- Modelled from the spec: `ReadU32`, declared in `AudioGeneratorWAV.h`, which is not among
the sources.  One source read of four octets, taken little-endian; it fails when the read
does not obtain the four octets. -/
def ReadU32 (S : AudioFileSource σ) (e : AudioGeneratorWAV σ τ) :
    Option Nat × AudioGeneratorWAV σ τ :=
  let r := fileRead S e 4
  match r.1 with
  | [b0, b1, b2, b3] => (some (u32le b0 b1 b2 b3), r.2)
  | _ => (none, r.2)

/-- Modelled from the spec: `ReadU16`, declared in `AudioGeneratorWAV.h`, which is not among
the sources.  One source read of two octets, taken little-endian; it fails when the read
does not obtain the two octets. -/
def ReadU16 (S : AudioFileSource σ) (e : AudioGeneratorWAV σ τ) :
    Option Nat × AudioGeneratorWAV σ τ :=
  let r := fileRead S e 2
  match r.1 with
  | [b0, b1] => (some (u16le b0 b1), r.2)
  | _ => (none, r.2)

/-- The `do { ... } while (1);` of `ReadWAVInfo` that looks for the data subchunk.
`some true`: left through `break`; `some false`: a `return false` inside the loop. -/
def findData (S : AudioFileSource σ) :
    Nat → AudioGeneratorWAV σ τ → Option (Bool × AudioGeneratorWAV σ τ)
  | 0, _ => none
  | fuel + 1, e =>
    match ReadU32 S e with
    | (none, e1) => some (false, e1)
    | (some id, e1) =>
      if id = idData then some (true, e1)
      else
        match ReadU32 S e1 with
        | (none, e2) => some (false, e2)
        | (some sz, e2) => findData S fuel (fileSeek S e2 sz)

/-- The end of `ReadWAVInfo`, after the data subchunk was found: the `isOpen` test, the
size word, and the buffer set-up.  `malloc(buffSize)` is taken to return a buffer, whose
octets are written here as zeros; none of them is read before a source read has stored
over it. -/
def afterData (S : AudioFileSource σ) (e : AudioGeneratorWAV σ τ) :
    Bool × AudioGeneratorWAV σ τ :=
  let o := fileIsOpen S e
  if o.1 = false then (false, o.2)
  else
    match ReadU32 S o.2 with
    | (none, e1) => (false, e1)
    | (some _, e1) =>
      (true, { e1 with buff := some (List.replicate e1.buffSize 0), buffPtr := 0, buffLen := 0 })

/-- How `ReadWAVInfo` goes on after its chunk loop: out of fuel, a `return false` from
inside the loop, or the end of the function after the `break`. -/
def afterFind (S : AudioFileSource σ) :
    Option (Bool × AudioGeneratorWAV σ τ) → Option (Bool × AudioGeneratorWAV σ τ)
  | none => none
  | some (false, e6) => some (false, e6)
  | some (true, e6) => some (afterData S e6)

/-- The part of `ReadWAVInfo` from the `NumChannels` field on. -/
def readFormat (S : AudioFileSource σ) (fuel : Nat) (e : AudioGeneratorWAV σ τ) :
    Option (Bool × AudioGeneratorWAV σ τ) :=
  match ReadU16 S e with
  | (none, e1) => some (false, e1)
  | (some ch, e1) =>
    let e1 := { e1 with channels := ch }
    if ch < 1 ∨ ch > 2 then some (false, e1)
    else
      match ReadU32 S e1 with
      | (none, e2) => some (false, e2)
      | (some hz, e2) =>
        let e2 := { e2 with sampleRate := hz }
        if hz < 1 then some (false, e2)
        else
          match ReadU32 S e2 with
          | (none, e3) => some (false, e3)
          | (some _, e3) =>
            match ReadU16 S e3 with
            | (none, e4) => some (false, e4)
            | (some _, e4) =>
              match ReadU16 S e4 with
              | (none, e5) => some (false, e5)
              | (some bits, e5) =>
                let e5 := { e5 with bitsPerSample := bits }
                if bits ≠ 8 ∧ bits ≠ 16 then some (false, e5)
                else
                  afterFind S (findData S fuel e5)

/-- `AudioGeneratorWAV::ReadWAVInfo`. -/
def ReadWAVInfo (S : AudioFileSource σ) (fuel : Nat) (e : AudioGeneratorWAV σ τ) :
    Option (Bool × AudioGeneratorWAV σ τ) :=
  match ReadU32 S e with
  | (none, e1) => some (false, e1)
  | (some riff, e1) =>
    if riff ≠ idRIFF then some (false, e1)
    else
      match ReadU32 S e1 with
      | (none, e2) => some (false, e2)
      | (some _, e2) =>
        match ReadU32 S e2 with
        | (none, e3) => some (false, e3)
        | (some wave, e3) =>
          if wave ≠ idWAVE then some (false, e3)
          else
            match ReadU32 S e3 with
            | (none, e4) => some (false, e4)
            | (some fmt, e4) =>
              if fmt ≠ idFmt then some (false, e4)
              else
                match ReadU32 S e4 with
                | (none, e5) => some (false, e5)
                | (some sz, e5) =>
                  if sz ≠ 16 then some (false, e5)
                  else
                    match ReadU16 S e5 with
                    | (none, e6) => some (false, e6)
                    | (some af, e6) =>
                      if af ≠ 1 then some (false, e6) else readFormat S fuel e6

/-- The four set-up calls of `begin()` on the sink, after `ReadWAVInfo` succeeded. -/
def negotiate (O : AudioOutput τ) (e : AudioGeneratorWAV σ τ) (t : τ) :
    Bool × AudioGeneratorWAV σ τ :=
  let r1 := O.SetRate t e.sampleRate
  let e1 := { e with output := some r1.2, calls := e.calls ++ [Call.SetRate e.sampleRate r1.1] }
  if r1.1 = false then (false, e1)
  else
    let r2 := O.SetBitsPerSample r1.2 e1.bitsPerSample
    let e2 := { e1 with output := some r2.2,
                        calls := e1.calls ++ [Call.SetBitsPerSample e1.bitsPerSample r2.1] }
    if r2.1 = false then (false, e2)
    else
      let r3 := O.SetChannels r2.2 e2.channels
      let e3 := { e2 with output := some r3.2,
                          calls := e2.calls ++ [Call.SetChannels e2.channels r3.1] }
      if r3.1 = false then (false, e3)
      else
        let r4 := O.begin r3.2
        let e4 := { e3 with output := some r4.2, calls := e3.calls ++ [Call.begin r4.1] }
        if r4.1 = false then (false, e4)
        else (true, { e4 with running := true })

/-- `AudioGeneratorWAV::begin`. -/
def begin (S : AudioFileSource σ) (O : AudioOutput τ) (fuel : Nat)
    (source : Option σ) (output : Option τ) (e : AudioGeneratorWAV σ τ) :
    Option (Bool × AudioGeneratorWAV σ τ) :=
  match source with
  | none => some (false, e)
  | some s =>
    let e1 := { e with file := some s }
    match output with
    | none => some (false, e1)
    | some t =>
      let e2 := { e1 with output := some t }
      let o := fileIsOpen S e2
      if o.1 = false then some (false, o.2)
      else
        match ReadWAVInfo S fuel o.2 with
        | none => none
        | some (false, e3) => some (false, e3)
        | some (true, e3) =>
          match e3.output with
          | none => some (false, e3)
          | some t3 => some (negotiate O e3 t3)

/-! ## Collaborators used to state the claims -/

/-- A byte source over a finite octet sequence: `data` is the whole stream and `pos` the
read position.  `read` hands out what is there, up to the requested length; when `seekable`,
`seek(k, SEEK_CUR)` moves the position by exactly `k`; otherwise it does what
`AudioFileSourceHTTPStream::seek` does (nothing, returning false). -/
structure MemFile where
  data : List Byte
  pos : Nat
  opened : Bool
  seekable : Bool
  deriving DecidableEq

/-- `read` of a `MemFile`. -/
def MemFile.read (f : MemFile) (len : Nat) : List Byte × MemFile :=
  if f.opened = false then ([], f)
  else ((f.data.drop f.pos).take len, { f with pos := f.pos + ((f.data.drop f.pos).take len).length })

/-- `seek(k, SEEK_CUR)` of a `MemFile`. -/
def MemFile.seek (f : MemFile) (k : Int) : Bool × MemFile :=
  if f.opened = false ∨ f.seekable = false then (false, f)
  else if 0 ≤ (f.pos : Int) + k then (true, { f with pos := ((f.pos : Int) + k).toNat })
  else (false, f)

/-- `close` of a `MemFile`. -/
def MemFile.close (f : MemFile) : Bool × MemFile := (true, { f with opened := false })

/-- The `AudioFileSource` interface of a `MemFile`. -/
def memSource : AudioFileSource MemFile :=
  { read := MemFile.read, seek := MemFile.seek, close := MemFile.close,
    isOpen := fun f => f.opened }

/-- An open, seekable source positioned at the start of `bytes`. -/
def MemFile.ofStream (bytes : List Byte) : MemFile :=
  { data := bytes, pos := 0, opened := true, seekable := true }

/-- A sink over a script of answers: every set-up call is accepted, and `ConsumeSample`
answers with the head of the script (accepting once the script is used up). -/
def scriptedSink : AudioOutput (List Bool) :=
  { SetRate := fun t _ => (true, t),
    SetBitsPerSample := fun t _ => (true, t),
    SetChannels := fun t _ => (true, t),
    begin := fun t => (true, t),
    ConsumeSample := fun t _ => (t.headD true, t.tail) }

/-- The word `"LIST"`. -/
def idLIST : Nat := 0x5453494c

/-- The 12-octet RIFF/WAVE header. -/
def riffHeader (riffSize : Nat) : List Byte := le32 idRIFF ++ le32 riffSize ++ le32 idWAVE

/-- A `fmt ` chunk of declared size 16 and audio format 1 (PCM). -/
def fmtChunk (channels sampleRate byteRate blockAlign bitsPerSample : Nat) : List Byte :=
  le32 idFmt ++ le32 16 ++ le16 1 ++ le16 channels ++ le32 sampleRate ++ le32 byteRate ++
    le16 blockAlign ++ le16 bitsPerSample

/-- The 12-octet RIFF/WAVE header followed by a 16-octet PCM `fmt ` chunk. -/
def wavHeader (riffSize channels sampleRate byteRate blockAlign bitsPerSample : Nat) :
    List Byte :=
  riffHeader riffSize ++ fmtChunk channels sampleRate byteRate blockAlign bitsPerSample

/-- A chunk: identifier, declared size, payload. -/
def chunk (id size : Nat) (payload : List Byte) : List Byte := le32 id ++ le32 size ++ payload

/-- The sink calls of a log that are `ConsumeSample`, as (left, right, answer). -/
def consumed : List Call → List (Int × Int × Bool)
  | [] => []
  | Call.ConsumeSample l r ok :: cs => (l, r, ok) :: consumed cs
  | _ :: cs => consumed cs

/-- The calls of a log made on the sink. -/
def sinkCalls (cs : List Call) : List Call :=
  cs.filter fun c =>
    match c with
    | Call.SetRate _ _ => true
    | Call.SetBitsPerSample _ _ => true
    | Call.SetChannels _ _ => true
    | Call.begin _ => true
    | Call.ConsumeSample _ _ _ => true
    | _ => false

/-- A never-started engine: the constructor run over zeroed memory, except that
`lastSample` holds `stale`. -/
def freshEngine (stale : Int × Int) : AudioGeneratorWAV MemFile (List Bool) :=
  AudioGeneratorWAV.construct
    { running := false, file := none, output := none, buffSize := 0, buff := none,
      buffPtr := 0, buffLen := 0, channels := 0, sampleRate := 0, bitsPerSample := 0,
      lastSample := stale, indetL := 0, indetR := 0, calls := [] }

/-- The source that has handed out `pre` and still holds `rest`. -/
def MemFile.mid (pre rest : List Byte) (sk : Bool) : MemFile :=
  { data := pre ++ rest, pos := pre.length, opened := true, seekable := sk }

/-- What the source behind `file` can still deliver. -/
def restOf (e : AudioGeneratorWAV MemFile τ) : List Byte :=
  match e.file with
  | none => []
  | some f => if f.opened then f.data.drop f.pos else []

/-- The octets `GetBufferedData` has yet to deliver: the unread part of the buffer, then
what the source still holds. -/
def pending (e : AudioGeneratorWAV MemFile τ) : List Byte :=
  ((e.buff.getD []).take e.buffLen).drop e.buffPtr ++ restOf e

/-- An 8-bit mono file of 8000 Hz whose data region is `[0x10, 0x20]`. -/
def wav8mono : List Byte := wavHeader 38 1 8000 8000 1 8 ++ chunk idData 2 [0x10, 0x20]

/-- A 16-bit stereo file of 8000 Hz whose data region is `[0x01, 0x00, 0xFF, 0xFF]`. -/
def wav16stereo : List Byte :=
  wavHeader 40 2 8000 32000 4 16 ++ chunk idData 4 [0x01, 0x00, 0xFF, 0xFF]

/-- The members a decode step never assigns. -/
def SameSetup (e e1 : AudioGeneratorWAV σ τ) : Prop :=
  e1.output = e.output ∧ e1.channels = e.channels ∧ e1.bitsPerSample = e.bitsPerSample ∧
  e1.sampleRate = e.sampleRate ∧ e1.buffSize = e.buffSize ∧ e1.indetL = e.indetL ∧
  e1.indetR = e.indetR

/-- The engine after `begin()` on the stream `wav` with the scripted sink holding `script`;
the never-initialised `lastSample` holds `(7, 9)`. -/
def demoStart (wav : List Byte) (script : List Bool) : AudioGeneratorWAV MemFile (List Bool) :=
  match begin memSource scriptedSink 1 (some (MemFile.ofStream wav)) (some script)
      (freshEngine (7, 9)) with
  | some r => r.2
  | none => freshEngine (7, 9)

/-- The engine after one more `loop()` call. -/
def demoStep (e : AudioGeneratorWAV MemFile (List Bool)) : AudioGeneratorWAV MemFile (List Bool) :=
  match loop memSource scriptedSink 8 e with
  | some r => r.2
  | none => e

/-- The signed little-endian 16-bit integer of two octets: `b0 + 256 * b1` read in two's
complement. -/
def int16le (b0 b1 : Byte) : Int :=
  if b0.val + 256 * b1.val < 32768 then ((b0.val + 256 * b1.val : Nat) : Int)
  else ((b0.val + 256 * b1.val : Nat) : Int) - 65536

/-- A running engine over an open `MemFile` with an allocated buffer that holds at least
`buffLen` octets and has room for at least one. -/
def Ready (e : AudioGeneratorWAV MemFile τ) : Prop :=
  e.running = true ∧ (∃ f, e.file = some f ∧ f.opened = true) ∧
  (∃ bs, e.buff = some bs ∧ e.buffLen ≤ bs.length) ∧ 1 ≤ e.buffSize

/-- Whether a logged call is a source read. -/
def Call.isRead : Call → Bool
  | Call.read _ _ => true
  | _ => false

/-- From `e` to `e1` the engine made source reads, the last of which returned nothing, then
released the buffer and closed the source, and is stopped. -/
def StoppedOnEmptyRead (e e1 : AudioGeneratorWAV σ τ) : Prop :=
  e1.running = false ∧
  ∃ rs len ok, e1.calls = e.calls ++ rs ++ [Call.read len [], Call.free, Call.close ok] ∧
    ∀ c ∈ rs, c.isRead = true

/-- A stream with a `LIST` chunk of four payload octets between the RIFF/WAVE header and
the `fmt ` chunk, followed by a `data` chunk holding `[0x10, 0x20]`. -/
def wavListFirst : List Byte :=
  riffHeader 50 ++ chunk idLIST 4 [0x49, 0x4e, 0x46, 0x4f] ++ fmtChunk 1 8000 8000 1 8 ++
    chunk idData 2 [0x10, 0x20]

/-- The octets of a sequence of chunks, each given by its identifier and its payload; the
declared size of a chunk is the length of its payload. -/
def chunksBytes : List (Nat × List Byte) → List Byte
  | [] => []
  | c :: cs => chunk c.1 c.2.length c.2 ++ chunksBytes cs

/-- The source calls by which `ReadWAVInfo` passes over a sequence of chunks: per chunk the
read of the identifier, the read of the size, and the seek over the payload. -/
def skipCalls : List (Nat × List Byte) → List Call
  | [] => []
  | c :: cs =>
    [Call.read 4 (le32 c.1), Call.read 4 (le32 c.2.length), Call.seek (c.2.length : Int) true]
      ++ skipCalls cs

/-- The eleven reads of `ReadWAVInfo` up to and including `bitsPerSample`. -/
def fmtReads (riffSize channels sampleRate byteRate blockAlign bitsPerSample : Nat) :
    List Call :=
  [Call.read 4 (le32 idRIFF), Call.read 4 (le32 riffSize), Call.read 4 (le32 idWAVE),
   Call.read 4 (le32 idFmt), Call.read 4 (le32 16), Call.read 2 (le16 1),
   Call.read 2 (le16 channels), Call.read 4 (le32 sampleRate), Call.read 4 (le32 byteRate),
   Call.read 2 (le16 blockAlign), Call.read 2 (le16 bitsPerSample)]

/-- A stream whose `LIST` chunk declares `2^32 - 8` octets (and holds as many), between a
valid `fmt ` chunk and the `data` chunk. -/
def wavHugeChunk : List Byte :=
  wavHeader 4294967295 1 8000 8000 1 8 ++
    chunk idLIST 4294967288 (List.replicate 4294967288 0) ++ chunk idData 0 []

/-- The little-endian 32-bit word at the head of a sequence, if it has four octets. -/
def word32 (l : List Byte) : Option Nat :=
  match l.take 4 with
  | [b0, b1, b2, b3] => some (u32le b0 b1 b2 b3)
  | _ => none

/-- The little-endian 16-bit word at the head of a sequence, if it has two octets. -/
def word16 (l : List Byte) : Option Nat :=
  match l.take 2 with
  | [b0, b1] => some (u16le b0 b1)
  | _ => none

/-- The stream `bs` starts with `"RIFF"`, has `"WAVE"` at octets 8..11, then a `fmt ` chunk
of declared size 16 and audio format 1 whose channel count `c` is 1 or 2, whose sample rate
`r` is at least 1 and whose bit depth `b` is 8 or 16. -/
def ValidHeader (bs : List Byte) (c r b : Nat) : Prop :=
  word32 bs = some idRIFF ∧ word32 (bs.drop 8) = some idWAVE ∧
  word32 (bs.drop 12) = some idFmt ∧ word32 (bs.drop 16) = some 16 ∧
  word16 (bs.drop 20) = some 1 ∧ word16 (bs.drop 22) = some c ∧
  word32 (bs.drop 24) = some r ∧ word16 (bs.drop 34) = some b ∧
  (c = 1 ∨ c = 2) ∧ 1 ≤ r ∧ (b = 8 ∨ b = 16)

/-- The format members. -/
def SameFormat (e e1 : AudioGeneratorWAV σ τ) : Prop :=
  e1.channels = e.channels ∧ e1.sampleRate = e.sampleRate ∧ e1.bitsPerSample = e.bitsPerSample

/-- A stream that starts with `"RIFX"` instead of `"RIFF"` and is otherwise `wav8mono`. -/
def wavNotRiff : List Byte := [0x52, 0x49, 0x46, 0x58] ++ wav8mono.drop 4

/-- A sink over a script of answers that every call draws from, the set-up calls included:
each call answers with the head of the script (accepting once the script is used up). -/
def answerSink : AudioOutput (List Bool) :=
  { SetRate := fun t _ => (t.headD true, t.tail),
    SetBitsPerSample := fun t _ => (t.headD true, t.tail),
    SetChannels := fun t _ => (t.headD true, t.tail),
    begin := fun t => (t.headD true, t.tail),
    ConsumeSample := fun t _ => (t.headD true, t.tail) }

/-- A `MemFile` source whose `close()` reports failure and leaves the file open. -/
def stubbornSource : AudioFileSource MemFile :=
  { read := MemFile.read, seek := MemFile.seek, close := fun f => (false, f),
    isOpen := fun f => f.opened }

/-- The number of `close()` calls in a log. -/
def closeCount : List Call → Nat
  | [] => 0
  | Call.close _ :: cs => closeCount cs + 1
  | _ :: cs => closeCount cs

/-- The number of `free(buff)` calls in a log. -/
def freeCount : List Call → Nat
  | [] => 0
  | Call.free :: cs => freeCount cs + 1
  | _ :: cs => freeCount cs

/-- A stream whose `LIST` chunk, behind the `fmt ` chunk, declares eight octets and holds
the eight octets of a `data` chunk header; the real `data` chunk with `[0x10, 0x20]`
follows it. -/
def wavDataInList : List Byte :=
  wavHeader 54 1 8000 8000 1 8 ++ chunk idLIST 8 (le32 idData ++ le32 0) ++
    chunk idData 2 [0x10, 0x20]

/-- An open source over `bytes` that cannot seek, as `AudioFileSourceHTTPStream`. -/
def MemFile.ofPipe (bytes : List Byte) : MemFile :=
  { data := bytes, pos := 0, opened := true, seekable := false }

/-- The state of an `AudioFileSourceHTTPStream` together with the `HTTPClient` and
`WiFiClient` it owns, which are not part of this repository: `connected` is what
`http.connected()` answers, `buffered` are the octets the client holds (`available()` is
their number), `arriving` lists what the network hands over during each coming `yield()`,
`pos` is the member `pos`, and `yields` counts the `yield()` calls made so far. -/
structure HTTPStream where
  connected : Bool
  buffered : List Byte
  arriving : List (List Byte)
  pos : Nat
  yields : Nat
  deriving DecidableEq

/-- One `yield()`: the next delivery of the network joins the buffered octets. -/
def HTTPStream.yield (s : HTTPStream) : HTTPStream :=
  { s with buffered := s.buffered ++ s.arriving.headD [], arriving := s.arriving.tail,
           yields := s.yields + 1 }

/-- The loop `while (stream->available() < (int)len) yield();` of
`AudioFileSourceHTTPStream::read`; `none` when the fuel runs out inside it. -/
def HTTPStream.awaitData : Nat → Nat → HTTPStream → Option HTTPStream
  | 0, len, s => if (s.buffered.length : Int) < toInt32 len then none else some s
  | fuel + 1, len, s =>
    if (s.buffered.length : Int) < toInt32 len then HTTPStream.awaitData fuel len s.yield
    else some s

/-- `AudioFileSourceHTTPStream::read`: the octets stored in `data` (the return value is
their number) and the state afterwards. -/
def HTTPStream.read (fuel : Nat) (len : Nat) (s : HTTPStream) :
    Option (List Byte × HTTPStream) :=
  if s.connected = false then some ([], s)
  else
    match HTTPStream.awaitData fuel len s with
    | none => none
    | some s1 =>
      if s1.buffered.length = 0 then some ([], s1)
      else
        let len1 := if s1.buffered.length < len then s1.buffered.length else len
        some (s1.buffered.take len1,
          { s1 with buffered := s1.buffered.drop len1,
                    pos := (s1.pos + (s1.buffered.take len1).length) % 4294967296 })

/-- `AudioFileSourceHTTPStream::seek`. -/
def HTTPStream.seek (s : HTTPStream) (_pos : Int) (_dir : Int) : Bool × HTTPStream := (false, s)

/-- `AudioFileSourceHTTPStream::close`: `http.end()` ends the connection. -/
def HTTPStream.close (s : HTTPStream) : Bool × HTTPStream := (true, { s with connected := false })

/-- `AudioFileSourceHTTPStream::isOpen`. -/
def HTTPStream.isOpen (s : HTTPStream) : Bool := s.connected

/-- `AudioFileSourceHTTPStream::getSize`. -/
def HTTPStream.getSize (_s : HTTPStream) : Nat := 2147483648

/-- `AudioFileSourceHTTPStream::getPos`. -/
def HTTPStream.getPos (s : HTTPStream) : Nat := s.pos

/-- A connected stream that holds one octet; `later` is what the network still delivers. -/
def oneOctetStream (later : List (List Byte)) : HTTPStream :=
  { connected := true, buffered := [0x10], arriving := later, pos := 0, yields := 0 }

/-- A source that hands out one fixed octet sequence in order, in pieces of its own
choosing: `rem s` is what the source in state `s` has yet to deliver, and a read of up to
`n` octets delivers the next `k ≤ n` of them, at least one when `n ≥ 1` and some are left;
so a read of no octet happens only at the end. -/
def Sequential (S : AudioFileSource σ) (rem : σ → List Byte) : Prop :=
  ∀ s n, ∃ k, k ≤ n ∧ (1 ≤ n → rem s ≠ [] → 1 ≤ k) ∧
    (S.read s n).1 = (rem s).take k ∧ rem (S.read s n).2 = (rem s).drop k

/-- The octets `GetBufferedData` has yet to deliver over a sequential source: the unread
part of the buffer, then what the source still holds. -/
def pendingOf (rem : σ → List Byte) (e : AudioGeneratorWAV σ τ) : List Byte :=
  ((e.buff.getD []).take e.buffLen).drop e.buffPtr ++
    (match e.file with
     | none => []
     | some f => rem f)

/-- A running engine with a source and an allocated buffer that holds at least `buffLen`
octets and has room for at least one. -/
def ReadyOn (e : AudioGeneratorWAV σ τ) : Prop :=
  e.running = true ∧ (∃ f, e.file = some f) ∧
  (∃ bs, e.buff = some bs ∧ e.buffLen ≤ bs.length) ∧ 1 ≤ e.buffSize

/-- What a `MemFile` has yet to deliver. -/
def MemFile.rem (f : MemFile) : List Byte := if f.opened then f.data.drop f.pos else []

/-- A source that delivers `rest` in pieces: the `i`-th read delivers at most `cuts[i]`
octets (never fewer than one while octets are left and one is asked for; once `cuts` is used
up, as many as are asked for). -/
structure SplitFile where
  rest : List Byte
  cuts : List Nat
  deriving DecidableEq

/-- `read` of a `SplitFile`. -/
def SplitFile.read (s : SplitFile) (n : Nat) : List Byte × SplitFile :=
  (s.rest.take (min n (max 1 (s.cuts.headD n))),
    { rest := s.rest.drop (min n (max 1 (s.cuts.headD n))), cuts := s.cuts.tail })

/-- The `AudioFileSource` interface of a `SplitFile`; it cannot seek. -/
def splitSource : AudioFileSource SplitFile :=
  { read := SplitFile.read, seek := fun s _ => (false, s), close := fun s => (true, s),
    isOpen := fun _ => true }

/-- Reference decoder, 8-bit mono: one frame per octet, the right value 0. -/
def frames8mono : List Byte → List (Int × Int)
  | [] => []
  | a :: xs => ((a.val : Int), 0) :: frames8mono xs

/-- Reference decoder, 8-bit stereo: one frame per two octets; an incomplete frame at the
end yields nothing. -/
def frames8stereo : List Byte → List (Int × Int)
  | a :: b :: xs => ((a.val : Int), (b.val : Int)) :: frames8stereo xs
  | _ => []

/-- Reference decoder, 16-bit mono: one frame per two octets, the right value 0. -/
def frames16mono : List Byte → List (Int × Int)
  | a :: b :: xs => (int16le a b, 0) :: frames16mono xs
  | _ => []

/-- Reference decoder, 16-bit stereo: one frame per four octets. -/
def frames16stereo : List Byte → List (Int × Int)
  | a :: b :: c :: d :: xs => (int16le a b, int16le c d) :: frames16stereo xs
  | _ => []

/-- Reference decoder: the complete frames of an octet sequence, in order, for `bits` bits
per sample (8, otherwise taken as 16) and `channels` channels (2, otherwise taken as 1).  It
knows nothing of buffers or of how the octets arrive. -/
def framesOf (bits channels : Nat) (xs : List Byte) : List (Int × Int) :=
  if bits = 8 then (if channels = 2 then frames8stereo xs else frames8mono xs)
  else (if channels = 2 then frames16stereo xs else frames16mono xs)

/-- Octets per frame. -/
def frameSize (bits channels : Nat) : Nat :=
  (if bits = 8 then 1 else 2) * (if channels = 2 then 2 else 1)

/-- A source whose `read(buf, n)` returns a count in `0..n`. -/
def BoundedReads (S : AudioFileSource σ) : Prop := ∀ s n, (S.read s n).1.length ≤ n

/-- The buffer predicate `buffPtr ≤ buffLen ≤ buffSize`. -/
def BufferInv (e : AudioGeneratorWAV σ τ) : Prop := e.buffPtr ≤ e.buffLen ∧ e.buffLen ≤ e.buffSize

/-- Whether every source read in a list of calls asked for `n` octets. -/
def readsAsk (n : Nat) (cs : List Call) : Bool :=
  cs.all fun c =>
    match c with
    | Call.read len _ => len == n
    | _ => true

/-- From `e` to `e1`: `buffSize` is the same, the buffer predicate is kept, and the calls
made are appended to the log, every source read among them asking for `buffSize` octets. -/
def BufferStep (e e1 : AudioGeneratorWAV σ τ) : Prop :=
  e1.buffSize = e.buffSize ∧ (BufferInv e → BufferInv e1) ∧
  ∃ tail, e1.calls = e.calls ++ tail ∧ readsAsk e.buffSize tail = true

/-- A sink that accepts every call and keeps the frames it is given. -/
def recordingSink : AudioOutput (List (Int × Int)) :=
  { SetRate := fun t _ => (true, t),
    SetBitsPerSample := fun t _ => (true, t),
    SetChannels := fun t _ => (true, t),
    begin := fun t => (true, t),
    ConsumeSample := fun t x => (true, t ++ [x]) }

/-- The octets delivered by successive `GetBufferedData` calls that ask for `ns` octets in
turn: those of the calls that returned true, concatenated in call order. -/
def fetchAll (S : AudioFileSource σ) : List Nat → AudioGeneratorWAV σ τ → List Byte
  | [], _ => []
  | n :: ns, e =>
    (if (GetBufferedData S n e).1 then (GetBufferedData S n e).2.1 else []) ++
      fetchAll S ns (GetBufferedData S n e).2.2

/-- A running engine at the start of a data region `data` that its source delivers in the
pieces given by `cuts`, with a buffer of `buffSize` octets, allocated and empty. -/
def splitEngine (buffSize : Nat) (cuts : List Nat) (bits channels : Nat) (data : List Byte) :
    AudioGeneratorWAV SplitFile (List (Int × Int)) :=
  { running := true, file := some { rest := data, cuts := cuts }, output := some [],
    buffSize := buffSize, buff := some (List.replicate buffSize 0), buffPtr := 0, buffLen := 0,
    channels := channels, sampleRate := 8000, bitsPerSample := bits, lastSample := (0, 0),
    indetL := 0, indetR := 0, calls := [] }

/-- A never-started engine for the recording sink: the constructor run over zeroed memory,
except that `lastSample` holds `stale`. -/
def freshRecorder (stale : Int × Int) : AudioGeneratorWAV MemFile (List (Int × Int)) :=
  AudioGeneratorWAV.construct
    { running := false, file := none, output := none, buffSize := 0, buff := none,
      buffPtr := 0, buffLen := 0, channels := 0, sampleRate := 0, bitsPerSample := 0,
      lastSample := stale, indetL := 0, indetR := 0, calls := [] }

/-- The octets of the two 16-bit stereo frames `(1, -1)` and `(2, -2)`. -/
def twoFrames16 : List Byte := [0x01, 0x00, 0xFF, 0xFF, 0x02, 0x00, 0xFE, 0xFF]

/-- The frames a running engine still owes the sink between two `loop()` calls over a
sequential source: the frame held in `lastSample`, which the next call offers first, and
then the frames of the reference decoder on the octets still pending. -/
def framesDue (rem : σ → List Byte) (e : AudioGeneratorWAV σ τ) : List (Int × Int) :=
  e.lastSample :: framesOf e.bitsPerSample e.channels (pendingOf rem e)

/-- The frames of a log's `ConsumeSample` calls that the sink accepted, in call order. -/
def acceptedOf (cs : List Call) : List (Int × Int) :=
  (consumed cs).filterMap fun x => if x.2.2 then some (x.1, x.2.1) else none

/-- The caller calling `loop()` `n` times in a row, whatever each call returns. -/
def runLoops (S : AudioFileSource σ) (O : AudioOutput τ) (fuel : Nat) :
    Nat → AudioGeneratorWAV σ τ → Option (AudioGeneratorWAV σ τ)
  | 0, e => some e
  | n + 1, e =>
    match loop S O fuel e with
    | none => none
    | some r => runLoops S O fuel n r.2

/-- A 16-bit mono engine with a buffer of 3 octets after its first two-octet fetch from the
data region `01 00 02 00 03 00`: one octet is left in the buffer, so the next two-octet
fetch needs the last buffered octet and the first octet of a new read. -/
def straddleEngine : AudioGeneratorWAV SplitFile (List (Int × Int)) :=
  (GetBufferedData splitSource 2
    (splitEngine 3 [] 16 1 [0x01, 0x00, 0x02, 0x00, 0x03, 0x00])).2.2

/-! ## Basic facts about the byte source and the header reads -/

theorem u32le_le32 (v : Nat) :
    u32le (byteOf v) (byteOf (v / 256)) (byteOf (v / 65536)) (byteOf (v / 16777216))
      = v % 4294967296 := by
  simp only [u32le, byteOf]
  omega

theorem u16le_le16 (v : Nat) : u16le (byteOf v) (byteOf (v / 256)) = v % 65536 := by
  simp only [u16le, byteOf]
  omega

@[simp] theorem memSource_isOpen (f : MemFile) : memSource.isOpen f = f.opened := rfl

@[simp] theorem MemFile.mid_opened (pre rest : List Byte) (sk : Bool) :
    (MemFile.mid pre rest sk).opened = true := rfl

theorem MemFile.read_mid (pre x rest : List Byte) (sk : Bool) :
    MemFile.read (MemFile.mid pre (x ++ rest) sk) x.length =
      (x, MemFile.mid (pre ++ x) rest sk) := by
  simp [MemFile.read, MemFile.mid]

theorem MemFile.read_mid4 (pre rest : List Byte) (a b c d : Byte) (sk : Bool) :
    MemFile.read (MemFile.mid pre (a :: b :: c :: d :: rest) sk) 4 =
      ([a, b, c, d], MemFile.mid (pre ++ [a, b, c, d]) rest sk) := by
  simpa using MemFile.read_mid pre [a, b, c, d] rest sk

theorem MemFile.read_mid2 (pre rest : List Byte) (a b : Byte) (sk : Bool) :
    MemFile.read (MemFile.mid pre (a :: b :: rest) sk) 2 =
      ([a, b], MemFile.mid (pre ++ [a, b]) rest sk) := by
  simpa using MemFile.read_mid pre [a, b] rest sk

theorem ReadU32_mid (v : Nat) (pre rest : List Byte) (sk : Bool)
    (rn : Bool) (out : Option τ) (bs : Nat) (bf : Option (List Byte)) (bp bl ch sr bps : Nat)
    (ls : Int × Int) (iL iR : Byte) (cs : List Call) :
    ReadU32 memSource
      (AudioGeneratorWAV.mk rn (some (MemFile.mid pre (le32 v ++ rest) sk)) out bs bf bp bl ch sr
        bps ls iL iR cs) =
      (some (v % 4294967296),
        AudioGeneratorWAV.mk rn (some (MemFile.mid (pre ++ le32 v) rest sk)) out bs bf bp bl ch sr
          bps ls iL iR (cs ++ [Call.read 4 (le32 v)])) := by
  simp [ReadU32, fileRead, memSource, le32, MemFile.read_mid4, u32le_le32 v]

theorem ReadU16_mid (v : Nat) (pre rest : List Byte) (sk : Bool)
    (rn : Bool) (out : Option τ) (bs : Nat) (bf : Option (List Byte)) (bp bl ch sr bps : Nat)
    (ls : Int × Int) (iL iR : Byte) (cs : List Call) :
    ReadU16 memSource
      (AudioGeneratorWAV.mk rn (some (MemFile.mid pre (le16 v ++ rest) sk)) out bs bf bp bl ch sr
        bps ls iL iR cs) =
      (some (v % 65536),
        AudioGeneratorWAV.mk rn (some (MemFile.mid (pre ++ le16 v) rest sk)) out bs bf bp bl ch sr
          bps ls iL iR (cs ++ [Call.read 2 (le16 v)])) := by
  simp [ReadU16, fileRead, memSource, le16, MemFile.read_mid2, u16le_le16 v]

/-! ## What a decode step leaves alone -/

theorem SameSetup_refl (e : AudioGeneratorWAV σ τ) : SameSetup e e := by
  simp [SameSetup]

theorem SameSetup_trans {a b c : AudioGeneratorWAV σ τ} (h1 : SameSetup a b)
    (h2 : SameSetup b c) : SameSetup a c := by
  simp only [SameSetup] at *
  obtain ⟨x1, x2, x3, x4, x5, x6, x7⟩ := h1
  obtain ⟨y1, y2, y3, y4, y5, y6, y7⟩ := h2
  exact ⟨y1.trans x1, y2.trans x2, y3.trans x3, y4.trans x4, y5.trans x5, y6.trans x6,
    y7.trans x7⟩

theorem refill_setup (S : AudioFileSource σ) (e : AudioGeneratorWAV σ τ) :
    SameSetup e (refill S e) ∧ (refill S e).running = e.running ∧
      (refill S e).lastSample = e.lastSample := by
  unfold refill fileRead SameSetup
  cases e.file <;> simp

theorem getBytes_setup (S : AudioFileSource σ) (n : Nat) :
    ∀ (acc : List Byte) (e : AudioGeneratorWAV σ τ),
      SameSetup e (getBytes S n acc e).2.2 ∧ (getBytes S n acc e).2.2.running = e.running ∧
        (getBytes S n acc e).2.2.lastSample = e.lastSample := by
  induction n with
  | zero => intro acc e; simp [getBytes, SameSetup_refl]
  | succ n ih =>
    intro acc e
    simp only [getBytes]
    have hr := refill_setup S e
    by_cases h1 : e.buffPtr ≥ e.buffLen
    · simp only [h1, if_true]
      split_ifs with h2
      · exact hr
      · have := ih (acc ++ [buffAt (refill S e) (refill S e).buffPtr])
          { refill S e with buffPtr := (refill S e).buffPtr + 1 }
        exact ⟨SameSetup_trans hr.1 this.1, this.2.1.trans hr.2.1, this.2.2.trans hr.2.2⟩
    · simp only [h1, if_false]
      exact ih _ _

theorem stop_setup (S : AudioFileSource σ) (e : AudioGeneratorWAV σ τ) :
    SameSetup e (stop S e).2 ∧ (stop S e).2.running = false ∧
      (stop S e).2.lastSample = e.lastSample := by
  unfold stop SameSetup
  cases hrun : e.running <;> cases hf : e.file <;> simp [hrun, hf]

theorem fetchOrStop_setup (S : AudioFileSource σ) (n : Nat) (e : AudioGeneratorWAV σ τ) :
    SameSetup e (fetchOrStop S n e).2 ∧ (fetchOrStop S n e).2.lastSample = e.lastSample := by
  unfold fetchOrStop GetBufferedData
  have hs := stop_setup S e
  have hg := getBytes_setup S n [] e
  have hs2 := stop_setup S (getBytes S n [] e).2.2
  cases hrun : e.running
  · simp [hs.1, hs.2.2]
  · cases hok : (getBytes S n [] e).1
    · simp [hok]; exact ⟨SameSetup_trans hg.1 hs2.1, hs2.2.2.trans hg.2.2⟩
    · simp [hok]; exact ⟨hg.1, hg.2.2⟩

theorem decodeFrame_setup (S : AudioFileSource σ) (e : AudioGeneratorWAV σ τ) :
    SameSetup e (decodeFrame S e) := by
  unfold decodeFrame
  have ha1 := (fetchOrStop_setup S 1 e).1
  have ha2 := (fetchOrStop_setup S 2 e).1
  dsimp only
  split_ifs with h8 hc h16 hc2
  · have hb := (fetchOrStop_setup S 1 (fetchOrStop S 1 e).2).1
    have := SameSetup_trans ha1 hb
    simpa [SameSetup] using this
  · simpa [SameSetup] using ha1
  · have hb := (fetchOrStop_setup S 2
      { (fetchOrStop S 2 e).2 with
        lastSample := (store16 (fetchOrStop S 2 e).2.lastSample.1 (fetchOrStop S 2 e).1,
          (fetchOrStop S 2 e).2.lastSample.2) }).1
    have hx : SameSetup (fetchOrStop S 2 e).2
        { (fetchOrStop S 2 e).2 with
          lastSample := (store16 (fetchOrStop S 2 e).2.lastSample.1 (fetchOrStop S 2 e).1,
            (fetchOrStop S 2 e).2.lastSample.2) } := by
      simp [SameSetup]
    have := SameSetup_trans ha2 (SameSetup_trans hx hb)
    simpa [SameSetup] using this
  · simpa [SameSetup] using ha2
  · exact SameSetup_refl e

/-! ## C1: the frames a sink receives -/

/-- C1 (evaluated on the code): for the 8-bit mono file whose data region holds the two
frames `0x10` and `0x20`, `begin()` succeeds and one `loop()` call runs to exhaustion and
returns false with the engine stopped, but the always-accepting sink has received three
`ConsumeSample` calls: the first carries the never-decoded `lastSample` (here `(7, 9)`),
the two decoded frames come second and third. -/
theorem C1_stale_frame_offered_first :
    ((begin memSource scriptedSink 1 (some (MemFile.ofStream wav8mono)) (some [])
        (freshEngine (7, 9))).bind fun r =>
      (loop memSource scriptedSink 3 r.2).map fun q =>
        (r.1, q.1, q.2.running, consumed q.2.calls)) =
      some (true, false, false,
        [((7 : Int), (9 : Int), true), (16, 0, true), (32, 0, true)]) := by
  rfl

/-! ## C2: the format reaches the sink before `begin()` returns -/

theorem offer_some (O : AudioOutput τ) (e : AudioGeneratorWAV σ τ) (t : τ)
    (h : e.output = some t) :
    offer O e = ((O.ConsumeSample t e.lastSample).1,
      { e with output := some (O.ConsumeSample t e.lastSample).2,
               calls := e.calls ++ [Call.ConsumeSample e.lastSample.1 e.lastSample.2
                 (O.ConsumeSample t e.lastSample).1] }) := by
  simp [offer, h]

theorem decodeLoop_ends_declined (S : AudioFileSource σ) (O : AudioOutput τ) (fuel : Nat) :
    ∀ (e e1 : AudioGeneratorWAV σ τ) (t : τ), e.output = some t →
      decodeLoop S O fuel e = some e1 → e1.running = true →
      ∃ eq t1, (decodeFrame S eq).output = some t1 ∧
        (O.ConsumeSample t1 (decodeFrame S eq).lastSample).1 = false ∧
        e1 = { decodeFrame S eq with
          output := some (O.ConsumeSample t1 (decodeFrame S eq).lastSample).2,
          calls := (decodeFrame S eq).calls ++
            [Call.ConsumeSample (decodeFrame S eq).lastSample.1 (decodeFrame S eq).lastSample.2
              false] } := by
  induction fuel with
  | zero => intro e e1 t _ h; simp [decodeLoop] at h
  | succ fuel ih =>
    intro e e1 t ho h hrun
    have hout : (decodeFrame S e).output = some t := (decodeFrame_setup S e).1.trans ho
    simp only [decodeLoop] at h
    by_cases hr : (decodeFrame S e).running = false
    · simp only [hr, if_true, Option.some.injEq] at h
      rw [← h, hr] at hrun
      cases hrun
    · simp only [hr, if_false] at h
      rw [offer_some O _ t hout] at h
      cases hacc : (O.ConsumeSample t (decodeFrame S e).lastSample).1
      · refine ⟨e, t, hout, hacc, ?_⟩
        simp [hacc] at h
        exact h.symm
      · simp only [hacc, if_true] at h
        exact ih _ e1 _ rfl h hrun

/-- When a `loop()` call on a running engine returns true, it ended on an offer the
sink declined: the engine is the state `ep` in which the frame `f = ep.lastSample` was
offered (the state at entry, or the state right after a frame was decoded), changed only in
the sink's state and the call log.  The next `loop()` call offers `f` first.  If the sink
declines again the call returns true and changes nothing but the sink's state and the log,
which gains that one `ConsumeSample(f)`: no source read, `buffPtr`, `buffLen`, `lastSample`
and `running` as before.  If the sink accepts, the call is that single offer of `f` followed
by the decode loop run from the untouched buffer and source state, that is from the octet
after `f`. -/
theorem loop_after_declined_offer (S : AudioFileSource σ) (O : AudioOutput τ) (fuel : Nat)
    (e0 e : AudioGeneratorWAV σ τ) (t0 : τ)
    (h0 : e0.running = true) (ho : e0.output = some t0)
    (hl : loop S O fuel e0 = some (true, e)) :
    ∃ ep t, (ep = e0 ∨ ∃ eq, ep = decodeFrame S eq) ∧ ep.output = some t ∧
      (O.ConsumeSample t ep.lastSample).1 = false ∧
      e = { ep with output := some (O.ConsumeSample t ep.lastSample).2,
                    calls := ep.calls ++
                      [Call.ConsumeSample ep.lastSample.1 ep.lastSample.2 false] } ∧
      (∀ fuel1, (O.ConsumeSample (O.ConsumeSample t ep.lastSample).2 ep.lastSample).1 = false →
        loop S O fuel1 e = some (true,
          { e with output :=
                     some (O.ConsumeSample (O.ConsumeSample t ep.lastSample).2 ep.lastSample).2,
                   calls := e.calls ++
                     [Call.ConsumeSample ep.lastSample.1 ep.lastSample.2 false] })) ∧
      (∀ fuel1, (O.ConsumeSample (O.ConsumeSample t ep.lastSample).2 ep.lastSample).1 = true →
        loop S O fuel1 e =
          (decodeLoop S O fuel1
            { e with output :=
                       some (O.ConsumeSample (O.ConsumeSample t ep.lastSample).2 ep.lastSample).2,
                     calls := e.calls ++
                       [Call.ConsumeSample ep.lastSample.1 ep.lastSample.2 true] }).map
            fun e2 => (e2.running, e2)) := by
  have key : ∃ ep t, (ep = e0 ∨ ∃ eq, ep = decodeFrame S eq) ∧ ep.output = some t ∧
      ep.running = true ∧
      (O.ConsumeSample t ep.lastSample).1 = false ∧
      e = { ep with output := some (O.ConsumeSample t ep.lastSample).2,
                    calls := ep.calls ++
                      [Call.ConsumeSample ep.lastSample.1 ep.lastSample.2 false] } := by
    simp only [loop, h0, Bool.true_eq_false, if_false] at hl
    rw [offer_some O e0 t0 ho] at hl
    cases hacc : (O.ConsumeSample t0 e0.lastSample).1
    · simp [hacc] at hl
      exact ⟨e0, t0, Or.inl rfl, ho, h0, hacc, hl.symm⟩
    · simp only [hacc, Bool.true_eq_false, if_false] at hl
      cases hd : decodeLoop S O fuel
          { e0 with output := some (O.ConsumeSample t0 e0.lastSample).2,
                    calls := e0.calls ++
                      [Call.ConsumeSample e0.lastSample.1 e0.lastSample.2 true] } with
      | none => rw [hd] at hl; simp at hl
      | some e2 =>
        rw [hd] at hl
        simp only [Option.map_some', Option.some.injEq, Prod.mk.injEq] at hl
        obtain ⟨hrun, rfl⟩ := hl
        obtain ⟨eq, t1, h1, h2, h3⟩ := decodeLoop_ends_declined S O fuel _ e2 _ rfl hd hrun
        refine ⟨decodeFrame S eq, t1, Or.inr ⟨eq, rfl⟩, h1, ?_, h2, h3⟩
        rw [h3] at hrun
        exact hrun
  obtain ⟨ep, t, hep, hout, hrun, hdec, he⟩ := key
  refine ⟨ep, t, hep, hout, hdec, he, ?_, ?_⟩
  · intro fuel1 hd
    subst he
    simp [loop, hrun, offer, hd]
  · intro fuel1 ha
    subst he
    simp [loop, hrun, offer, ha]

/-! ## Fetching pending octets from a `MemFile` -/

theorem refill_mem (e : AudioGeneratorWAV MemFile τ) (f : MemFile) (bs : List Byte)
    (hf : e.file = some f) (hop : f.opened = true) (hb : e.buff = some bs) :
    refill memSource e =
      { e with file := some { f with pos := f.pos + ((f.data.drop f.pos).take e.buffSize).length },
               calls := e.calls ++ [Call.read e.buffSize ((f.data.drop f.pos).take e.buffSize)],
               buffPtr := 0,
               buffLen := ((f.data.drop f.pos).take e.buffSize).length,
               buff := some ((f.data.drop f.pos).take e.buffSize ++
                 bs.drop ((f.data.drop f.pos).take e.buffSize).length) } := by
  simp [refill, fileRead, hf, memSource, MemFile.read, hop, hb]

theorem getBytes_one (acc : List Byte) (e : AudioGeneratorWAV MemFile τ) (b : Byte)
    (rest : List Byte) (hR : Ready e) (hp : pending e = b :: rest) :
    (getBytes memSource 1 acc e).1 = true ∧ (getBytes memSource 1 acc e).2.1 = acc ++ [b] ∧
      Ready (getBytes memSource 1 acc e).2.2 ∧ pending (getBytes memSource 1 acc e).2.2 = rest := by
  obtain ⟨hrun, ⟨f, hf, hop⟩, ⟨bs, hb, hlen⟩, hsz⟩ := hR
  by_cases h1 : e.buffPtr ≥ e.buffLen
  · -- the buffer is used up: reload
    have hbuf : ((bs.take e.buffLen).drop e.buffPtr) = [] := by
      apply List.drop_eq_nil_of_le
      simp only [List.length_take]
      omega
    have hrest : f.data.drop f.pos = b :: rest := by
      simpa [pending, restOf, hf, hop, hb, hbuf] using hp
    obtain ⟨k, hk⟩ : ∃ k, e.buffSize = k + 1 := ⟨e.buffSize - 1, by omega⟩
    have hgot : ((f.data.drop f.pos).take e.buffSize) = b :: rest.take k := by
      rw [hrest, hk]
      simp
    simp only [getBytes, h1, if_true]
    rw [refill_mem e f bs hf hop hb, hgot]
    simp [buffAt, Ready, hrun, hop, hsz, pending, restOf]
    have hd : List.drop (f.pos + (k ⊓ rest.length + 1)) f.data = rest.drop k := by
      rw [← List.drop_drop, hrest, List.drop_succ_cons]
      rcases le_total k rest.length with h | h
      · rw [min_eq_left h]
      · rw [min_eq_right h, List.drop_eq_nil_of_le h, List.drop_eq_nil_of_le (le_refl _)]
    rw [hd, List.take_append_drop]
  · have h2 : e.buffPtr < e.buffLen := by omega
    have h3 : e.buffPtr < (bs.take e.buffLen).length := by
      simp only [List.length_take]
      omega
    have hp2 : (bs.take e.buffLen)[e.buffPtr] ::
        ((bs.take e.buffLen).drop (e.buffPtr + 1) ++ f.data.drop f.pos) = b :: rest := by
      have := hp
      simp only [pending, restOf, hf, hop, hb, Option.getD_some, if_true] at this
      rw [List.drop_eq_getElem_cons h3] at this
      simpa using this
    simp only [List.cons.injEq] at hp2
    simp only [getBytes, h1, if_false]
    have h4 : e.buffPtr < bs.length := by omega
    simp [buffAt, Ready, hrun, hop, hsz, pending, restOf, hf, hb, hlen, hp2.2, h4]
    rw [← hp2.1]
    simp

theorem getBytes_succ (S : AudioFileSource σ) (n : Nat) (acc : List Byte)
    (e : AudioGeneratorWAV σ τ) (h : (getBytes S 1 acc e).1 = true) :
    getBytes S (n + 1) acc e =
      getBytes S n (getBytes S 1 acc e).2.1 (getBytes S 1 acc e).2.2 := by
  simp only [getBytes] at h ⊢
  split_ifs at h ⊢ <;> simp_all [getBytes]

theorem getBytes_pending (xs : List Byte) :
    ∀ (acc : List Byte) (e : AudioGeneratorWAV MemFile τ) (rest : List Byte),
      Ready e → pending e = xs ++ rest →
      (getBytes memSource xs.length acc e).1 = true ∧
        (getBytes memSource xs.length acc e).2.1 = acc ++ xs ∧
        Ready (getBytes memSource xs.length acc e).2.2 ∧
        pending (getBytes memSource xs.length acc e).2.2 = rest := by
  induction xs with
  | nil =>
    intro acc e rest hR hp
    simpa [getBytes, hR] using hp
  | cons b xs ih =>
    intro acc e rest hR hp
    obtain ⟨h1, h2, h3, h4⟩ := getBytes_one acc e b (xs ++ rest) hR (by simpa using hp)
    rw [List.length_cons, getBytes_succ memSource xs.length acc e h1, h2]
    have := ih (acc ++ [b]) _ rest h3 h4
    simpa using this

/-- The fetch of `xs.length` octets when they are pending, through `fetchOrStop`. -/
theorem fetchOrStop_pending (xs rest : List Byte) (e : AudioGeneratorWAV MemFile τ)
    (hR : Ready e) (hp : pending e = xs ++ rest) :
    (fetchOrStop memSource xs.length e).1 = xs ∧
      Ready (fetchOrStop memSource xs.length e).2 ∧
      pending (fetchOrStop memSource xs.length e).2 = rest ∧
      SameSetup e (fetchOrStop memSource xs.length e).2 ∧
      (fetchOrStop memSource xs.length e).2.lastSample = e.lastSample := by
  obtain ⟨h1, h2, h3, h4⟩ := getBytes_pending xs [] e rest hR hp
  have hs := fetchOrStop_setup memSource xs.length e
  refine ⟨?_, ?_, ?_, hs.1, hs.2⟩
  · simpa [fetchOrStop, GetBufferedData, hR.1, h1] using h2
  · simpa [fetchOrStop, GetBufferedData, hR.1, h1] using h3
  · simpa [fetchOrStop, GetBufferedData, hR.1, h1] using h4

theorem store16_two (old : Int) (b0 b1 : Byte) : store16 old [b0, b1] = int16le b0 b1 := by
  have h0 := b0.isLt
  have h1 := b1.isLt
  have : (b0.val + 256 * b1.val) % 65536 = b0.val + 256 * b1.val := by omega
  simp only [store16, toInt16, u16le, int16le, this]

@[simp] theorem Ready_lastSample (e : AudioGeneratorWAV MemFile τ) (x : Int × Int) :
    Ready { e with lastSample := x } ↔ Ready e := by
  simp [Ready]

@[simp] theorem pending_lastSample (e : AudioGeneratorWAV MemFile τ) (x : Int × Int) :
    pending { e with lastSample := x } = pending e := by
  simp [pending, restOf, buffAt]

/-! ## C4 and C5: decoding one frame -/

/-- C4: for 16-bit audio on a running engine, one decode iteration takes exactly four
pending octets in stereo and two in mono: the left value is the signed little-endian
integer of the first two, the right value that of the next two in stereo and 0 in mono, and
what stays pending is the rest.  In particular on the stereo stream whose data region is
`[0x01, 0x00, 0xFF, 0xFF]` the first iteration yields `(1, -1)` and leaves nothing pending,
and the second one finds the source exhausted and stops the engine. -/
theorem C4_decode_16bit (e : AudioGeneratorWAV MemFile τ) (hR : Ready e)
    (h16 : e.bitsPerSample = 16) :
    (e.channels = 2 → ∀ (b0 b1 b2 b3 : Byte) (rest : List Byte),
      pending e = b0 :: b1 :: b2 :: b3 :: rest →
        (decodeFrame memSource e).lastSample = (int16le b0 b1, int16le b2 b3) ∧
        pending (decodeFrame memSource e) = rest ∧
        (decodeFrame memSource e).running = true) ∧
    (e.channels = 1 → ∀ (b0 b1 : Byte) (rest : List Byte),
      pending e = b0 :: b1 :: rest →
        (decodeFrame memSource e).lastSample = (int16le b0 b1, 0) ∧
        pending (decodeFrame memSource e) = rest ∧
        (decodeFrame memSource e).running = true) ∧
    ((demoStart wav16stereo []).channels = 2 ∧
      pending (demoStart wav16stereo []) = [0x01, 0x00, 0xFF, 0xFF] ∧
      (decodeFrame memSource (demoStart wav16stereo [])).lastSample = (1, -1) ∧
      pending (decodeFrame memSource (demoStart wav16stereo [])) = [] ∧
      (decodeFrame memSource (decodeFrame memSource (demoStart wav16stereo []))).running
        = false) := by
  refine ⟨?_, ?_, rfl, rfl, rfl, rfl, rfl⟩
  · intro hc b0 b1 b2 b3 rest hp
    obtain ⟨a1, a2, a3, a4, -⟩ :=
      fetchOrStop_pending [b0, b1] (b2 :: b3 :: rest) e hR (by simpa using hp)
    simp only [List.length_cons, List.length_nil, Nat.zero_add, Nat.reduceAdd] at a1 a2 a3 a4
    have hc1 : (fetchOrStop memSource 2 e).2.channels = 2 := a4.2.1.trans hc
    simp only [decodeFrame, h16, Nat.reduceEqDiff, if_false, if_true]
    generalize fetchOrStop memSource 2 e = A at a1 a2 a3 hc1 ⊢
    obtain ⟨xa, ea⟩ := A
    simp only at a1 a2 a3 hc1 ⊢
    subst a1
    rw [if_pos hc1]
    simp only [store16_two]
    obtain ⟨c1, c2, c3, -, c5⟩ :=
      fetchOrStop_pending [b2, b3] rest
        { ea with lastSample := (int16le b0 b1, ea.lastSample.2) }
        (by simpa using a2) (by simpa using a3)
    simp only [List.length_cons, List.length_nil, Nat.zero_add, Nat.reduceAdd] at c1 c2 c3 c5
    generalize fetchOrStop memSource 2
      { ea with lastSample := (int16le b0 b1, ea.lastSample.2) } = B at c1 c2 c3 c5 ⊢
    obtain ⟨xb, eb⟩ := B
    simp only at c1 c2 c3 c5 ⊢
    subst c1
    exact ⟨by simp [c5, store16_two], by simpa [pending, restOf] using c3, c2.1⟩
  · intro hc b0 b1 rest hp
    obtain ⟨a1, a2, a3, a4, -⟩ :=
      fetchOrStop_pending [b0, b1] rest e hR (by simpa using hp)
    simp only [List.length_cons, List.length_nil, Nat.zero_add, Nat.reduceAdd] at a1 a2 a3 a4
    have hc1 : (fetchOrStop memSource 2 e).2.channels = 1 := a4.2.1.trans hc
    simp only [decodeFrame, h16, Nat.reduceEqDiff, if_false, if_true]
    generalize fetchOrStop memSource 2 e = A at a1 a2 a3 hc1 ⊢
    obtain ⟨xa, ea⟩ := A
    simp only at a1 a2 a3 hc1 ⊢
    subst a1
    rw [if_neg (by omega)]
    exact ⟨by simp [store16_two], by simpa [pending, restOf] using a3, a2.1⟩

set_option maxRecDepth 8000 in
/-- C4 at a concrete input: the engine after `begin()` on `wav16stereo`. -/
theorem C4_decode_16bit_witness :
    Ready (demoStart wav16stereo []) ∧ (demoStart wav16stereo []).bitsPerSample = 16 ∧
    ((demoStart wav16stereo []).channels = 2 → ∀ (b0 b1 b2 b3 : Byte) (rest : List Byte),
      pending (demoStart wav16stereo []) = b0 :: b1 :: b2 :: b3 :: rest →
        (decodeFrame memSource (demoStart wav16stereo [])).lastSample =
          (int16le b0 b1, int16le b2 b3) ∧
        pending (decodeFrame memSource (demoStart wav16stereo [])) = rest ∧
        (decodeFrame memSource (demoStart wav16stereo [])).running = true) :=
  ⟨⟨rfl, ⟨_, rfl, rfl⟩, ⟨_, rfl, Nat.le_of_ble_eq_true rfl⟩, Nat.le_of_ble_eq_true rfl⟩, rfl,
   (C4_decode_16bit (demoStart wav16stereo [])
     ⟨rfl, ⟨_, rfl, rfl⟩, ⟨_, rfl, Nat.le_of_ble_eq_true rfl⟩, Nat.le_of_ble_eq_true rfl⟩ rfl).1⟩

/-- C5: for 8-bit audio on a running engine, one decode iteration takes exactly two pending
octets in stereo and one in mono: the left value is the first octet as an unsigned number
(so within 0..255), the right value is the second octet likewise in stereo and 0 in mono,
and what stays pending is the rest.  In particular on the mono stream whose data region is
`[0x10, 0x20]` the first two iterations yield `(0x10, 0)` and `(0x20, 0)` in that order and
the third finds the source exhausted and stops the engine. -/
theorem C5_decode_8bit (e : AudioGeneratorWAV MemFile τ) (hR : Ready e)
    (h8 : e.bitsPerSample = 8) :
    (e.channels = 2 → ∀ (b0 b1 : Byte) (rest : List Byte),
      pending e = b0 :: b1 :: rest →
        (decodeFrame memSource e).lastSample = ((b0.val : Int), (b1.val : Int)) ∧
        0 ≤ (decodeFrame memSource e).lastSample.1 ∧
        (decodeFrame memSource e).lastSample.1 ≤ 255 ∧
        0 ≤ (decodeFrame memSource e).lastSample.2 ∧
        (decodeFrame memSource e).lastSample.2 ≤ 255 ∧
        pending (decodeFrame memSource e) = rest ∧
        (decodeFrame memSource e).running = true) ∧
    (e.channels = 1 → ∀ (b0 : Byte) (rest : List Byte),
      pending e = b0 :: rest →
        (decodeFrame memSource e).lastSample = ((b0.val : Int), 0) ∧
        0 ≤ (decodeFrame memSource e).lastSample.1 ∧
        (decodeFrame memSource e).lastSample.1 ≤ 255 ∧
        pending (decodeFrame memSource e) = rest ∧
        (decodeFrame memSource e).running = true) ∧
    ((demoStart wav8mono []).channels = 1 ∧
      pending (demoStart wav8mono []) = [0x10, 0x20] ∧
      (decodeFrame memSource (demoStart wav8mono [])).lastSample = (0x10, 0) ∧
      (decodeFrame memSource (decodeFrame memSource (demoStart wav8mono []))).lastSample
        = (0x20, 0) ∧
      (decodeFrame memSource (decodeFrame memSource (decodeFrame memSource
        (demoStart wav8mono [])))).running = false) := by
  refine ⟨?_, ?_, rfl, rfl, rfl, rfl, rfl⟩
  · intro hc b0 b1 rest hp
    obtain ⟨a1, a2, a3, a4, -⟩ :=
      fetchOrStop_pending [b0] (b1 :: rest) e hR (by simpa using hp)
    simp only [List.length_cons, List.length_nil, Nat.zero_add] at a1 a2 a3 a4
    have hc1 : (fetchOrStop memSource 1 e).2.channels = 2 := a4.2.1.trans hc
    obtain ⟨c1, c2, c3, -, -⟩ :=
      fetchOrStop_pending [b1] rest (fetchOrStop memSource 1 e).2 a2 (by simpa using a3)
    simp only [List.length_cons, List.length_nil, Nat.zero_add] at c1 c2 c3
    simp only [decodeFrame, h8, if_true]
    rw [if_pos hc1]
    generalize fetchOrStop memSource 1 (fetchOrStop memSource 1 e).2 = B at c1 c2 c3 ⊢
    obtain ⟨xb, eb⟩ := B
    simp only at c1 c2 c3 ⊢
    subst c1
    have h0 := b0.isLt
    have h1 := b1.isLt
    refine ⟨by simp [a1], ?_, ?_, ?_, ?_, by simpa [pending, restOf] using c3, c2.1⟩ <;>
      (simp [a1]; try omega)
  · intro hc b0 rest hp
    obtain ⟨a1, a2, a3, a4, -⟩ :=
      fetchOrStop_pending [b0] rest e hR (by simpa using hp)
    simp only [List.length_cons, List.length_nil, Nat.zero_add] at a1 a2 a3 a4
    have hc1 : (fetchOrStop memSource 1 e).2.channels = 1 := a4.2.1.trans hc
    simp only [decodeFrame, h8, if_true]
    rw [if_neg (by omega)]
    have h0 := b0.isLt
    refine ⟨by simp [a1], ?_, ?_, by simpa [pending, restOf] using a3, a2.1⟩ <;>
      (simp [a1]; try omega)

set_option maxRecDepth 8000 in
/-- C5 at a concrete input: the engine after `begin()` on `wav8mono`. -/
theorem C5_decode_8bit_witness :
    Ready (demoStart wav8mono []) ∧ (demoStart wav8mono []).bitsPerSample = 8 ∧
    ((demoStart wav8mono []).channels = 1 → ∀ (b0 : Byte) (rest : List Byte),
      pending (demoStart wav8mono []) = b0 :: rest →
        (decodeFrame memSource (demoStart wav8mono [])).lastSample = ((b0.val : Int), 0) ∧
        0 ≤ (decodeFrame memSource (demoStart wav8mono [])).lastSample.1 ∧
        (decodeFrame memSource (demoStart wav8mono [])).lastSample.1 ≤ 255 ∧
        pending (decodeFrame memSource (demoStart wav8mono [])) = rest ∧
        (decodeFrame memSource (demoStart wav8mono [])).running = true) :=
  ⟨⟨rfl, ⟨_, rfl, rfl⟩, ⟨_, rfl, Nat.le_of_ble_eq_true rfl⟩, Nat.le_of_ble_eq_true rfl⟩, rfl,
   (C5_decode_8bit (demoStart wav8mono [])
     ⟨rfl, ⟨_, rfl, rfl⟩, ⟨_, rfl, Nat.le_of_ble_eq_true rfl⟩, Nat.le_of_ble_eq_true rfl⟩ rfl).2.1⟩

/-! ## A decode iteration that ends stopped -/

/-- On a stopped engine `if (!GetBufferedData(n, dest)) stop();` calls nothing. -/
theorem fetchOrStop_stopped (S : AudioFileSource σ) (n : Nat) (e : AudioGeneratorWAV σ τ)
    (hrun : e.running = false) :
    (fetchOrStop S n e).2 = e := by
  simp [fetchOrStop, GetBufferedData, hrun, stop]

theorem StoppedOnEmptyRead.congr {a a1 c c1 : AudioGeneratorWAV σ τ}
    (h : StoppedOnEmptyRead a c) (ha : a1.calls = a.calls) (hc : c1.calls = c.calls)
    (hr : c1.running = c.running) : StoppedOnEmptyRead a1 c1 := by
  obtain ⟨hrun, rs, len, ok, hrs, hall⟩ := h
  exact ⟨hr.trans hrun, rs, len, ok, by rw [hc, ha, hrs], hall⟩

/-- C7 (as stated, refuted): on the stream `wavListFirst`, which has a `LIST` chunk of four
payload octets between the RIFF/WAVE header and a valid `fmt ` chunk, `begin()` returns
false; it made no `seek` call. -/
theorem C7_list_before_fmt_counterexample :
    (begin memSource scriptedSink 8 (some (MemFile.ofStream wavListFirst)) (some [])
        (freshEngine (7, 9))).map
      (fun r => (r.1, r.2.running, r.2.calls)) =
    some (false, false,
      [Call.isOpen true, Call.read 4 (le32 idRIFF), Call.read 4 (le32 50),
       Call.read 4 (le32 idWAVE), Call.read 4 (le32 idLIST)]) := by
  rfl

/-- C7 (amended): for every `K` and every stream made of a RIFF/WAVE header, a `LIST` chunk
declaring `K` octets with any payload, a `fmt ` chunk and a `data` chunk, read from an open
source, `begin()` returns false for every fuel: `ReadWAVInfo` wants the `fmt ` identifier
directly after the 12-octet header and gives up on reading `LIST`.  It has read sixteen
octets, made no `seek`, skipped nothing, and left `running` as it was. -/
theorem C7_list_before_fmt_rejected (O : AudioOutput τ) (e : AudioGeneratorWAV MemFile τ)
    (t : τ) (fuel : Nat) (sk : Bool)
    (riffSize K channels sampleRate byteRate blockAlign bitsPerSample dataSize : Nat)
    (payload data : List Byte) :
    begin memSource O fuel
      (some (MemFile.mid []
        (riffHeader riffSize ++ chunk idLIST K payload ++
          fmtChunk channels sampleRate byteRate blockAlign bitsPerSample ++
          chunk idData dataSize data) sk))
      (some t) e =
    some (false,
      { e with
        file := some (MemFile.mid (riffHeader riffSize ++ le32 idLIST)
          (le32 K ++ payload ++
            fmtChunk channels sampleRate byteRate blockAlign bitsPerSample ++
            chunk idData dataSize data) sk),
        output := some t,
        calls := e.calls ++ [Call.isOpen true, Call.read 4 (le32 idRIFF),
          Call.read 4 (le32 riffSize), Call.read 4 (le32 idWAVE),
          Call.read 4 (le32 idLIST)] }) := by
  simp [begin, fileIsOpen, ReadWAVInfo, riffHeader, chunk, ReadU32_mid, idRIFF, idWAVE, idFmt,
    idLIST]

/-! ## C8: chunks between the `fmt ` chunk and the data -/

theorem toInt32_small (n : Nat) (h : n < 2147483648) : toInt32 n = (n : Int) := by
  have : n % 4294967296 = n := Nat.mod_eq_of_lt (by omega)
  simp [toInt32, this, h]

theorem MemFile.seek_mid (pre p rest : List Byte) :
    MemFile.seek (MemFile.mid pre (p ++ rest) true) (p.length : Int) =
      (true, MemFile.mid (pre ++ p) rest true) := by
  have h0 : (0 : Int) ≤ (pre.length : Int) + (p.length : Int) := by omega
  simp [MemFile.seek, MemFile.mid, h0]
  omega

theorem fileSeek_mid (pre p rest : List Byte) (h : p.length < 2147483648)
    (rn : Bool) (out : Option τ) (bs : Nat) (bf : Option (List Byte)) (bp bl ch sr bps : Nat)
    (ls : Int × Int) (iL iR : Byte) (cs : List Call) :
    fileSeek memSource
      (AudioGeneratorWAV.mk rn (some (MemFile.mid pre (p ++ rest) true)) out bs bf bp bl ch sr
        bps ls iL iR cs) p.length =
      AudioGeneratorWAV.mk rn (some (MemFile.mid (pre ++ p) rest true)) out bs bf bp bl ch sr
        bps ls iL iR (cs ++ [Call.seek (p.length : Int) true]) := by
  simp [fileSeek, memSource, MemFile.seek_mid pre p rest, toInt32_small _ h]

theorem findData_chunks (chunks : List (Nat × List Byte)) :
    ∀ (fuel : Nat) (pre rest : List Byte)
      (rn : Bool) (out : Option τ) (bs : Nat) (bf : Option (List Byte))
      (bp bl ch sr bps : Nat) (ls : Int × Int) (iL iR : Byte) (cs : List Call),
      (∀ x ∈ chunks, x.1 < 4294967296 ∧ x.1 ≠ idData ∧ x.2.length < 2147483648) →
      chunks.length < fuel →
      findData memSource fuel
        (AudioGeneratorWAV.mk rn
          (some (MemFile.mid pre (chunksBytes chunks ++ (le32 idData ++ rest)) true))
          out bs bf bp bl ch sr bps ls iL iR cs) =
      some (true,
        AudioGeneratorWAV.mk rn
          (some (MemFile.mid (pre ++ chunksBytes chunks ++ le32 idData) rest true))
          out bs bf bp bl ch sr bps ls iL iR
          (cs ++ skipCalls chunks ++ [Call.read 4 (le32 idData)])) := by
  induction chunks with
  | nil =>
    intro fuel pre rest rn out bs bf bp bl ch sr bps ls iL iR cs _ hfuel
    obtain ⟨k, rfl⟩ : ∃ k, fuel = k + 1 := ⟨fuel - 1, by simp at hfuel; omega⟩
    simp [findData, chunksBytes, skipCalls, ReadU32_mid, idData]
  | cons c chunks ih =>
    intro fuel pre rest rn out bs bf bp bl ch sr bps ls iL iR cs hall hfuel
    obtain ⟨k, rfl⟩ : ∃ k, fuel = k + 1 := ⟨fuel - 1, by simp at hfuel; omega⟩
    obtain ⟨h1, h2, h3⟩ := hall c (List.mem_cons_self _ _)
    have hid : c.1 % 4294967296 = c.1 := Nat.mod_eq_of_lt h1
    have hsz : c.2.length % 4294967296 = c.2.length := Nat.mod_eq_of_lt (by omega)
    simp only [findData, chunksBytes, chunk, List.append_assoc, ReadU32_mid, hid, h2, if_false,
      hsz, fileSeek_mid _ _ _ h3]
    rw [ih k _ rest rn out bs bf bp bl ch sr bps ls iL iR _
      (fun x hx => hall x (List.mem_cons_of_mem _ hx)) (by simpa using hfuel)]
    simp [skipCalls, List.append_assoc]

theorem MemFile.ofStream_eq_mid (bytes : List Byte) :
    MemFile.ofStream bytes = MemFile.mid [] bytes true := rfl

/-- `ReadWAVInfo` on a source that has handed out `pre` and holds a header, a `fmt ` chunk,
chunks to pass over, and a `data` chunk. -/
theorem ReadWAVInfo_chunks (e : AudioGeneratorWAV MemFile τ) (fuel : Nat) (pre : List Byte)
    (riffSize c r byteRate blockAlign b dataSize : Nat)
    (chunks : List (Nat × List Byte)) (data : List Byte)
    (hc : c = 1 ∨ c = 2) (hr : 1 ≤ r) (hr32 : r < 4294967296) (hb : b = 8 ∨ b = 16)
    (hchunks : ∀ x ∈ chunks, x.1 < 4294967296 ∧ x.1 ≠ idData ∧ x.2.length < 2147483648)
    (hfuel : chunks.length < fuel) :
    ReadWAVInfo memSource fuel
        { e with file := some (MemFile.mid pre
            (wavHeader riffSize c r byteRate blockAlign b ++ chunksBytes chunks ++
              chunk idData dataSize data) true) } =
      some (true,
        { e with
          file := some (MemFile.mid
            (pre ++ wavHeader riffSize c r byteRate blockAlign b ++ chunksBytes chunks ++
              le32 idData ++ le32 dataSize) data true),
          channels := c, sampleRate := r, bitsPerSample := b,
          buff := some (List.replicate e.buffSize 0), buffPtr := 0, buffLen := 0,
          calls := e.calls ++ fmtReads riffSize c r byteRate blockAlign b ++ skipCalls chunks ++
            [Call.read 4 (le32 idData), Call.isOpen true, Call.read 4 (le32 dataSize)] }) := by
  have hr1 : r % 4294967296 = r := Nat.mod_eq_of_lt hr32
  have hr2 : ¬ r = 0 := by omega
  rcases hb with rfl | rfl <;> rcases hc with rfl | rfl <;>
    simp [ReadWAVInfo, readFormat, afterFind, afterData, fileIsOpen, wavHeader, riffHeader,
      fmtChunk, chunk,
      ReadU32_mid, ReadU16_mid, idRIFF, idWAVE, idFmt, hr1, hr2,
      findData_chunks chunks fuel _ _ _ _ _ _ _ _ _ _ _ _ _ _ _ hchunks hfuel, fmtReads]

theorem pending_fresh_buffer (e : AudioGeneratorWAV MemFile τ) (pre rest : List Byte)
    (sk : Bool) (hf : e.file = some (MemFile.mid pre rest sk)) (hl : e.buffLen = 0) :
    pending e = rest := by
  simp [pending, restOf, hf, hl, MemFile.mid]

theorem first_octet (e : AudioGeneratorWAV MemFile τ) (pre : List Byte) (sk : Bool)
    (bs : List Byte) (b0 : Byte) (rest : List Byte)
    (hf : e.file = some (MemFile.mid pre (b0 :: rest) sk)) (hb : e.buff = some bs)
    (hl : e.buffLen = 0) (hsz : 1 ≤ e.buffSize) :
    (GetBufferedData memSource 1 { e with running := true }).1 = true ∧
    (GetBufferedData memSource 1 { e with running := true }).2.1 = [b0] := by
  have hg := getBytes_one [] { e with running := true } b0 rest
    ⟨rfl, ⟨_, hf, rfl⟩, ⟨bs, hb, by simp [hl]⟩, hsz⟩
    (pending_fresh_buffer _ pre (b0 :: rest) sk hf hl)
  simp only [GetBufferedData, Bool.true_eq_false, if_false]
  exact ⟨hg.1, hg.2.1⟩

/-- For a stream made of a RIFF/WAVE header, a valid `fmt ` chunk, any finite
sequence of chunks whose identifiers are not `data` and whose declared sizes `K1..Km` are
below `2^31`, and then a `data` chunk, read from a source whose `seek(k, SEEK_CUR)` moves
the position by exactly `k`: with more fuel than there are chunks `ReadWAVInfo` returns
true; per chunk it read the identifier and the size and called `seek(Ki)`, which succeeded;
the source is left right behind the size field of the `data` chunk; and the first octet
`GetBufferedData` then delivers is the first octet of the data region. -/
theorem chunks_below_2G_skipped (e : AudioGeneratorWAV MemFile τ) (fuel : Nat)
    (riffSize c r byteRate blockAlign b dataSize : Nat)
    (chunks : List (Nat × List Byte)) (data : List Byte)
    (hc : c = 1 ∨ c = 2) (hr : 1 ≤ r) (hr32 : r < 4294967296) (hb : b = 8 ∨ b = 16)
    (hchunks : ∀ x ∈ chunks, x.1 < 4294967296 ∧ x.1 ≠ idData ∧ x.2.length < 2147483648)
    (hfuel : chunks.length < fuel) :
    ∃ e1,
      ReadWAVInfo memSource fuel
        { e with file := some (MemFile.ofStream
            (wavHeader riffSize c r byteRate blockAlign b ++ chunksBytes chunks ++
              chunk idData dataSize data)) } = some (true, e1) ∧
      e1.file = some (MemFile.mid
        (wavHeader riffSize c r byteRate blockAlign b ++ chunksBytes chunks ++
          le32 idData ++ le32 dataSize) data true) ∧
      e1.calls = e.calls ++ fmtReads riffSize c r byteRate blockAlign b ++ skipCalls chunks ++
        [Call.read 4 (le32 idData), Call.isOpen true, Call.read 4 (le32 dataSize)] ∧
      (∀ (b0 : Byte) (rest : List Byte), data = b0 :: rest → 1 ≤ e.buffSize →
        (GetBufferedData memSource 1 { e1 with running := true }).1 = true ∧
        (GetBufferedData memSource 1 { e1 with running := true }).2.1 = [b0]) := by
  have h := ReadWAVInfo_chunks e fuel [] riffSize c r byteRate blockAlign b dataSize chunks data
    hc hr hr32 hb hchunks hfuel
  rw [List.nil_append] at h
  refine ⟨_, by rw [MemFile.ofStream_eq_mid]; exact h, rfl, rfl, ?_⟩
  intro b0 rest hd hsz
  subst hd
  exact first_octet _ _ _ _ b0 rest rfl rfl rfl hsz

/-- The same at a concrete input: one `LIST` chunk of four octets between the `fmt ` chunk
and the `data` chunk. -/
theorem chunks_below_2G_skipped_example :
    ((1 = 1 ∨ 1 = 2) ∧ 1 ≤ 8000 ∧ 8000 < 4294967296 ∧ (8 = 8 ∨ 8 = 16) ∧
      (∀ x ∈ [(idLIST, ([0x49, 0x4e, 0x46, 0x4f] : List Byte))],
        x.1 < 4294967296 ∧ x.1 ≠ idData ∧ x.2.length < 2147483648) ∧
      [(idLIST, ([0x49, 0x4e, 0x46, 0x4f] : List Byte))].length < 2) ∧
    ∃ e1,
      ReadWAVInfo memSource 2
        { freshEngine (7, 9) with file := some (MemFile.ofStream
            (wavHeader 50 1 8000 8000 1 8 ++ chunksBytes [(idLIST, [0x49, 0x4e, 0x46, 0x4f])] ++
              chunk idData 2 [0x10, 0x20])) } = some (true, e1) ∧
      e1.file = some (MemFile.mid
        (wavHeader 50 1 8000 8000 1 8 ++ chunksBytes [(idLIST, [0x49, 0x4e, 0x46, 0x4f])] ++
          le32 idData ++ le32 2) [0x10, 0x20] true) ∧
      e1.calls = (freshEngine (7, 9)).calls ++ fmtReads 50 1 8000 8000 1 8 ++
        skipCalls [(idLIST, [0x49, 0x4e, 0x46, 0x4f])] ++
        [Call.read 4 (le32 idData), Call.isOpen true, Call.read 4 (le32 2)] ∧
      (∀ (b0 : Byte) (rest : List Byte), [0x10, 0x20] = b0 :: rest →
        1 ≤ (freshEngine (7, 9)).buffSize →
        (GetBufferedData memSource 1 { e1 with running := true }).1 = true ∧
        (GetBufferedData memSource 1 { e1 with running := true }).2.1 = [b0]) :=
  ⟨⟨Or.inl rfl, by decide, by decide, Or.inl rfl, by simp [idLIST, idData], by decide⟩,
   chunks_below_2G_skipped (freshEngine (7, 9)) 2 50 1 8000 8000 1 8 2
     [(idLIST, [0x49, 0x4e, 0x46, 0x4f])] [0x10, 0x20]
     (Or.inl rfl) (by decide) (by decide) (Or.inl rfl) (by simp [idLIST, idData]) (by decide)⟩

theorem toInt32_wrap : toInt32 4294967288 = -8 := by
  simp [toInt32]

theorem MemFile.seek_back (pre x rest : List Byte) (k : Int) (hk : k = -(x.length : Int)) :
    MemFile.seek (MemFile.mid (pre ++ x) rest true) k =
      (true, MemFile.mid pre (x ++ rest) true) := by
  subst hk
  simp [MemFile.seek, MemFile.mid]

theorem fileSeek_back (pre rest : List Byte)
    (rn : Bool) (out : Option τ) (bs : Nat) (bf : Option (List Byte)) (bp bl ch sr bps : Nat)
    (ls : Int × Int) (iL iR : Byte) (cs : List Call) :
    fileSeek memSource
      (AudioGeneratorWAV.mk rn
        (some (MemFile.mid (pre ++ le32 idLIST ++ le32 4294967288) rest true))
        out bs bf bp bl ch sr bps ls iL iR cs) 4294967288 =
      AudioGeneratorWAV.mk rn
        (some (MemFile.mid pre (le32 idLIST ++ (le32 4294967288 ++ rest)) true))
        out bs bf bp bl ch sr bps ls iL iR (cs ++ [Call.seek (-8) true]) := by
  have hs : MemFile.seek (MemFile.mid (pre ++ le32 idLIST ++ le32 4294967288) rest true) (-8) =
      (true, MemFile.mid pre (le32 idLIST ++ (le32 4294967288 ++ rest)) true) := by
    have := MemFile.seek_back pre (le32 idLIST ++ le32 4294967288) rest (-8)
      (by simp [le32])
    simpa [List.append_assoc] using this
  simp only [fileSeek, memSource, toInt32_wrap, hs]

/-- The chunk loop on a chunk that declares `2^32 - 8` octets: the seek goes back to the
chunk's identifier, so no amount of fuel ends the loop. -/
theorem findData_bounce (fuel : Nat) :
    ∀ (pre rest : List Byte) (rn : Bool) (out : Option τ) (bs : Nat)
      (bf : Option (List Byte)) (bp bl ch sr bps : Nat) (ls : Int × Int) (iL iR : Byte)
      (cs : List Call),
      findData memSource fuel
        (AudioGeneratorWAV.mk rn
          (some (MemFile.mid pre (le32 idLIST ++ (le32 4294967288 ++ rest)) true))
          out bs bf bp bl ch sr bps ls iL iR cs) = none := by
  induction fuel with
  | zero => intros; rfl
  | succ fuel ih =>
    intro pre rest rn out bs bf bp bl ch sr bps ls iL iR cs
    have m1 : idLIST % 4294967296 = idLIST := rfl
    have m2 : ¬ idLIST = idData := by decide
    simp only [findData, ReadU32_mid, m1, m2, if_false, Nat.reduceMod, fileSeek_back, ih]

/-- `ReadWAVInfo` never returns on a stream whose first chunk after the `fmt ` chunk
declares `2^32 - 8` octets. -/
theorem ReadWAVInfo_bounce (e : AudioGeneratorWAV MemFile τ) (fuel : Nat)
    (pre rest : List Byte) :
    ReadWAVInfo memSource fuel
      { e with file := some (MemFile.mid pre
          (wavHeader 4294967295 1 8000 8000 1 8 ++
            (le32 idLIST ++ (le32 4294967288 ++ rest))) true) } = none := by
  simp [ReadWAVInfo, readFormat, afterFind, wavHeader, riffHeader, fmtChunk, ReadU32_mid,
    ReadU16_mid, idRIFF, idWAVE, idFmt, findData_bounce]

/-- C8 (evaluated on the code): on the stream `wavHugeChunk`, whose `LIST` chunk after the
`fmt ` chunk declares `2^32 - 8` octets, read from a source whose `seek` moves the position
by exactly its argument, `ReadWAVInfo` does not terminate: no fuel gives it a result.  The
size reaches `seek` as the `int32_t` value `-8`, which puts the source back on the `LIST`
identifier. -/
theorem C8_huge_chunk_never_returns :
    ¬ ∃ fuel out,
      ReadWAVInfo memSource fuel
        { freshEngine (7, 9) with file := some (MemFile.ofStream wavHugeChunk) } = some out := by
  rintro ⟨fuel, out, h⟩
  rw [MemFile.ofStream_eq_mid] at h
  simp only [wavHugeChunk, chunk, List.append_assoc] at h
  rw [ReadWAVInfo_bounce] at h
  cases h

/-! ## C9: `begin()` succeeds only on a valid header -/

theorem MemFile.read_mid_any (pre rest : List Byte) (sk : Bool) (n : Nat) :
    MemFile.read (MemFile.mid pre rest sk) n =
      (rest.take n, MemFile.mid (pre ++ rest.take n) (rest.drop n) sk) := by
  simp [MemFile.read, MemFile.mid]

theorem ReadU32_any (pre rest : List Byte) (sk : Bool)
    (rn : Bool) (out : Option τ) (bs : Nat) (bf : Option (List Byte)) (bp bl ch sr bps : Nat)
    (ls : Int × Int) (iL iR : Byte) (cs : List Call) :
    ReadU32 memSource
      (AudioGeneratorWAV.mk rn (some (MemFile.mid pre rest sk)) out bs bf bp bl ch sr
        bps ls iL iR cs) =
      (word32 rest,
        AudioGeneratorWAV.mk rn (some (MemFile.mid (pre ++ rest.take 4) (rest.drop 4) sk)) out
          bs bf bp bl ch sr bps ls iL iR (cs ++ [Call.read 4 (rest.take 4)])) := by
  simp only [ReadU32, fileRead, memSource, MemFile.read_mid_any, word32]
  split <;> simp_all

theorem ReadU16_any (pre rest : List Byte) (sk : Bool)
    (rn : Bool) (out : Option τ) (bs : Nat) (bf : Option (List Byte)) (bp bl ch sr bps : Nat)
    (ls : Int × Int) (iL iR : Byte) (cs : List Call) :
    ReadU16 memSource
      (AudioGeneratorWAV.mk rn (some (MemFile.mid pre rest sk)) out bs bf bp bl ch sr
        bps ls iL iR cs) =
      (word16 rest,
        AudioGeneratorWAV.mk rn (some (MemFile.mid (pre ++ rest.take 2) (rest.drop 2) sk)) out
          bs bf bp bl ch sr bps ls iL iR (cs ++ [Call.read 2 (rest.take 2)])) := by
  simp only [ReadU16, fileRead, memSource, MemFile.read_mid_any, word16]
  split <;> simp_all

theorem word32_eq_none (l : List Byte) : word32 l = none ↔ l.length < 4 := by
  unfold word32
  rcases l with _ | ⟨a, _ | ⟨b, _ | ⟨c, _ | ⟨d, l⟩⟩⟩⟩ <;> simp

theorem word16_eq_none (l : List Byte) : word16 l = none ↔ l.length < 2 := by
  unfold word16
  rcases l with _ | ⟨a, _ | ⟨b, l⟩⟩ <;> simp

theorem word32_drop_none (bs : List Byte) (i j : Nat) (hij : i ≤ j)
    (h : word32 (bs.drop i) = none) : word32 (bs.drop j) = none := by
  rw [word32_eq_none, List.length_drop] at *
  omega

theorem word16_drop_none_of_word32 (bs : List Byte) (i j : Nat) (hij : i + 2 ≤ j)
    (h : word32 (bs.drop i) = none) : word16 (bs.drop j) = none := by
  rw [word16_eq_none, List.length_drop]
  rw [word32_eq_none, List.length_drop] at h
  omega

theorem word16_drop_none (bs : List Byte) (i j : Nat) (hij : i ≤ j)
    (h : word16 (bs.drop i) = none) : word16 (bs.drop j) = none := by
  rw [word16_eq_none, List.length_drop] at *
  omega

/-- What `ReadWAVInfo` does with the first 36 octets: it returns false unless they form a
valid header, and otherwise goes on to look for the data chunk with the format stored. -/
theorem ReadWAVInfo_header (fuel : Nat) (pre bs : List Byte) (sk : Bool)
    (rn : Bool) (out : Option τ) (bsz : Nat) (bf : Option (List Byte))
    (bp bl ch sr bps : Nat) (ls : Int × Int) (iL iR : Byte) (cs : List Call) :
    ((¬ ∃ c r b, ValidHeader bs c r b) ∧
      ∃ o, ReadWAVInfo memSource fuel
        (AudioGeneratorWAV.mk rn (some (MemFile.mid pre bs sk)) out bsz bf bp bl ch sr bps ls
          iL iR cs) = some (false, o)) ∨
    (∃ c r b, ValidHeader bs c r b ∧
      ∃ E1 : AudioGeneratorWAV MemFile τ,
        E1.channels = c ∧ E1.sampleRate = r ∧ E1.bitsPerSample = b ∧
        ReadWAVInfo memSource fuel
          (AudioGeneratorWAV.mk rn (some (MemFile.mid pre bs sk)) out bsz bf bp bl ch sr bps ls
            iL iR cs) =
          afterFind memSource (findData memSource fuel E1)) := by
  rcases h0 : word32 bs with _ | riff
  · left
    exact ⟨by simp [ValidHeader, h0], by simp [ReadWAVInfo, ReadU32_any, h0]⟩
  by_cases hriff : riff = idRIFF
  swap
  · left
    exact ⟨by simp [ValidHeader, h0, hriff], by simp [ReadWAVInfo, ReadU32_any, h0, hriff]⟩
  subst hriff
  rcases h1 : word32 (bs.drop 4) with _ | sz0
  · left
    exact ⟨by simp [ValidHeader, word32_drop_none bs 4 8 (by omega) h1],
      by simp [ReadWAVInfo, ReadU32_any, h0, h1]⟩
  rcases h2 : word32 (bs.drop 8) with _ | wave
  · left
    exact ⟨by simp [ValidHeader, h2], by simp [ReadWAVInfo, ReadU32_any, h0, h1, h2]⟩
  by_cases hwave : wave = idWAVE
  swap
  · left
    exact ⟨by simp [ValidHeader, h2, hwave],
      by simp [ReadWAVInfo, ReadU32_any, h0, h1, h2, hwave]⟩
  subst hwave
  rcases h3 : word32 (bs.drop 12) with _ | fmt
  · left
    exact ⟨by simp [ValidHeader, h3],
      by simp [ReadWAVInfo, readFormat, ReadU32_any, ReadU16_any, h0, h1, h2, h3]⟩
  by_cases hfmt : fmt = idFmt
  swap
  · left
    exact ⟨by simp [ValidHeader, h3, hfmt],
      by simp [ReadWAVInfo, readFormat, ReadU32_any, ReadU16_any, h0, h1, h2, h3, hfmt]⟩
  subst hfmt
  rcases h4 : word32 (bs.drop 16) with _ | sz
  · left
    exact ⟨by simp [ValidHeader, h4],
      by simp [ReadWAVInfo, readFormat, ReadU32_any, ReadU16_any, h0, h1, h2, h3, h4]⟩
  by_cases hsz : sz = 16
  swap
  · left
    exact ⟨by simp [ValidHeader, h4, hsz],
      by simp [ReadWAVInfo, readFormat, ReadU32_any, ReadU16_any, h0, h1, h2, h3, h4, hsz]⟩
  subst hsz
  rcases h5 : word16 (bs.drop 20) with _ | af
  · left
    exact ⟨by simp [ValidHeader, h5],
      by simp [ReadWAVInfo, readFormat, ReadU32_any, ReadU16_any, h0, h1, h2, h3, h4, h5]⟩
  by_cases haf : af = 1
  swap
  · left
    exact ⟨by simp [ValidHeader, h5, haf],
      by simp [ReadWAVInfo, readFormat, ReadU32_any, ReadU16_any, h0, h1, h2, h3, h4, h5, haf]⟩
  subst haf
  rcases h6 : word16 (bs.drop 22) with _ | c
  · left
    exact ⟨by simp [ValidHeader, h6],
      by simp [ReadWAVInfo, readFormat, ReadU32_any, ReadU16_any, h0, h1, h2, h3, h4, h5, h6]⟩
  by_cases hc : c = 0 ∨ 2 < c
  · left
    refine ⟨?_, by simp [ReadWAVInfo, readFormat, ReadU32_any, ReadU16_any, h0, h1, h2, h3, h4, h5, h6, hc]⟩
    rintro ⟨c1, r1, b1, hv⟩
    have := hv.2.2.2.2.2.1
    rw [h6] at this
    have hcc := hv.2.2.2.2.2.2.2.2.1
    simp only [Option.some.injEq] at this
    omega
  rcases h7 : word32 (bs.drop 24) with _ | r
  · left
    exact ⟨by simp [ValidHeader, h7],
      by simp [ReadWAVInfo, readFormat, ReadU32_any, ReadU16_any, h0, h1, h2, h3, h4, h5, h6, h7, hc]⟩
  by_cases hr : r = 0
  · left
    refine ⟨?_, by simp [ReadWAVInfo, readFormat, ReadU32_any, ReadU16_any, h0, h1, h2, h3, h4, h5, h6, h7, hc, hr]⟩
    rintro ⟨c1, r1, b1, hv⟩
    have := hv.2.2.2.2.2.2.1
    rw [h7] at this
    have hrr := hv.2.2.2.2.2.2.2.2.2.1
    simp only [Option.some.injEq] at this
    omega
  rcases h8 : word32 (bs.drop 28) with _ | br
  · left
    exact ⟨by simp [ValidHeader, word16_drop_none_of_word32 bs 28 34 (by omega) h8],
      by simp [ReadWAVInfo, readFormat, ReadU32_any, ReadU16_any, h0, h1, h2, h3, h4, h5, h6, h7, h8, hc, hr]⟩
  rcases h9 : word16 (bs.drop 32) with _ | ba
  · left
    exact ⟨by simp [ValidHeader, word16_drop_none bs 32 34 (by omega) h9],
      by simp [ReadWAVInfo, readFormat, ReadU32_any, ReadU16_any, h0, h1, h2, h3, h4, h5, h6, h7, h8, h9, hc, hr]⟩
  rcases h10 : word16 (bs.drop 34) with _ | b
  · left
    exact ⟨by simp [ValidHeader, h10],
      by simp [ReadWAVInfo, readFormat, ReadU32_any, ReadU16_any, h0, h1, h2, h3, h4, h5, h6, h7, h8, h9, h10, hc, hr]⟩
  by_cases hb : ¬ b = 8 ∧ ¬ b = 16
  · left
    refine ⟨?_, by simp [ReadWAVInfo, readFormat, ReadU32_any, ReadU16_any, h0, h1, h2, h3, h4, h5, h6, h7, h8, h9, h10, hc, hr, hb]⟩
    rintro ⟨c1, r1, b1, hv⟩
    have := hv.2.2.2.2.2.2.2.1
    rw [h10] at this
    have hbb := hv.2.2.2.2.2.2.2.2.2.2
    simp only [Option.some.injEq] at this
    omega
  right
  have hc1 : ¬ (c < 1 ∨ c > 2) := by omega
  have hr1 : ¬ r < 1 := by omega
  have hb1 : ¬ (b ≠ 8 ∧ b ≠ 16) := by omega
  refine ⟨c, r, b, ⟨h0, h2, h3, h4, h5, h6, h7, h10, by omega, by omega, by omega⟩, ?_⟩
  simp only [ReadWAVInfo, readFormat, ReadU32_any, ReadU16_any, h0, h1, h2, h3, h4, h5, h6, h7, h8, h9,
    h10, hc1, hr1, hb1, List.drop_drop,
    ne_eq, not_true_eq_false, if_false, Nat.reduceAdd]
  refine ⟨_, ?_, ?_, ?_, rfl⟩ <;> rfl

theorem SameFormat_refl (e : AudioGeneratorWAV σ τ) : SameFormat e e := ⟨rfl, rfl, rfl⟩

theorem SameFormat_trans {a b c : AudioGeneratorWAV σ τ} (h1 : SameFormat a b)
    (h2 : SameFormat b c) : SameFormat a c :=
  ⟨h2.1.trans h1.1, h2.2.1.trans h1.2.1, h2.2.2.trans h1.2.2⟩

theorem ReadU32_format (S : AudioFileSource σ) (e : AudioGeneratorWAV σ τ) :
    SameFormat e (ReadU32 S e).2 := by
  unfold ReadU32 fileRead SameFormat
  cases e.file <;> simp
  split <;> simp

theorem fileSeek_format (S : AudioFileSource σ) (e : AudioGeneratorWAV σ τ) (n : Nat) :
    SameFormat e (fileSeek S e n) := by
  unfold fileSeek SameFormat
  cases e.file <;> simp

theorem findData_format (S : AudioFileSource σ) (fuel : Nat) :
    ∀ (e : AudioGeneratorWAV σ τ) (out : Bool × AudioGeneratorWAV σ τ),
      findData S fuel e = some out → SameFormat e out.2 := by
  induction fuel with
  | zero => intro e out h; simp [findData] at h
  | succ fuel ih =>
    intro e out h
    have h1 := ReadU32_format S e
    have h2 := ReadU32_format S (ReadU32 S e).2
    rw [findData] at h
    rcases hA : ReadU32 S e with ⟨_ | id, e1⟩
    · rw [hA] at h h1
      simp only [Option.some.injEq] at h
      rw [← h]; exact h1
    · rw [hA] at h h1 h2
      simp only at h h1 h2
      by_cases hid : id = idData
      · simp only [hid, if_true, Option.some.injEq] at h
        rw [← h]; exact h1
      · simp only [hid, if_false] at h
        rcases hB : ReadU32 S e1 with ⟨_ | sz, e2⟩
        · rw [hB] at h h2
          simp only [Option.some.injEq] at h
          rw [← h]; exact SameFormat_trans h1 h2
        · rw [hB] at h h2
          simp only at h h2
          exact SameFormat_trans (SameFormat_trans h1 h2)
            (SameFormat_trans (fileSeek_format S e2 sz) (ih _ out h))

theorem afterData_format (S : AudioFileSource σ) (e : AudioGeneratorWAV σ τ) :
    SameFormat e (afterData S e).2 := by
  have h0 : SameFormat e (fileIsOpen S e).2 := by
    unfold fileIsOpen SameFormat
    cases e.file <;> simp
  have h1 := ReadU32_format S (fileIsOpen S e).2
  unfold afterData
  dsimp only
  split_ifs with ho
  · exact h0
  · rcases hA : ReadU32 S (fileIsOpen S e).2 with ⟨_ | v, e1⟩
    · rw [hA] at h1
      exact SameFormat_trans h0 h1
    · rw [hA] at h1
      exact SameFormat_trans h0 (SameFormat_trans h1 ⟨rfl, rfl, rfl⟩)

theorem afterFind_format (S : AudioFileSource σ) (r : Option (Bool × AudioGeneratorWAV σ τ))
    (e e3 : AudioGeneratorWAV σ τ) (hr : ∀ out, r = some out → SameFormat e out.2)
    (h : afterFind S r = some (true, e3)) : SameFormat e e3 := by
  rcases r with _ | ⟨_ | _, e6⟩
  · simp [afterFind] at h
  · simp [afterFind] at h
  · simp only [afterFind, Option.some.injEq] at h
    have := afterData_format S e6
    rw [h] at this
    exact SameFormat_trans (hr _ rfl) this

theorem negotiate_format (O : AudioOutput τ) (e : AudioGeneratorWAV σ τ) (t : τ) :
    SameFormat e (negotiate O e t).2 := by
  unfold negotiate SameFormat
  dsimp only
  split_ifs <;> simp

/-- C9: for every input stream `bs` (read from an open source positioned at its start) and
every sink: if `begin()` returns true then the stream starts with `"RIFF"`, has `"WAVE"` at
octets 8..11, a `fmt ` chunk of declared size 16 and audio format 1, and the stored
`channels`, `sampleRate`, `bitsPerSample` are the declared ones, with channels in {1,2},
sample rate at least 1 and bit depth in {8,16}.  And whenever the first 36 octets are not
such a header, whatever follows them, `begin()` returns false for every amount of fuel. -/
theorem C9_begin_true_needs_valid_header (O : AudioOutput τ) (e : AudioGeneratorWAV MemFile τ)
    (output : Option τ) (bs : List Byte) (sk : Bool) :
    (∀ fuel out,
      begin memSource O fuel (some (MemFile.mid [] bs sk)) output e = some (true, out) →
        ValidHeader bs out.channels out.sampleRate out.bitsPerSample) ∧
    ((¬ ∃ c r b, ValidHeader bs c r b) → ∀ fuel, ∃ out,
      begin memSource O fuel (some (MemFile.mid [] bs sk)) output e = some (false, out)) := by
  rcases output with _ | t
  · exact ⟨fun fuel out h => by simp [begin] at h, fun _ fuel => ⟨_, rfl⟩⟩
  have key := fun fuel => ReadWAVInfo_header fuel [] bs sk e.running (some t) e.buffSize e.buff
    e.buffPtr e.buffLen e.channels e.sampleRate e.bitsPerSample e.lastSample e.indetL e.indetR
    (e.calls ++ [Call.isOpen true])
  constructor
  · intro fuel out h
    simp only [begin, fileIsOpen, memSource_isOpen, MemFile.mid_opened, Bool.true_eq_false,
      if_false] at h
    rcases key fuel with ⟨-, o, ho⟩ | ⟨c, r, b, hv, E1, hc, hr, hb, hE⟩
    · rw [ho] at h
      simp at h
    · rw [hE] at h
      rcases hR : afterFind memSource (findData memSource fuel E1) with _ | ⟨_ | _, e3⟩
      · rw [hR] at h; simp at h
      · rw [hR] at h; simp at h
      · rw [hR] at h
        have hf := afterFind_format memSource _ E1 e3
          (fun out ho => findData_format memSource fuel E1 out ho) hR
        simp only at h
        rcases ho3 : e3.output with _ | t3
        · rw [ho3] at h; simp at h
        · rw [ho3] at h
          simp only [Option.some.injEq] at h
          have hn := negotiate_format O e3 t3
          rw [h] at hn
          have := SameFormat_trans hf hn
          simp only [SameFormat] at this
          rw [this.1, this.2.1, this.2.2, hc, hr, hb]
          exact hv
  · intro hbad fuel
    simp only [begin, fileIsOpen, memSource_isOpen, MemFile.mid_opened, Bool.true_eq_false,
      if_false]
    rcases key fuel with ⟨-, o, ho⟩ | ⟨c, r, b, hv, -⟩
    · rw [ho]
      exact ⟨_, rfl⟩
    · exact absurd ⟨c, r, b, hv⟩ hbad

/-! ## C10: a stream that does not start with `RIFF` -/

theorem le32_u32le (a b c d : Byte) : le32 (u32le a b c d) = [a, b, c, d] := by
  have ha := a.isLt
  have hb := b.isLt
  have hc := c.isLt
  have hd := d.isLt
  simp only [le32, u32le, byteOf, List.cons.injEq, and_true]
  refine ⟨?_, ?_, ?_, ?_⟩ <;> (apply Fin.ext; simp only; omega)

/-- C10 (as stated, refuted): on a stream that starts with `"RIFX"`, `begin()` returns false
with the engine not running, but the source is still open afterwards: the only calls were
`isOpen()` and one read of four octets; `close()` was not called. -/
theorem C10_not_riff_counterexample :
    (begin memSource scriptedSink 1 (some (MemFile.ofStream wavNotRiff)) (some [])
        (freshEngine (7, 9))).map
      (fun r => (r.1, r.2.running, r.2.file.map memSource.isOpen, r.2.calls)) =
    some (false, false, some true,
      [Call.isOpen true, Call.read 4 [0x52, 0x49, 0x46, 0x58]]) := by
  rfl

/-- C10 (amended): for every source that reports itself open and whose first read of four
octets does not deliver `"RIFF"`, and every sink, `begin()` returns false for every fuel.
Its only calls are `isOpen()` and that one read; it does not call `close()`, so the source
is left in the state the read left it in (still open, if reading does not close it); and
`running` is what it was, so an engine that was not running is not running. -/
theorem C10_not_riff_returns_false_without_close (S : AudioFileSource σ) (O : AudioOutput τ)
    (e : AudioGeneratorWAV σ τ) (s : σ) (t : τ) (fuel : Nat)
    (hopen : S.isOpen s = true) (hmagic : (S.read s 4).1 ≠ le32 idRIFF) :
    begin S O fuel (some s) (some t) e =
      some (false,
        { e with file := some (S.read s 4).2, output := some t,
                 calls := e.calls ++ [Call.isOpen true, Call.read 4 (S.read s 4).1] }) := by
  have hR : ReadWAVInfo S fuel
      { e with file := some s, output := some t, calls := e.calls ++ [Call.isOpen true] } =
      some (false,
        { e with file := some (S.read s 4).2, output := some t,
                 calls := e.calls ++ [Call.isOpen true, Call.read 4 (S.read s 4).1] }) := by
    rcases hgot : (S.read s 4).1 with _ | ⟨b0, _ | ⟨b1, _ | ⟨b2, _ | ⟨b3, _ | ⟨b4, l⟩⟩⟩⟩⟩
    · simp [ReadWAVInfo, ReadU32, fileRead, hgot]
    · simp [ReadWAVInfo, ReadU32, fileRead, hgot]
    · simp [ReadWAVInfo, ReadU32, fileRead, hgot]
    · simp [ReadWAVInfo, ReadU32, fileRead, hgot]
    · have hne : u32le b0 b1 b2 b3 ≠ idRIFF := by
        intro h
        apply hmagic
        rw [hgot, ← h, le32_u32le]
      simp [ReadWAVInfo, ReadU32, fileRead, hgot, hne]
    · simp [ReadWAVInfo, ReadU32, fileRead, hgot]
  simp only [begin, fileIsOpen, hopen, Bool.true_eq_false, if_false]
  rw [hR]

/-- C10 at a concrete input: the stream `wavNotRiff` in an open `MemFile`. -/
theorem C10_not_riff_returns_false_without_close_witness :
    memSource.isOpen (MemFile.ofStream wavNotRiff) = true ∧
    (memSource.read (MemFile.ofStream wavNotRiff) 4).1 ≠ le32 idRIFF ∧
    begin memSource scriptedSink 1 (some (MemFile.ofStream wavNotRiff)) (some [])
        (freshEngine (7, 9)) =
      some (false,
        { freshEngine (7, 9) with
          file := some (memSource.read (MemFile.ofStream wavNotRiff) 4).2, output := some [],
          calls := (freshEngine (7, 9)).calls ++
            [Call.isOpen true, Call.read 4 (memSource.read (MemFile.ofStream wavNotRiff) 4).1] }) :=
  ⟨rfl, by decide,
   C10_not_riff_returns_false_without_close memSource scriptedSink (freshEngine (7, 9))
     (MemFile.ofStream wavNotRiff) [] 1 rfl (by decide)⟩

/-! ## C11: what a failed `begin()` leaves behind -/

/-- C11 (evaluated on the code): `begin()` on the valid stream `wav8mono` with a freshly
constructed engine and a sink that rejects `SetRate` returns false with the engine not
running, but the engine holds the read buffer of 128 octets that `ReadWAVInfo` allocated:
the `return false` after the rejected call does not release it. -/
theorem C11_rejected_setup_keeps_buffer :
    (begin memSource answerSink 1 (some (MemFile.ofStream wav8mono)) (some [false])
        (freshEngine (7, 9))).map
      (fun r => (r.1, r.2.running, r.2.buff, sinkCalls r.2.calls)) =
    some (false, false, some (List.replicate 128 0), [Call.SetRate 8000 false]) := by
  rfl

/-! ## C12: `stop()` twice -/

theorem stop_result (S : AudioFileSource σ) (e : AudioGeneratorWAV σ τ) :
    (stop S e).2.running = false := (stop_setup S e).2.1

/-- C12: for every engine state, a second `stop()` right after a first one returns true and
leaves the engine exactly as the first call left it, call log included, so it calls neither
`close()` nor `free`; and the calls of the first `stop()` contain at most one `close()` and
at most one release of the buffer. -/
theorem C12_stop_twice (S : AudioFileSource σ) (e : AudioGeneratorWAV σ τ) :
    stop S (stop S e).2 = (true, (stop S e).2) ∧
    ∃ cs, (stop S e).2.calls = e.calls ++ cs ∧ closeCount cs ≤ 1 ∧ freeCount cs ≤ 1 ∧
      (stop S (stop S e).2).2.calls = e.calls ++ cs := by
  have h2 : stop S (stop S e).2 = (true, (stop S e).2) := by
    have := stop_result S e
    rw [stop]
    simp [this]
  refine ⟨h2, ?_⟩
  rw [h2]
  unfold stop
  cases hrun : e.running <;> rcases hf : e.file with _ | f
  · exact ⟨[], by simp, by simp [closeCount], by simp [freeCount], by simp⟩
  · exact ⟨[], by simp, by simp [closeCount], by simp [freeCount], by simp⟩
  · exact ⟨[Call.free], by simp [hf], by simp [closeCount], by simp [freeCount], by simp [hf]⟩
  · exact ⟨[Call.free, Call.close (S.close f).1], by simp [hf], by simp [closeCount],
      by simp [freeCount], by simp [hf]⟩

/-! ## C13: what `stop()` returns and leaves -/

/-- C13 (as stated, refuted): on a running engine whose source's `close()` reports failure,
`stop()` returns false. -/
theorem C13_close_failure_counterexample :
    (demoStart wav8mono []).running = true ∧
    (stop stubbornSource (demoStart wav8mono [])).1 = false := by
  exact ⟨rfl, rfl⟩

/-- C13 (amended): on a running engine with a source, `stop()` releases the buffer, calls
`close()` on the source once and returns what `close()` returned (true when it succeeds);
afterwards the engine is not running and holds no read buffer.  On an engine that is not
running `stop()` returns true. -/
theorem C13_stop_on_running_engine (S : AudioFileSource σ) (e : AudioGeneratorWAV σ τ) (f : σ) :
    (e.running = true → e.file = some f →
      stop S e = ((S.close f).1,
        { e with running := false, buff := none, file := some (S.close f).2,
                 calls := e.calls ++ [Call.free, Call.close (S.close f).1] })) ∧
    (e.running = false → (stop S e).1 = true) := by
  constructor
  · intro hrun hf
    simp [stop, hrun, hf]
  · intro hrun
    simp [stop, hrun]

/-! ## C15: a seek that fails -/

/-- C15 (evaluated on the code): the stream `wavDataInList` read from a source that cannot
seek.  The `seek(8)` over the `LIST` payload reports failure, which `ReadWAVInfo` does not
look at; it reads the first payload octets as a chunk identifier, finds `data` there, and
`begin()` returns true with the source positioned inside the `LIST` payload. -/
theorem C15_failed_seek_ignored :
    (begin memSource scriptedSink 4 (some (MemFile.ofPipe wavDataInList)) (some [])
        (freshEngine (7, 9))).map
      (fun r => (r.1, r.2.running, r.2.file.map (fun f => f.pos),
        r.2.calls.drop 12)) =
    some (true, true, some 52,
      [Call.read 4 (le32 idLIST), Call.read 4 (le32 8), Call.seek 8 false,
       Call.read 4 (le32 idData), Call.isOpen true, Call.read 4 (le32 0),
       Call.SetRate 8000 true, Call.SetBitsPerSample 8 true, Call.SetChannels 1 true,
       Call.begin true]) := by
  rfl

/-! ## C16: `AudioFileSourceHTTPStream::read` -/

theorem awaitData_starved (fuel len : Nat) :
    ∀ s : HTTPStream, s.arriving = [] → (s.buffered.length : Int) < toInt32 len →
      HTTPStream.awaitData fuel len s = none := by
  induction fuel with
  | zero => intro s _ h; simp [HTTPStream.awaitData, h]
  | succ fuel ih =>
    intro s ha h
    rw [HTTPStream.awaitData, if_pos h]
    apply ih
    · simp [HTTPStream.yield, ha]
    · simpa [HTTPStream.yield, ha] using h

/-- C16 (evaluated on the code): a connected stream holds `k = 1` octet and `read` is asked
for `len = 2`.  Without a `yield()` the call has no result; when a second octet arrives
during the first `yield()`, the call returns both octets after that one `yield()`, not the
one octet that was there; and when nothing more arrives, no amount of fuel lets the call
return. -/
theorem C16_read_waits_for_full_length :
    HTTPStream.read 0 2 (oneOctetStream [[0x20]]) = none ∧
    HTTPStream.read 1 2 (oneOctetStream [[0x20]]) =
      some ([0x10, 0x20],
        { connected := true, buffered := [], arriving := [], pos := 2, yields := 1 }) ∧
    ¬ ∃ fuel r, HTTPStream.read fuel 2 (oneOctetStream []) = some r := by
  refine ⟨by decide, by decide, ?_⟩
  rintro ⟨fuel, r, h⟩
  have hs := awaitData_starved fuel 2 (oneOctetStream []) rfl (by decide)
  have hc : (oneOctetStream []).connected = true := rfl
  simp [HTTPStream.read, hs, hc] at h

/-! ## Sequential sources and the octets still to be delivered -/

theorem memSource_sequential : Sequential memSource MemFile.rem := by
  intro s n
  refine ⟨if s.opened then n else 0, ?_, ?_, ?_, ?_⟩
  · split <;> omega
  · intro hn hne
    cases ho : s.opened
    · simp [MemFile.rem, ho] at hne
    · simpa using hn
  · cases ho : s.opened <;> simp [memSource, MemFile.read, MemFile.rem, ho]
  · cases ho : s.opened
    · simp [memSource, MemFile.read, MemFile.rem, ho]
    · simp only [memSource, MemFile.read, MemFile.rem, ho, Bool.true_eq_false, if_false,
        if_true, List.length_take, List.length_drop]
      rw [List.drop_drop]
      rcases le_total n (s.data.length - s.pos) with h | h
      · rw [min_eq_left h, Nat.add_comm]
      · rw [min_eq_right h]
        rw [List.drop_eq_nil_of_le (by omega), List.drop_eq_nil_of_le (by omega)]

theorem splitSource_sequential : Sequential splitSource SplitFile.rest := by
  intro s n
  refine ⟨min n (max 1 (s.cuts.headD n)), Nat.min_le_left _ _, ?_, rfl, rfl⟩
  intro hn _
  exact le_min hn (le_max_left _ _)

theorem pending_eq_pendingOf (e : AudioGeneratorWAV MemFile τ) :
    pending e = pendingOf MemFile.rem e := by
  unfold pending pendingOf restOf MemFile.rem
  cases e.file <;> rfl

theorem ReadyOn_of_Ready (e : AudioGeneratorWAV MemFile τ) (h : Ready e) : ReadyOn e := by
  obtain ⟨h1, ⟨f, hf, -⟩, h3, h4⟩ := h
  exact ⟨h1, ⟨f, hf⟩, h3, h4⟩

theorem getBytes_one_seq (S : AudioFileSource σ) (rem : σ → List Byte)
    (hS : Sequential S rem) (acc : List Byte) (e : AudioGeneratorWAV σ τ) (b : Byte)
    (rest : List Byte) (hR : ReadyOn e) (hp : pendingOf rem e = b :: rest) :
    (getBytes S 1 acc e).1 = true ∧ (getBytes S 1 acc e).2.1 = acc ++ [b] ∧
      ReadyOn (getBytes S 1 acc e).2.2 ∧ pendingOf rem (getBytes S 1 acc e).2.2 = rest := by
  obtain ⟨hrun, ⟨f, hf⟩, ⟨bs, hb, hlen⟩, hsz⟩ := hR
  by_cases h1 : e.buffPtr ≥ e.buffLen
  · have hbuf : ((bs.take e.buffLen).drop e.buffPtr) = [] := by
      apply List.drop_eq_nil_of_le
      simp only [List.length_take]
      omega
    have hrest : rem f = b :: rest := by
      simpa [pendingOf, hf, hb, hbuf] using hp
    obtain ⟨k, hk1, hk2, hk3, hk4⟩ := hS f e.buffSize
    have hk5 : 1 ≤ k := hk2 hsz (by simp [hrest])
    obtain ⟨j, rfl⟩ : ∃ j, k = j + 1 := ⟨k - 1, by omega⟩
    rw [hrest, List.take_succ_cons] at hk3
    rw [hrest, List.drop_succ_cons] at hk4
    simp only [getBytes, h1, if_true, refill, fileRead, hf, hb]
    generalize S.read f e.buffSize = r at hk3 hk4
    obtain ⟨got, f1⟩ := r
    simp only at hk3 hk4
    subst hk3
    simp [buffAt, ReadyOn, hrun, hsz, pendingOf, hk4]
  · have h2 : e.buffPtr < e.buffLen := by omega
    have h3 : e.buffPtr < (bs.take e.buffLen).length := by
      simp only [List.length_take]
      omega
    have hp2 : (bs.take e.buffLen)[e.buffPtr] ::
        ((bs.take e.buffLen).drop (e.buffPtr + 1) ++ rem f) = b :: rest := by
      have := hp
      simp only [pendingOf, hf, hb, Option.getD_some] at this
      rw [List.drop_eq_getElem_cons h3] at this
      simpa using this
    simp only [List.cons.injEq] at hp2
    simp only [getBytes, h1, if_false]
    have h4 : e.buffPtr < bs.length := by omega
    simp [buffAt, ReadyOn, hrun, hsz, pendingOf, hf, hb, hlen, hp2.2, h4]
    rw [← hp2.1]
    simp

theorem getBytes_seq (S : AudioFileSource σ) (rem : σ → List Byte) (hS : Sequential S rem)
    (xs : List Byte) :
    ∀ (acc : List Byte) (e : AudioGeneratorWAV σ τ) (rest : List Byte),
      ReadyOn e → pendingOf rem e = xs ++ rest →
      (getBytes S xs.length acc e).1 = true ∧
        (getBytes S xs.length acc e).2.1 = acc ++ xs ∧
        ReadyOn (getBytes S xs.length acc e).2.2 ∧
        pendingOf rem (getBytes S xs.length acc e).2.2 = rest := by
  induction xs with
  | nil =>
    intro acc e rest hR hp
    simpa [getBytes, hR] using hp
  | cons b xs ih =>
    intro acc e rest hR hp
    obtain ⟨h1, h2, h3, h4⟩ :=
      getBytes_one_seq S rem hS acc e b (xs ++ rest) hR (by simpa using hp)
    rw [List.length_cons, getBytes_succ S xs.length acc e h1, h2]
    have := ih (acc ++ [b]) _ rest h3 h4
    simpa using this

theorem getBytes_short_seq (S : AudioFileSource σ) (rem : σ → List Byte)
    (hS : Sequential S rem) (n : Nat) :
    ∀ (acc : List Byte) (e : AudioGeneratorWAV σ τ),
      ReadyOn e → (pendingOf rem e).length < n →
      (getBytes S n acc e).1 = false ∧ ReadyOn (getBytes S n acc e).2.2 ∧
        pendingOf rem (getBytes S n acc e).2.2 = [] := by
  induction n with
  | zero => intro acc e _ h; omega
  | succ n ih =>
    intro acc e hR hlt
    rcases hx : pendingOf rem e with _ | ⟨b, xs⟩
    · obtain ⟨hrun, ⟨f, hf⟩, ⟨bs, hb, hlen⟩, hsz⟩ := hR
      have hx1 := hx
      simp only [pendingOf, hf, hb, Option.getD_some, List.append_eq_nil] at hx1
      have h1 : e.buffPtr ≥ e.buffLen := by
        have := congrArg List.length hx1.1
        simp only [List.length_drop, List.length_take, List.length_nil] at this
        omega
      obtain ⟨k, -, -, hk3, hk4⟩ := hS f e.buffSize
      rw [hx1.2] at hk3 hk4
      simp only [List.take_nil, List.drop_nil] at hk3 hk4
      simp only [getBytes, h1, if_true, refill, fileRead, hf, hb]
      generalize S.read f e.buffSize = r at hk3 hk4
      obtain ⟨got, f1⟩ := r
      simp only at hk3 hk4
      subst hk3
      simp [ReadyOn, hrun, hsz, pendingOf, hk4]
    · obtain ⟨h1, h2, h3, h4⟩ := getBytes_one_seq S rem hS acc e b xs hR hx
      rw [getBytes_succ S n acc e h1]
      apply ih _ _ h3
      rw [h4]
      rw [hx] at hlt
      simpa using hlt

/-! ## Frames decoded from a sequential source -/

theorem consumed_append (a b : List Call) : consumed (a ++ b) = consumed a ++ consumed b := by
  induction a with
  | nil => rfl
  | cons c a ih => cases c <;> simp [consumed, ih]

theorem refill_consumed (S : AudioFileSource σ) (e : AudioGeneratorWAV σ τ) :
    consumed (refill S e).calls = consumed e.calls := by
  unfold refill fileRead
  cases e.file <;> simp [consumed_append, consumed]

theorem getBytes_consumed (S : AudioFileSource σ) (n : Nat) :
    ∀ (acc : List Byte) (e : AudioGeneratorWAV σ τ),
      consumed (getBytes S n acc e).2.2.calls = consumed e.calls := by
  induction n with
  | zero => intro acc e; rfl
  | succ n ih =>
    intro acc e
    simp only [getBytes]
    split_ifs <;> simp [ih, refill_consumed]

theorem stop_consumed (S : AudioFileSource σ) (e : AudioGeneratorWAV σ τ) :
    consumed (stop S e).2.calls = consumed e.calls := by
  unfold stop
  cases e.running <;> cases e.file <;> simp [consumed_append, consumed]

theorem fetchOrStop_consumed (S : AudioFileSource σ) (n : Nat) (e : AudioGeneratorWAV σ τ) :
    consumed (fetchOrStop S n e).2.calls = consumed e.calls := by
  unfold fetchOrStop GetBufferedData
  cases e.running
  · simp [stop_consumed]
  · cases hok : (getBytes S n [] e).1 <;> simp [hok, stop_consumed, getBytes_consumed]

theorem decodeFrame_consumed (S : AudioFileSource σ) (e : AudioGeneratorWAV σ τ) :
    consumed (decodeFrame S e).calls = consumed e.calls := by
  unfold decodeFrame
  dsimp only
  split_ifs <;> simp [fetchOrStop_consumed]

theorem fetchOrStop_seq (S : AudioFileSource σ) (rem : σ → List Byte) (hS : Sequential S rem)
    (xs rest : List Byte) (e : AudioGeneratorWAV σ τ)
    (hR : ReadyOn e) (hp : pendingOf rem e = xs ++ rest) :
    (fetchOrStop S xs.length e).1 = xs ∧
      ReadyOn (fetchOrStop S xs.length e).2 ∧
      pendingOf rem (fetchOrStop S xs.length e).2 = rest ∧
      SameSetup e (fetchOrStop S xs.length e).2 ∧
      (fetchOrStop S xs.length e).2.lastSample = e.lastSample := by
  obtain ⟨h1, h2, h3, h4⟩ := getBytes_seq S rem hS xs [] e rest hR hp
  have hs := fetchOrStop_setup S xs.length e
  refine ⟨?_, ?_, ?_, hs.1, hs.2⟩
  · simpa [fetchOrStop, GetBufferedData, hR.1, h1] using h2
  · simpa [fetchOrStop, GetBufferedData, hR.1, h1] using h3
  · simpa [fetchOrStop, GetBufferedData, hR.1, h1] using h4

theorem fetchOrStop_short_seq (S : AudioFileSource σ) (rem : σ → List Byte)
    (hS : Sequential S rem) (n : Nat) (e : AudioGeneratorWAV σ τ)
    (hR : ReadyOn e) (hp : (pendingOf rem e).length < n) :
    (fetchOrStop S n e).2.running = false := by
  obtain ⟨h1, -, -⟩ := getBytes_short_seq S rem hS n [] e hR hp
  simp [fetchOrStop, GetBufferedData, hR.1, h1, (stop_setup S _).2.1]

@[simp] theorem ReadyOn_lastSample (e : AudioGeneratorWAV σ τ) (x : Int × Int) :
    ReadyOn { e with lastSample := x } ↔ ReadyOn e := by
  simp [ReadyOn]

@[simp] theorem pendingOf_lastSample (rem : σ → List Byte) (e : AudioGeneratorWAV σ τ)
    (x : Int × Int) : pendingOf rem { e with lastSample := x } = pendingOf rem e := by
  simp [pendingOf]

/-- Two consecutive fetches of `n` and `m` octets when fewer than `n + m` are pending: the
engine ends stopped. -/
theorem two_fetches_short (S : AudioFileSource σ) (rem : σ → List Byte)
    (hS : Sequential S rem) (n m : Nat) (e : AudioGeneratorWAV σ τ) (x : Int × Int)
    (hR : ReadyOn e) (hp : (pendingOf rem e).length < n + m) :
    (fetchOrStop S m { (fetchOrStop S n e).2 with lastSample := x }).2.running = false := by
  by_cases hn : (pendingOf rem e).length < n
  · have h1 := fetchOrStop_short_seq S rem hS n e hR hn
    rw [fetchOrStop_stopped S m _ (by simpa using h1)]
    simpa using h1
  · obtain ⟨-, a2, a3, -, -⟩ := fetchOrStop_seq S rem hS ((pendingOf rem e).take n)
      ((pendingOf rem e).drop n) e hR (List.take_append_drop _ _).symm
    have hl : ((pendingOf rem e).take n).length = n := by
      rw [List.length_take]; omega
    rw [hl] at a2 a3
    apply fetchOrStop_short_seq S rem hS m _ (by simpa using a2)
    rw [pendingOf_lastSample, a3, List.length_drop]
    omega

/-- One decode iteration against the reference decoder: either no complete frame is pending
and the engine ends stopped, or the iteration stores the next frame of the reference decoder
and leaves pending exactly what follows that frame. -/
theorem decodeFrame_step (S : AudioFileSource σ) (rem : σ → List Byte) (hS : Sequential S rem)
    (e : AudioGeneratorWAV σ τ) (hR : ReadyOn e)
    (hb : e.bitsPerSample = 8 ∨ e.bitsPerSample = 16) :
    (framesOf e.bitsPerSample e.channels (pendingOf rem e) = [] ∧
      (decodeFrame S e).running = false) ∨
    (∃ rest, framesOf e.bitsPerSample e.channels (pendingOf rem e) =
        (decodeFrame S e).lastSample :: framesOf e.bitsPerSample e.channels rest ∧
      ReadyOn (decodeFrame S e) ∧ pendingOf rem (decodeFrame S e) = rest ∧
      rest.length < (pendingOf rem e).length) := by
  have hc1 : ∀ n, (fetchOrStop S n e).2.channels = e.channels :=
    fun n => (fetchOrStop_setup S n e).1.2.1
  rcases hb with h8 | h16
  · by_cases hc : e.channels = 2
    · have hshort : (pendingOf rem e).length < 1 + 1 → (decodeFrame S e).running = false := by
        intro hl
        have := two_fetches_short S rem hS 1 1 e (fetchOrStop S 1 e).2.lastSample hR hl
        simp only at this
        simp only [decodeFrame, h8, if_true]
        rw [if_pos ((hc1 1).trans hc)]
        exact this
      rcases hx : pendingOf rem e with _ | ⟨b0, _ | ⟨b1, rest⟩⟩
      · exact Or.inl ⟨by simp [framesOf, h8, hc, frames8stereo], hshort (by simp [hx])⟩
      · exact Or.inl ⟨by simp [framesOf, h8, hc, frames8stereo], hshort (by simp [hx])⟩
      · right
        obtain ⟨a1, a2, a3, -, -⟩ :=
          fetchOrStop_seq S rem hS [b0] (b1 :: rest) e hR (by simpa using hx)
        simp only [List.length_cons, List.length_nil, Nat.zero_add] at a1 a2 a3
        obtain ⟨c1, c2, c3, -, -⟩ :=
          fetchOrStop_seq S rem hS [b1] rest (fetchOrStop S 1 e).2 a2 (by simpa using a3)
        simp only [List.length_cons, List.length_nil, Nat.zero_add] at c1 c2 c3
        simp only [decodeFrame, h8, if_true]
        rw [if_pos ((hc1 1).trans hc)]
        generalize fetchOrStop S 1 (fetchOrStop S 1 e).2 = B at c1 c2 c3 ⊢
        obtain ⟨xb, eb⟩ := B
        simp only at c1 c2 c3 ⊢
        subst c1
        exact ⟨rest, by simp [framesOf, hc, frames8stereo, a1], by simpa using c2,
          by simpa using c3, by simp; omega⟩
    · have hshort : (pendingOf rem e).length < 1 → (decodeFrame S e).running = false := by
        intro hl
        have := fetchOrStop_short_seq S rem hS 1 e hR hl
        simp only [decodeFrame, h8, if_true]
        rw [if_neg (by rw [hc1 1]; exact hc)]
        exact this
      rcases hx : pendingOf rem e with _ | ⟨b0, rest⟩
      · exact Or.inl ⟨by simp [framesOf, h8, hc, frames8mono], hshort (by simp [hx])⟩
      · right
        obtain ⟨a1, a2, a3, -, -⟩ :=
          fetchOrStop_seq S rem hS [b0] rest e hR (by simpa using hx)
        simp only [List.length_cons, List.length_nil, Nat.zero_add] at a1 a2 a3
        simp only [decodeFrame, h8, if_true]
        rw [if_neg (by rw [hc1 1]; exact hc)]
        exact ⟨rest, by simp [framesOf, hc, frames8mono, a1], by simpa using a2,
          by simpa using a3, by simp; try omega⟩
  · have h8 : ¬ e.bitsPerSample = 8 := by omega
    by_cases hc : e.channels = 2
    · have hshort : (pendingOf rem e).length < 2 + 2 → (decodeFrame S e).running = false := by
        intro hl
        have := two_fetches_short S rem hS 2 2 e
          (store16 (fetchOrStop S 2 e).2.lastSample.1 (fetchOrStop S 2 e).1,
            (fetchOrStop S 2 e).2.lastSample.2) hR hl
        simp only [decodeFrame, h16, Nat.reduceEqDiff, if_false, if_true]
        rw [if_pos ((hc1 2).trans hc)]
        exact this
      rcases hx : pendingOf rem e with _ | ⟨b0, _ | ⟨b1, _ | ⟨b2, _ | ⟨b3, rest⟩⟩⟩⟩
      · exact Or.inl ⟨by simp [framesOf, h16, hc, frames16stereo], hshort (by simp [hx])⟩
      · exact Or.inl ⟨by simp [framesOf, h16, hc, frames16stereo], hshort (by simp [hx])⟩
      · exact Or.inl ⟨by simp [framesOf, h16, hc, frames16stereo], hshort (by simp [hx])⟩
      · exact Or.inl ⟨by simp [framesOf, h16, hc, frames16stereo], hshort (by simp [hx])⟩
      · right
        obtain ⟨a1, a2, a3, -, -⟩ :=
          fetchOrStop_seq S rem hS [b0, b1] (b2 :: b3 :: rest) e hR (by simpa using hx)
        simp only [List.length_cons, List.length_nil, Nat.zero_add, Nat.reduceAdd] at a1 a2 a3
        have hc2 := (hc1 2).trans hc
        simp only [decodeFrame, h16, Nat.reduceEqDiff, if_false, if_true]
        generalize fetchOrStop S 2 e = A at a1 a2 a3 hc2 ⊢
        obtain ⟨xa, ea⟩ := A
        simp only at a1 a2 a3 hc2 ⊢
        subst a1
        rw [if_pos hc2]
        simp only [store16_two]
        obtain ⟨c1, c2, c3, -, c5⟩ :=
          fetchOrStop_seq S rem hS [b2, b3] rest
            { ea with lastSample := (int16le b0 b1, ea.lastSample.2) }
            (by simpa using a2) (by simpa using a3)
        simp only [List.length_cons, List.length_nil, Nat.zero_add, Nat.reduceAdd] at c1 c2 c3 c5
        generalize fetchOrStop S 2
          { ea with lastSample := (int16le b0 b1, ea.lastSample.2) } = B at c1 c2 c3 c5 ⊢
        obtain ⟨xb, eb⟩ := B
        simp only at c1 c2 c3 c5 ⊢
        subst c1
        exact ⟨rest, by simp [framesOf, hc, frames16stereo, c5, store16_two],
          by simpa using c2, by simpa using c3, by simp; omega⟩
    · have hshort : (pendingOf rem e).length < 2 → (decodeFrame S e).running = false := by
        intro hl
        have := fetchOrStop_short_seq S rem hS 2 e hR hl
        simp only [decodeFrame, h16, Nat.reduceEqDiff, if_false, if_true]
        rw [if_neg (by rw [hc1 2]; exact hc)]
        exact this
      rcases hx : pendingOf rem e with _ | ⟨b0, _ | ⟨b1, rest⟩⟩
      · exact Or.inl ⟨by simp [framesOf, h16, hc, frames16mono], hshort (by simp [hx])⟩
      · exact Or.inl ⟨by simp [framesOf, h16, hc, frames16mono], hshort (by simp [hx])⟩
      · right
        obtain ⟨a1, a2, a3, -, -⟩ :=
          fetchOrStop_seq S rem hS [b0, b1] rest e hR (by simpa using hx)
        simp only [List.length_cons, List.length_nil, Nat.zero_add, Nat.reduceAdd] at a1 a2 a3
        have hc2 : ¬ (fetchOrStop S 2 e).2.channels = 2 := by rw [hc1 2]; exact hc
        simp only [decodeFrame, h16, Nat.reduceEqDiff, if_false, if_true]
        generalize fetchOrStop S 2 e = A at a1 a2 a3 hc2 ⊢
        obtain ⟨xa, ea⟩ := A
        simp only at a1 a2 a3 hc2 ⊢
        subst a1
        rw [if_neg hc2]
        exact ⟨rest, by simp [framesOf, hc, frames16mono, store16_two],
          by simpa using a2, by simpa using a3, by simp; try omega⟩

theorem ReadyOn_offer (O : AudioOutput τ) (e : AudioGeneratorWAV σ τ) (hR : ReadyOn e) :
    ReadyOn (offer O e).2 := by
  unfold offer
  cases e.output <;> simpa [ReadyOn] using hR

theorem pendingOf_offer (O : AudioOutput τ) (rem : σ → List Byte) (e : AudioGeneratorWAV σ τ) :
    pendingOf rem (offer O e).2 = pendingOf rem e := by
  unfold offer
  cases e.output <;> simp [pendingOf]

theorem offer_format (O : AudioOutput τ) (e : AudioGeneratorWAV σ τ) :
    (offer O e).2.bitsPerSample = e.bitsPerSample ∧ (offer O e).2.channels = e.channels ∧
      ((∃ t, e.output = some t) → ∃ t, (offer O e).2.output = some t) := by
  unfold offer
  cases e.output <;> simp

theorem offer_accepted (O : AudioOutput τ) (hO : ∀ t x, (O.ConsumeSample t x).1 = true)
    (e : AudioGeneratorWAV σ τ) (ho : ∃ t, e.output = some t) :
    (offer O e).1 = true ∧
      consumed (offer O e).2.calls =
        consumed e.calls ++ [(e.lastSample.1, e.lastSample.2, true)] := by
  obtain ⟨t, ht⟩ := ho
  simp [offer, ht, hO, consumed_append, consumed]

/-- The `do ... while` of `loop()` over a sequential source and a sink that accepts every
frame: with more fuel than there are pending octets it ends with the engine stopped, and the
frames it offered are those of the reference decoder on the pending octets, in order, each
offered once. -/
theorem decodeLoop_frames (S : AudioFileSource σ) (O : AudioOutput τ) (rem : σ → List Byte)
    (hS : Sequential S rem) (hO : ∀ t x, (O.ConsumeSample t x).1 = true) (n : Nat) :
    ∀ (e : AudioGeneratorWAV σ τ), ReadyOn e →
      (e.bitsPerSample = 8 ∨ e.bitsPerSample = 16) → (∃ t, e.output = some t) →
      (pendingOf rem e).length ≤ n → ∀ fuel, n < fuel →
      ∃ e1, decodeLoop S O fuel e = some e1 ∧ e1.running = false ∧
        consumed e1.calls = consumed e.calls ++
          (framesOf e.bitsPerSample e.channels (pendingOf rem e)).map
            (fun f => (f.1, f.2, true)) := by
  induction n with
  | zero =>
    intro e hR hb _ hlen fuel hfuel
    obtain ⟨k, rfl⟩ : ∃ k, fuel = k + 1 := ⟨fuel - 1, by omega⟩
    simp only [decodeLoop]
    rcases decodeFrame_step S rem hS e hR hb with ⟨hf, hrun⟩ | ⟨rest, -, -, -, hlt⟩
    · rw [if_pos hrun]
      exact ⟨_, rfl, hrun, by rw [hf, decodeFrame_consumed]; simp⟩
    · omega
  | succ n ih =>
    intro e hR hb hout hlen fuel hfuel
    obtain ⟨k, rfl⟩ : ∃ k, fuel = k + 1 := ⟨fuel - 1, by omega⟩
    simp only [decodeLoop]
    rcases decodeFrame_step S rem hS e hR hb with ⟨hf, hrun⟩ | ⟨rest, hf, hR1, hp1, hlt⟩
    · rw [if_pos hrun]
      exact ⟨_, rfl, hrun, by rw [hf, decodeFrame_consumed]; simp⟩
    · have hset := decodeFrame_setup S e
      have hout1 : ∃ t, (decodeFrame S e).output = some t := by
        rw [hset.1]; exact hout
      obtain ⟨hacc, hcons⟩ := offer_accepted O hO (decodeFrame S e) hout1
      obtain ⟨hfb, hfc, hfo⟩ := offer_format O (decodeFrame S e)
      rw [if_neg (by simp [hR1.1]), if_pos hacc]
      obtain ⟨e1, h1, h2, h3⟩ := ih (offer O (decodeFrame S e)).2 (ReadyOn_offer O _ hR1)
        (by rw [hfb, hset.2.2.1]; exact hb) (hfo hout1)
        (by rw [pendingOf_offer, hp1]; omega) k (by omega)
      refine ⟨e1, h1, h2, ?_⟩
      rw [h3, hcons, decodeFrame_consumed, hf, pendingOf_offer, hp1, hfb, hfc, hset.2.2.1,
        hset.2.1]
      simp

/-! ## `begin()` on a well-formed stream -/

theorem consumed_skipCalls (chunks : List (Nat × List Byte)) :
    consumed (skipCalls chunks) = [] := by
  induction chunks with
  | nil => rfl
  | cons c cs ih => simpa [skipCalls, consumed] using ih

theorem begin_open (S : AudioFileSource σ) (O : AudioOutput τ) (fuel : Nat) (s : σ) (t : τ)
    (e : AudioGeneratorWAV σ τ) (ho : S.isOpen s = true) :
    begin S O fuel (some s) (some t) e =
      match ReadWAVInfo S fuel
        { e with file := some s, output := some t, calls := e.calls ++ [Call.isOpen true] } with
      | none => none
      | some (false, e3) => some (false, e3)
      | some (true, e3) =>
        match e3.output with
        | none => some (false, e3)
        | some t3 => some (negotiate O e3 t3) := by
  simp only [begin, fileIsOpen, ho, Bool.true_eq_false, if_false]

/-- The engine `begin()` leaves on a well-formed stream read from an open, seekable
`MemFile`, with a sink that accepts the set-up calls: running, the buffer allocated and
empty, the source right behind the size field of the `data` chunk, the format stored,
`lastSample` untouched, and no `ConsumeSample` made. -/
theorem begin_stream (O : AudioOutput τ)
    (hRate : ∀ t n, (O.SetRate t n).1 = true)
    (hBits : ∀ t n, (O.SetBitsPerSample t n).1 = true)
    (hChan : ∀ t n, (O.SetChannels t n).1 = true)
    (hBegin : ∀ t, (O.begin t).1 = true)
    (e : AudioGeneratorWAV MemFile τ) (t : τ) (fuel : Nat)
    (riffSize c r byteRate blockAlign b dataSize : Nat)
    (chunks : List (Nat × List Byte)) (data : List Byte)
    (hc : c = 1 ∨ c = 2) (hr : 1 ≤ r) (hr32 : r < 4294967296) (hb : b = 8 ∨ b = 16)
    (hchunks : ∀ x ∈ chunks, x.1 < 4294967296 ∧ x.1 ≠ idData ∧ x.2.length < 2147483648)
    (hfuel : chunks.length < fuel) :
    ∃ e1,
      begin memSource O fuel
        (some (MemFile.ofStream (wavHeader riffSize c r byteRate blockAlign b ++
          chunksBytes chunks ++ chunk idData dataSize data))) (some t) e = some (true, e1) ∧
      e1.running = true ∧
      e1.file = some (MemFile.mid (wavHeader riffSize c r byteRate blockAlign b ++
        chunksBytes chunks ++ le32 idData ++ le32 dataSize) data true) ∧
      e1.buff = some (List.replicate e.buffSize 0) ∧ e1.buffPtr = 0 ∧ e1.buffLen = 0 ∧
      e1.buffSize = e.buffSize ∧ e1.bitsPerSample = b ∧ e1.channels = c ∧
      e1.lastSample = e.lastSample ∧ (∃ t1, e1.output = some t1) ∧
      consumed e1.calls = consumed e.calls := by
  have h := ReadWAVInfo_chunks
    { e with output := some t, calls := e.calls ++ [Call.isOpen true] } fuel [] riffSize c r
    byteRate blockAlign b dataSize chunks data hc hr hr32 hb hchunks hfuel
  rw [List.nil_append] at h
  have hbegin := begin_open memSource O fuel
    (MemFile.mid [] (wavHeader riffSize c r byteRate blockAlign b ++
      chunksBytes chunks ++ chunk idData dataSize data) true) t e rfl
  rw [MemFile.ofStream_eq_mid]
  simp only at hbegin h
  rw [hbegin, h]
  simp only [negotiate, hRate, hBits, hChan, hBegin, Bool.true_eq_false, if_false]
  refine ⟨_, rfl, rfl, rfl, rfl, rfl, rfl, rfl, rfl, rfl, rfl, ⟨_, rfl⟩, ?_⟩
  simp [consumed_append, consumed_skipCalls, consumed, fmtReads]

theorem begin_stream_ready (e1 : AudioGeneratorWAV MemFile τ) (pre data : List Byte) (n : Nat)
    (hrun : e1.running = true) (hf : e1.file = some (MemFile.mid pre data true))
    (hbuf : e1.buff = some (List.replicate n 0)) (hl : e1.buffLen = 0)
    (hsz : 1 ≤ e1.buffSize) :
    ReadyOn e1 ∧ pendingOf MemFile.rem e1 = data := by
  refine ⟨⟨hrun, ⟨_, hf⟩, ⟨_, hbuf, by simp [hl]⟩, hsz⟩, ?_⟩
  simp [pendingOf, hf, hl, MemFile.rem, MemFile.mid]

/-! ## C14: a data chunk that declares size 0 -/

theorem afterData_buffer (S : AudioFileSource σ) (e : AudioGeneratorWAV σ τ)
    (h : (afterData S e).1 = true) :
    (afterData S e).2.buffPtr = 0 ∧ (afterData S e).2.buffLen = 0 := by
  unfold afterData at h ⊢
  dsimp only at h ⊢
  by_cases ho : (fileIsOpen S e).1 = false
  · simp [ho] at h
  · rcases hA : ReadU32 S (fileIsOpen S e).2 with ⟨_ | v, e1⟩
    · simp [ho, hA] at h
    · simp [ho, hA]

theorem afterFind_buffer (S : AudioFileSource σ) (r : Option (Bool × AudioGeneratorWAV σ τ))
    (e3 : AudioGeneratorWAV σ τ) (h : afterFind S r = some (true, e3)) :
    e3.buffPtr = 0 ∧ e3.buffLen = 0 := by
  rcases r with _ | ⟨_ | _, e6⟩
  · simp [afterFind] at h
  · simp [afterFind] at h
  · simp only [afterFind, Option.some.injEq] at h
    have := afterData_buffer S e6 (by rw [h])
    rw [h] at this
    exact this

theorem readFormat_buffer (S : AudioFileSource σ) (fuel : Nat) (e e1 : AudioGeneratorWAV σ τ)
    (h : readFormat S fuel e = some (true, e1)) : e1.buffPtr = 0 ∧ e1.buffLen = 0 := by
  simp only [readFormat] at h
  repeat (split at h <;> try (simp at h; done))
  exact afterFind_buffer S _ e1 h

theorem ReadWAVInfo_buffer (S : AudioFileSource σ) (fuel : Nat) (e e1 : AudioGeneratorWAV σ τ)
    (h : ReadWAVInfo S fuel e = some (true, e1)) : e1.buffPtr = 0 ∧ e1.buffLen = 0 := by
  simp only [ReadWAVInfo] at h
  repeat (split at h <;> try (simp at h; done))
  exact readFormat_buffer S fuel _ e1 h

theorem readsAsk_append (n : Nat) (a b : List Call) :
    readsAsk n (a ++ b) = (readsAsk n a && readsAsk n b) := by
  simp [readsAsk]

theorem BufferStep_refl (e : AudioGeneratorWAV σ τ) : BufferStep e e :=
  ⟨rfl, id, [], by simp, rfl⟩

theorem BufferStep_trans {a b c : AudioGeneratorWAV σ τ} (h1 : BufferStep a b)
    (h2 : BufferStep b c) : BufferStep a c := by
  obtain ⟨s1, i1, t1, c1, r1⟩ := h1
  obtain ⟨s2, i2, t2, c2, r2⟩ := h2
  refine ⟨s2.trans s1, fun h => i2 (i1 h), t1 ++ t2, by rw [c2, c1, List.append_assoc], ?_⟩
  rw [s1] at r2
  rw [readsAsk_append, r1, r2]
  rfl

theorem BufferStep_lastSample {a b : AudioGeneratorWAV σ τ} (x : Int × Int)
    (h : BufferStep a b) : BufferStep a { b with lastSample := x } := h

theorem memSource_bounded : BoundedReads memSource := by
  intro s n
  simp only [memSource, MemFile.read]
  split
  · simp
  · simp only [List.length_take]
    omega

theorem refill_buffer (S : AudioFileSource σ) (hS : BoundedReads S)
    (e : AudioGeneratorWAV σ τ) : BufferStep e (refill S e) := by
  unfold refill fileRead
  rcases hf : e.file with _ | f
  · exact ⟨rfl, fun _ => by simp [BufferInv], [], by simp, rfl⟩
  · refine ⟨rfl, fun _ => ?_, [Call.read e.buffSize (S.read f e.buffSize).1], by simp,
      by simp [readsAsk]⟩
    simpa [BufferInv] using hS f e.buffSize

theorem getBytes_buffer (S : AudioFileSource σ) (hS : BoundedReads S) (n : Nat) :
    ∀ (acc : List Byte) (e : AudioGeneratorWAV σ τ), BufferStep e (getBytes S n acc e).2.2 := by
  induction n with
  | zero => intro acc e; exact BufferStep_refl e
  | succ n ih =>
    intro acc e
    have h1 : BufferStep e (if e.buffPtr ≥ e.buffLen then refill S e else e) := by
      split_ifs
      · exact refill_buffer S hS e
      · exact BufferStep_refl e
    simp only [getBytes]
    generalize (if e.buffPtr ≥ e.buffLen then refill S e else e) = e1 at h1 ⊢
    by_cases h2 : e1.buffPtr ≥ e1.buffLen
    · simpa only [h2, if_true] using h1
    · simp only [h2, if_false]
      have h3 : BufferStep e1 { e1 with buffPtr := e1.buffPtr + 1 } :=
        ⟨rfl, fun h => ⟨by simp only; omega, h.2⟩, [], by simp, rfl⟩
      exact BufferStep_trans h1 (BufferStep_trans h3 (ih _ _))

theorem stop_buffer (S : AudioFileSource σ) (e : AudioGeneratorWAV σ τ) :
    BufferStep e (stop S e).2 := by
  unfold stop
  cases hrun : e.running
  · simpa using BufferStep_refl e
  · rcases hf : e.file with _ | f
    · exact ⟨rfl, id, [Call.free], by simp, rfl⟩
    · exact ⟨rfl, id, [Call.free, Call.close (S.close f).1], by simp, rfl⟩

theorem GetBufferedData_buffer (S : AudioFileSource σ) (hS : BoundedReads S) (n : Nat)
    (e : AudioGeneratorWAV σ τ) : BufferStep e (GetBufferedData S n e).2.2 := by
  unfold GetBufferedData
  split_ifs
  · exact BufferStep_refl e
  · exact getBytes_buffer S hS n [] e

theorem fetchOrStop_buffer (S : AudioFileSource σ) (hS : BoundedReads S) (n : Nat)
    (e : AudioGeneratorWAV σ τ) : BufferStep e (fetchOrStop S n e).2 := by
  unfold fetchOrStop
  dsimp only
  split_ifs
  · exact GetBufferedData_buffer S hS n e
  · exact BufferStep_trans (GetBufferedData_buffer S hS n e) (stop_buffer S _)

theorem decodeFrame_buffer (S : AudioFileSource σ) (hS : BoundedReads S)
    (e : AudioGeneratorWAV σ τ) : BufferStep e (decodeFrame S e) := by
  unfold decodeFrame
  dsimp only
  split_ifs
  · exact BufferStep_lastSample _ (BufferStep_trans (fetchOrStop_buffer S hS 1 e)
      (fetchOrStop_buffer S hS 1 _))
  · exact BufferStep_lastSample _ (fetchOrStop_buffer S hS 1 e)
  · exact BufferStep_lastSample _ (BufferStep_trans
      (BufferStep_lastSample _ (fetchOrStop_buffer S hS 2 e))
      (fetchOrStop_buffer S hS 2 _))
  · exact BufferStep_lastSample _ (BufferStep_lastSample _ (fetchOrStop_buffer S hS 2 e))
  · exact BufferStep_refl e

theorem offer_buffer (O : AudioOutput τ) (e : AudioGeneratorWAV σ τ) :
    BufferStep e (offer O e).2 := by
  unfold offer
  rcases e.output with _ | t
  · exact BufferStep_refl e
  · exact ⟨rfl, id, [_], rfl, rfl⟩

theorem decodeLoop_buffer (S : AudioFileSource σ) (hS : BoundedReads S) (O : AudioOutput τ)
    (fuel : Nat) :
    ∀ (e e1 : AudioGeneratorWAV σ τ), decodeLoop S O fuel e = some e1 → BufferStep e e1 := by
  induction fuel with
  | zero => intro e e1 h; simp [decodeLoop] at h
  | succ fuel ih =>
    intro e e1 h
    simp only [decodeLoop] at h
    have hd := decodeFrame_buffer S hS e
    have ho := offer_buffer O (decodeFrame S e)
    split_ifs at h with h1 h2
    · cases h; exact hd
    · exact BufferStep_trans hd (BufferStep_trans ho (ih _ _ h))
    · cases h; exact BufferStep_trans hd ho

theorem loop_buffer (S : AudioFileSource σ) (hS : BoundedReads S) (O : AudioOutput τ)
    (fuel : Nat) (e : AudioGeneratorWAV σ τ) (r : Bool × AudioGeneratorWAV σ τ)
    (h : loop S O fuel e = some r) : BufferStep e r.2 := by
  simp only [loop] at h
  have ho := offer_buffer O e
  split_ifs at h with h1 h2
  · cases h; exact BufferStep_refl e
  · cases h; exact ho
  · rcases hd : decodeLoop S O fuel (offer O e).2 with _ | e2
    · simp [hd] at h
    · simp only [hd, Option.map_some', Option.some.injEq] at h
      subst h
      exact BufferStep_trans ho (decodeLoop_buffer S hS O fuel _ _ hd)

/-- While the buffer holds `n` more octets, fetching `n` octets calls nothing: it delivers
`buff[buffPtr .. buffPtr + n)` and advances `buffPtr` by `n`. -/
theorem getBytes_buffered (S : AudioFileSource σ) (n : Nat) :
    ∀ (acc : List Byte) (e : AudioGeneratorWAV σ τ), e.buffPtr + n ≤ e.buffLen →
      getBytes S n acc e =
        (true, acc ++ (List.range n).map (fun i => buffAt e (e.buffPtr + i)),
          { e with buffPtr := e.buffPtr + n }) := by
  induction n with
  | zero => intro acc e _; simp [getBytes]
  | succ n ih =>
    intro acc e h
    have h1 : ¬ e.buffPtr ≥ e.buffLen := by omega
    simp only [getBytes, h1, if_false]
    rw [ih _ _ (by simp only; omega)]
    simp only [List.range_succ_eq_map, List.map_cons, List.map_map, buffAt, Nat.add_zero,
      List.append_assoc, List.singleton_append]
    refine Prod.ext rfl (Prod.ext ?_ ?_)
    · simp only
      congr 2
      apply List.map_congr_left
      intro i _
      simp only [Function.comp, Nat.succ_eq_add_one]
      congr 1
      omega
    · simp only [Nat.add_assoc, Nat.add_comm 1 n]

/-- With the buffer used up, the first thing a fetch of at least one octet does is one read
of `buffSize` octets from the source. -/
theorem getBytes_exhausted (S : AudioFileSource σ) (hS : BoundedReads S) (n : Nat)
    (acc : List Byte) (e : AudioGeneratorWAV σ τ) (f : σ) (hf : e.file = some f)
    (h : e.buffLen ≤ e.buffPtr) :
    ∃ tail, (getBytes S (n + 1) acc e).2.2.calls =
      e.calls ++ Call.read e.buffSize (S.read f e.buffSize).1 :: tail := by
  have h1 : e.buffPtr ≥ e.buffLen := h
  have hc : (refill S e).calls = e.calls ++ [Call.read e.buffSize (S.read f e.buffSize).1] := by
    simp [refill, fileRead, hf]
  simp only [getBytes, h1, if_true]
  split_ifs
  · exact ⟨[], by simpa using hc⟩
  · obtain ⟨-, -, tail, ht, -⟩ := getBytes_buffer S hS n
      (acc ++ [buffAt (refill S e) (refill S e).buffPtr])
      { refill S e with buffPtr := (refill S e).buffPtr + 1 }
    exact ⟨tail, by rw [ht]; simp [hc]⟩

/-- Every octet a one-octet fetch delivers is `buff[p]` for an index `p` below `buffLen`. -/
theorem getBytes_index (S : AudioFileSource σ) (acc : List Byte) (e : AudioGeneratorWAV σ τ)
    (h : (getBytes S 1 acc e).1 = true) :
    ∃ p, p < (getBytes S 1 acc e).2.2.buffLen ∧ (getBytes S 1 acc e).2.2.buffPtr = p + 1 ∧
      (getBytes S 1 acc e).2.1 = acc ++ [buffAt (getBytes S 1 acc e).2.2 p] := by
  simp only [getBytes] at h ⊢
  generalize (if e.buffPtr ≥ e.buffLen then refill S e else e) = e1 at h ⊢
  by_cases h2 : e1.buffPtr ≥ e1.buffLen
  · simp only [h2, if_true] at h
    cases h
  · simp only [h2, if_false, getBytes]
    exact ⟨e1.buffPtr, by show e1.buffPtr < e1.buffLen; omega, rfl, rfl⟩

/-- A fetch of `m + n` octets is a fetch of `m` octets followed, if that succeeded, by a
fetch of `n` octets from where it ended. -/
theorem getBytes_add (S : AudioFileSource σ) (m n : Nat) :
    ∀ (acc : List Byte) (e : AudioGeneratorWAV σ τ),
      getBytes S (m + n) acc e =
        if (getBytes S m acc e).1 then
          getBytes S n (getBytes S m acc e).2.1 (getBytes S m acc e).2.2
        else getBytes S m acc e := by
  induction m with
  | zero => intro acc e; simp [getBytes]
  | succ m ih =>
    intro acc e
    rw [Nat.add_right_comm]
    simp only [getBytes]
    generalize (if e.buffPtr ≥ e.buffLen then refill S e else e) = e1
    by_cases h2 : e1.buffPtr ≥ e1.buffLen
    · simp [h2]
    · simp only [h2, if_false]
      exact ih _ _

/-- A fetch that asks for at least what the buffer still holds first delivers every buffered
octet, `buff[buffPtr .. buffLen)`, without calling the source, and goes on from
`buffPtr = buffLen`. -/
theorem getBytes_straddle (S : AudioFileSource σ) (n : Nat) (acc : List Byte)
    (e : AudioGeneratorWAV σ τ) (h1 : e.buffPtr ≤ e.buffLen) (h2 : e.buffLen - e.buffPtr ≤ n) :
    getBytes S n acc e =
      getBytes S (n - (e.buffLen - e.buffPtr))
        (acc ++ (List.range (e.buffLen - e.buffPtr)).map (fun i => buffAt e (e.buffPtr + i)))
        { e with buffPtr := e.buffLen } := by
  have hn : n = (e.buffLen - e.buffPtr) + (n - (e.buffLen - e.buffPtr)) := by omega
  conv => lhs; rw [hn]
  rw [getBytes_add, getBytes_buffered S (e.buffLen - e.buffPtr) acc e (by omega)]
  simp only [if_true]
  congr 2
  omega

/-- With the buffer used up, a fetch of at least one octet starts with one read of
`buffSize` octets into the buffer, which sets `buffLen` to the count read and `buffPtr` to
0; it fails if nothing was read and otherwise delivers `buff[0]` and goes on. -/
theorem getBytes_refill (S : AudioFileSource σ) (n : Nat) (acc : List Byte)
    (e : AudioGeneratorWAV σ τ) (f : σ) (hf : e.file = some f) (h : e.buffLen ≤ e.buffPtr) :
    getBytes S (n + 1) acc e =
      (if (S.read f e.buffSize).1 = [] then (false, acc, refill S e)
       else getBytes S n (acc ++ [buffAt (refill S e) 0]) { refill S e with buffPtr := 1 }) ∧
    (refill S e).calls = e.calls ++ [Call.read e.buffSize (S.read f e.buffSize).1] ∧
    (refill S e).buffPtr = 0 ∧ (refill S e).buffLen = (S.read f e.buffSize).1.length := by
  have h1 : e.buffPtr ≥ e.buffLen := h
  have hp : (refill S e).buffPtr = 0 := by simp [refill]
  have hl : (refill S e).buffLen = (S.read f e.buffSize).1.length := by
    simp [refill, fileRead, hf]
  refine ⟨?_, by simp [refill, fileRead, hf], hp, hl⟩
  simp only [getBytes, h1, if_true, hp, hl, Nat.zero_add]
  by_cases h0 : (S.read f e.buffSize).1 = []
  · simp [h0]
  · have : ¬ (0 ≥ (S.read f e.buffSize).1.length) := by
      simpa [List.length_eq_zero] using h0
    simp only [this, if_false, h0]

theorem sequential_bounded (S : AudioFileSource σ) (rem : σ → List Byte)
    (hS : Sequential S rem) : BoundedReads S := by
  intro s n
  obtain ⟨k, hk, -, h3, -⟩ := hS s n
  rw [h3, List.length_take]
  omega

/-! ## C17: the buffer predicate -/

/-- C17: for a source whose `read(buf, n)` returns a count in `0..n`: after `ReadWAVInfo`
has returned true, `buffPtr = buffLen = 0`, so `buffPtr ≤ buffLen ≤ buffSize` holds; every
`GetBufferedData`, `stop()` and `loop()` call that starts with the predicate ends with it,
leaves `buffSize` alone, and asks for `buffSize` octets in each source read it makes.  For a
fetch of any length `n`: on a running engine `GetBufferedData` is the `while (bytes--)` loop;
that loop is its iterations one after the other; while the buffer holds `n` more octets it
serves them from `buff[buffPtr .. buffPtr + n)` without calling the source; when `n` reaches
past the buffered octets it first delivers all of them, `buff[buffPtr .. buffLen)`, without
a call, and goes on from `buffPtr = buffLen`; only there, with the buffer used up, does it
read, one read of `buffSize` octets that sets `buffLen` to the count read and `buffPtr`
to 0, after which it fails on a count of 0 and otherwise delivers `buff[0]`; and an octet
delivered by an iteration is `buff[p]` with `p < buffLen`. -/
theorem C17_buffer_predicate (S : AudioFileSource σ) (hS : BoundedReads S) (O : AudioOutput τ)
    (fuel n : Nat) (e : AudioGeneratorWAV σ τ) :
    (∀ e1, ReadWAVInfo S fuel e = some (true, e1) →
      e1.buffPtr = 0 ∧ e1.buffLen = 0 ∧ BufferInv e1) ∧
    BufferStep e (GetBufferedData S n e).2.2 ∧
    BufferStep e (stop S e).2 ∧
    (∀ r, loop S O fuel e = some r → BufferStep e r.2) ∧
    (e.running = true → e.buffPtr + n ≤ e.buffLen →
      GetBufferedData S n e =
        (true, (List.range n).map (fun i => buffAt e (e.buffPtr + i)),
          { e with buffPtr := e.buffPtr + n })) ∧
    (e.running = true → e.buffLen ≤ e.buffPtr → ∀ f, e.file = some f →
      ∃ tail, (GetBufferedData S (n + 1) e).2.2.calls =
        e.calls ++ Call.read e.buffSize (S.read f e.buffSize).1 :: tail) ∧
    ((GetBufferedData S 1 e).1 = true →
      ∃ p, p < (GetBufferedData S 1 e).2.2.buffLen ∧
        (GetBufferedData S 1 e).2.2.buffPtr = p + 1 ∧
        (GetBufferedData S 1 e).2.1 = [buffAt (GetBufferedData S 1 e).2.2 p]) ∧
    (e.running = true → GetBufferedData S n e = getBytes S n [] e) ∧
    (∀ m acc, getBytes S (m + n) acc e =
      if (getBytes S m acc e).1 then
        getBytes S n (getBytes S m acc e).2.1 (getBytes S m acc e).2.2
      else getBytes S m acc e) ∧
    (∀ acc, e.buffPtr ≤ e.buffLen → e.buffLen - e.buffPtr ≤ n →
      getBytes S n acc e =
        getBytes S (n - (e.buffLen - e.buffPtr))
          (acc ++ (List.range (e.buffLen - e.buffPtr)).map
            (fun i => buffAt e (e.buffPtr + i)))
          { e with buffPtr := e.buffLen }) ∧
    (∀ acc f, e.file = some f → e.buffLen ≤ e.buffPtr →
      getBytes S (n + 1) acc e =
        (if (S.read f e.buffSize).1 = [] then (false, acc, refill S e)
         else getBytes S n (acc ++ [buffAt (refill S e) 0])
           { refill S e with buffPtr := 1 }) ∧
      (refill S e).calls = e.calls ++ [Call.read e.buffSize (S.read f e.buffSize).1] ∧
      (refill S e).buffPtr = 0 ∧ (refill S e).buffLen = (S.read f e.buffSize).1.length) ∧
    (∀ acc, (getBytes S 1 acc e).1 = true →
      ∃ p, p < (getBytes S 1 acc e).2.2.buffLen ∧ (getBytes S 1 acc e).2.2.buffPtr = p + 1 ∧
        (getBytes S 1 acc e).2.1 = acc ++ [buffAt (getBytes S 1 acc e).2.2 p]) := by
  refine ⟨?_, GetBufferedData_buffer S hS n e, stop_buffer S e,
    fun r h => loop_buffer S hS O fuel e r h, ?_, ?_, ?_, ?_,
    fun m acc => getBytes_add S m n acc e,
    fun acc h1 h2 => getBytes_straddle S n acc e h1 h2,
    fun acc f hf h => getBytes_refill S n acc e f hf h,
    fun acc h => getBytes_index S acc e h⟩
  · intro e1 h
    obtain ⟨h1, h2⟩ := ReadWAVInfo_buffer S fuel e e1 h
    exact ⟨h1, h2, by simp [BufferInv, h1, h2]⟩
  · intro hrun h
    simpa [GetBufferedData, hrun] using getBytes_buffered S n [] e h
  · intro hrun h f hf
    simpa [GetBufferedData, hrun] using getBytes_exhausted S hS n [] e f hf h
  · intro h
    cases hrun : e.running
    · simp [GetBufferedData, hrun] at h
    · simp only [GetBufferedData, hrun, Bool.true_eq_false, if_false] at h ⊢
      simpa using getBytes_index S [] e h
  · intro hrun
    simp [GetBufferedData, hrun]

set_option maxRecDepth 8000 in
/-- C17 at a concrete input: the engine `straddleEngine`, whose 3-octet buffer holds one
more octet when two are asked for.  The fetch delivers the buffered octet `0x02` from
`buff[2]`, then reads 3 octets and delivers `buff[0]`; the two reads in the log are those of
the first fetch and this one. -/
theorem C17_buffer_predicate_witness :
    (BoundedReads splitSource ∧ straddleEngine.buffPtr ≤ straddleEngine.buffLen ∧
      straddleEngine.buffLen - straddleEngine.buffPtr ≤ 2) ∧
    (straddleEngine.buffPtr, straddleEngine.buffLen, straddleEngine.buff) =
      (2, 3, some [0x01, 0x00, 0x02]) ∧
    ((GetBufferedData splitSource 2 straddleEngine).1,
      (GetBufferedData splitSource 2 straddleEngine).2.1,
      (GetBufferedData splitSource 2 straddleEngine).2.2.buffPtr,
      (GetBufferedData splitSource 2 straddleEngine).2.2.calls) =
      (true, [0x02, 0x00], 1, [Call.read 3 [0x01, 0x00, 0x02], Call.read 3 [0x00, 0x03, 0x00]]) ∧
    BufferStep straddleEngine (GetBufferedData splitSource 2 straddleEngine).2.2 ∧
    getBytes splitSource 2 [] straddleEngine =
      getBytes splitSource (2 - (straddleEngine.buffLen - straddleEngine.buffPtr))
        ([] ++ (List.range (straddleEngine.buffLen - straddleEngine.buffPtr)).map
          (fun i => buffAt straddleEngine (straddleEngine.buffPtr + i)))
        { straddleEngine with buffPtr := straddleEngine.buffLen } :=
  ⟨⟨sequential_bounded splitSource SplitFile.rest splitSource_sequential,
     Nat.le_of_ble_eq_true rfl, Nat.le_of_ble_eq_true rfl⟩,
   rfl, rfl,
   (C17_buffer_predicate splitSource
     (sequential_bounded splitSource SplitFile.rest splitSource_sequential) recordingSink 8 2
     straddleEngine).2.1,
   (C17_buffer_predicate splitSource
     (sequential_bounded splitSource SplitFile.rest splitSource_sequential) recordingSink 8 2
     straddleEngine).2.2.2.2.2.2.2.2.2.1 []
     (Nat.le_of_ble_eq_true rfl) (Nat.le_of_ble_eq_true rfl)⟩

/-! ## C18: buffering is transparent -/

theorem GetBufferedData_seq (S : AudioFileSource σ) (rem : σ → List Byte)
    (hS : Sequential S rem) (n : Nat) (e : AudioGeneratorWAV σ τ) (hR : ReadyOn e) :
    (n ≤ (pendingOf rem e).length →
      (GetBufferedData S n e).1 = true ∧
      (GetBufferedData S n e).2.1 = (pendingOf rem e).take n ∧
      ReadyOn (GetBufferedData S n e).2.2 ∧
      pendingOf rem (GetBufferedData S n e).2.2 = (pendingOf rem e).drop n) ∧
    ((pendingOf rem e).length < n →
      (GetBufferedData S n e).1 = false ∧ ReadyOn (GetBufferedData S n e).2.2 ∧
      pendingOf rem (GetBufferedData S n e).2.2 = []) := by
  simp only [GetBufferedData, hR.1, Bool.true_eq_false, if_false]
  constructor
  · intro hn
    have hl : ((pendingOf rem e).take n).length = n := by
      rw [List.length_take]; omega
    have := getBytes_seq S rem hS ((pendingOf rem e).take n) [] e ((pendingOf rem e).drop n) hR
      (List.take_append_drop _ _).symm
    rw [hl] at this
    simpa using this
  · intro hn
    exact getBytes_short_seq S rem hS n [] e hR hn

theorem fetchAll_in_order (S : AudioFileSource σ) (rem : σ → List Byte) (hS : Sequential S rem)
    (ns : List Nat) :
    ∀ e : AudioGeneratorWAV σ τ, ReadyOn e → fetchAll S ns e <+: pendingOf rem e := by
  induction ns with
  | nil => intro e _; exact List.nil_prefix
  | cons n ns ih =>
    intro e hR
    obtain ⟨hok, hshort⟩ := GetBufferedData_seq S rem hS n e hR
    simp only [fetchAll]
    by_cases hn : n ≤ (pendingOf rem e).length
    · obtain ⟨h1, h2, h3, h4⟩ := hok hn
      have := ih _ h3
      rw [h4] at this
      rw [h1, if_pos rfl, h2]
      conv => rhs; rw [← List.take_append_drop n (pendingOf rem e)]
      exact (List.prefix_append_right_inj _).mpr this
    · obtain ⟨h1, h3, h4⟩ := hshort (by omega)
      have := ih _ h3
      rw [h4] at this
      rw [h1, List.prefix_nil.mp this]
      simp

/-- C18: over any source that delivers its data region in order, in pieces of its own
choosing (each at most as long as asked for, none empty before the end), and for any buffer
size of at least 1: the octets that successive successful `GetBufferedData` calls deliver,
concatenated, are a prefix of the octets pending at the start, so none is skipped, repeated
or reordered; the frames the `do ... while` of `loop()` offers to an accepting sink are
those of the reference decoder on the pending octets; hence two engines that differ in
source, split and buffer size but hold the same pending octets and format offer the same
frames. -/
theorem C18_buffering_is_transparent {σ1 τ1 : Type}
    (S : AudioFileSource σ) (rem : σ → List Byte) (hS : Sequential S rem)
    (S1 : AudioFileSource σ1) (rem1 : σ1 → List Byte) (hS1 : Sequential S1 rem1)
    (O : AudioOutput τ) (hO : ∀ t x, (O.ConsumeSample t x).1 = true)
    (O1 : AudioOutput τ1) (hO1 : ∀ t x, (O1.ConsumeSample t x).1 = true)
    (e : AudioGeneratorWAV σ τ) (hR : ReadyOn e)
    (e1 : AudioGeneratorWAV σ1 τ1) (hR1 : ReadyOn e1)
    (hb : e.bitsPerSample = 8 ∨ e.bitsPerSample = 16) (hout : ∃ t, e.output = some t)
    (hout1 : ∃ t, e1.output = some t)
    (ns : List Nat) (fuel : Nat) (hfuel : (pendingOf rem e).length < fuel) :
    fetchAll S ns e <+: pendingOf rem e ∧
    (∃ e2, decodeLoop S O fuel e = some e2 ∧ e2.running = false ∧
      consumed e2.calls = consumed e.calls ++
        (framesOf e.bitsPerSample e.channels (pendingOf rem e)).map
          (fun f => (f.1, f.2, true))) ∧
    (pendingOf rem1 e1 = pendingOf rem e → e1.bitsPerSample = e.bitsPerSample →
      e1.channels = e.channels →
      ∃ e2 e3, decodeLoop S O fuel e = some e2 ∧ decodeLoop S1 O1 fuel e1 = some e3 ∧
        (consumed e2.calls).drop (consumed e.calls).length =
          (consumed e3.calls).drop (consumed e1.calls).length) := by
  have hA := decodeLoop_frames S O rem hS hO _ e hR hb hout (le_refl _) fuel hfuel
  refine ⟨fetchAll_in_order S rem hS ns e hR, hA, ?_⟩
  intro hp hbits hch
  obtain ⟨e2, h1, -, h3⟩ := hA
  obtain ⟨e3, k1, -, k3⟩ := decodeLoop_frames S1 O1 rem1 hS1 hO1 _ e1 hR1
    (by rw [hbits]; exact hb) hout1 (le_refl _) fuel (by rw [hp]; exact hfuel)
  refine ⟨e2, e3, h1, k1, ?_⟩
  rw [h3, k3, hp, hbits, hch, List.drop_left, List.drop_left]

set_option maxRecDepth 8000 in
/-- C18 at a concrete input: the two frames of `twoFrames16`, read once through a buffer of
3 octets from a source that delivers 2, 1 and then up to 5 octets, and once through a buffer
of 1 octet.  Fetches of 3, 1, 9 and 2 octets deliver the first four octets (the third and
fourth fetch fail), and both engines offer the same frames. -/
theorem C18_buffering_is_transparent_witness :
    (ReadyOn (splitEngine 3 [2, 1, 5] 16 2 twoFrames16) ∧
      ReadyOn (splitEngine 1 [] 16 2 twoFrames16) ∧
      (pendingOf SplitFile.rest (splitEngine 3 [2, 1, 5] 16 2 twoFrames16)).length < 9) ∧
    fetchAll splitSource [3, 1, 9, 2] (splitEngine 3 [2, 1, 5] 16 2 twoFrames16) =
      [0x01, 0x00, 0xFF, 0xFF] ∧
    fetchAll splitSource [3, 1, 9, 2] (splitEngine 3 [2, 1, 5] 16 2 twoFrames16) <+:
      pendingOf SplitFile.rest (splitEngine 3 [2, 1, 5] 16 2 twoFrames16) ∧
    ∃ e2 e3,
      decodeLoop splitSource recordingSink 9 (splitEngine 3 [2, 1, 5] 16 2 twoFrames16) =
        some e2 ∧
      decodeLoop splitSource recordingSink 9 (splitEngine 1 [] 16 2 twoFrames16) = some e3 ∧
      (consumed e2.calls).drop (consumed (splitEngine 3 [2, 1, 5] 16 2 twoFrames16).calls).length =
        (consumed e3.calls).drop (consumed (splitEngine 1 [] 16 2 twoFrames16).calls).length :=
  ⟨⟨⟨rfl, ⟨_, rfl⟩, ⟨_, rfl, Nat.le_of_ble_eq_true rfl⟩, Nat.le_of_ble_eq_true rfl⟩,
    ⟨rfl, ⟨_, rfl⟩, ⟨_, rfl, Nat.le_of_ble_eq_true rfl⟩, Nat.le_of_ble_eq_true rfl⟩,
    Nat.le_of_ble_eq_true rfl⟩,
   rfl,
   (C18_buffering_is_transparent splitSource SplitFile.rest splitSource_sequential
     splitSource SplitFile.rest splitSource_sequential
     recordingSink (fun _ _ => rfl) recordingSink (fun _ _ => rfl)
     (splitEngine 3 [2, 1, 5] 16 2 twoFrames16)
     ⟨rfl, ⟨_, rfl⟩, ⟨_, rfl, Nat.le_of_ble_eq_true rfl⟩, Nat.le_of_ble_eq_true rfl⟩
     (splitEngine 1 [] 16 2 twoFrames16)
     ⟨rfl, ⟨_, rfl⟩, ⟨_, rfl, Nat.le_of_ble_eq_true rfl⟩, Nat.le_of_ble_eq_true rfl⟩
     (Or.inr rfl) ⟨_, rfl⟩ ⟨_, rfl⟩ [3, 1, 9, 2] 9 (Nat.le_of_ble_eq_true rfl)).1,
   (C18_buffering_is_transparent splitSource SplitFile.rest splitSource_sequential
     splitSource SplitFile.rest splitSource_sequential
     recordingSink (fun _ _ => rfl) recordingSink (fun _ _ => rfl)
     (splitEngine 3 [2, 1, 5] 16 2 twoFrames16)
     ⟨rfl, ⟨_, rfl⟩, ⟨_, rfl, Nat.le_of_ble_eq_true rfl⟩, Nat.le_of_ble_eq_true rfl⟩
     (splitEngine 1 [] 16 2 twoFrames16)
     ⟨rfl, ⟨_, rfl⟩, ⟨_, rfl, Nat.le_of_ble_eq_true rfl⟩, Nat.le_of_ble_eq_true rfl⟩
     (Or.inr rfl) ⟨_, rfl⟩ ⟨_, rfl⟩ [3, 1, 9, 2] 9 (Nat.le_of_ble_eq_true rfl)).2.2
     rfl rfl rfl⟩

/-! ## C19: what the first `loop()` call offers -/

theorem frames8mono_length (xs : List Byte) : (frames8mono xs).length = xs.length := by
  induction xs with
  | nil => rfl
  | cons a xs ih => simp [frames8mono, ih]

theorem frames8stereo_length (N : Nat) :
    ∀ xs : List Byte, xs.length = N * 2 → (frames8stereo xs).length = N := by
  induction N with
  | zero => intro xs h; simp at h; subst h; rfl
  | succ N ih =>
    intro xs h
    rcases xs with _ | ⟨a, _ | ⟨b, xs⟩⟩
    · simp at h
    · simp at h; omega
    · simp only [frames8stereo, List.length_cons]
      rw [ih xs (by simp at h; omega)]

theorem frames16mono_length (N : Nat) :
    ∀ xs : List Byte, xs.length = N * 2 → (frames16mono xs).length = N := by
  induction N with
  | zero => intro xs h; simp at h; subst h; rfl
  | succ N ih =>
    intro xs h
    rcases xs with _ | ⟨a, _ | ⟨b, xs⟩⟩
    · simp at h
    · simp at h; omega
    · simp only [frames16mono, List.length_cons]
      rw [ih xs (by simp at h; omega)]

theorem frames16stereo_length (N : Nat) :
    ∀ xs : List Byte, xs.length = N * 4 → (frames16stereo xs).length = N := by
  induction N with
  | zero => intro xs h; simp at h; subst h; rfl
  | succ N ih =>
    intro xs h
    rcases xs with _ | ⟨a, _ | ⟨b, _ | ⟨c, _ | ⟨d, xs⟩⟩⟩⟩
    · simp at h
    · simp at h; omega
    · simp at h; omega
    · simp at h; omega
    · simp only [frames16stereo, List.length_cons]
      rw [ih xs (by simp at h; omega)]

theorem framesOf_length (b c N : Nat) (xs : List Byte) (h : xs.length = N * frameSize b c) :
    (framesOf b c xs).length = N := by
  unfold frameSize at h
  unfold framesOf
  split_ifs at h ⊢ with h8 hc
  · exact frames8stereo_length N xs (by omega)
  · rw [frames8mono_length]; omega
  · exact frames16stereo_length N xs (by omega)
  · exact frames16mono_length N xs (by omega)

/-- C19: take a well-formed stream whose data region `data` holds exactly `N` complete
frames, an open seekable source, and a sink that accepts every call.  `begin()` returns true
without a `ConsumeSample` call, leaving the source at the first octet of the data region and
the buffer empty.  The first `loop()` call then starts with `ConsumeSample(lastSample)`,
carrying what `lastSample` held before `begin()` (nothing decoded from the stream), before
any other call; it goes on to offer the `N` frames of the data region in stream order, so
the sink receives `N + 1` calls in all, and it returns false. -/
theorem C19_first_offer_is_not_decoded (O : AudioOutput τ)
    (hRate : ∀ t n, (O.SetRate t n).1 = true)
    (hBits : ∀ t n, (O.SetBitsPerSample t n).1 = true)
    (hChan : ∀ t n, (O.SetChannels t n).1 = true)
    (hBegin : ∀ t, (O.begin t).1 = true)
    (hO : ∀ t x, (O.ConsumeSample t x).1 = true)
    (e : AudioGeneratorWAV MemFile τ) (t : τ) (fuel k N : Nat)
    (riffSize c r byteRate blockAlign b dataSize : Nat)
    (chunks : List (Nat × List Byte)) (data : List Byte)
    (hc : c = 1 ∨ c = 2) (hr : 1 ≤ r) (hr32 : r < 4294967296) (hb : b = 8 ∨ b = 16)
    (hchunks : ∀ x ∈ chunks, x.1 < 4294967296 ∧ x.1 ≠ idData ∧ x.2.length < 2147483648)
    (hfuel : chunks.length < fuel) (hsz : 1 ≤ e.buffSize)
    (hN : data.length = N * frameSize b c) (hk : data.length < k) :
    ∃ e1 e2 tail,
      begin memSource O fuel
        (some (MemFile.ofStream (wavHeader riffSize c r byteRate blockAlign b ++
          chunksBytes chunks ++ chunk idData dataSize data))) (some t) e = some (true, e1) ∧
      consumed e1.calls = consumed e.calls ∧
      e1.file = some (MemFile.mid (wavHeader riffSize c r byteRate blockAlign b ++
        chunksBytes chunks ++ le32 idData ++ le32 dataSize) data true) ∧
      e1.buffLen = 0 ∧
      loop memSource O k e1 = some (false, e2) ∧
      e2.calls = e1.calls ++ Call.ConsumeSample e.lastSample.1 e.lastSample.2 true :: tail ∧
      consumed e2.calls = consumed e.calls ++
        (e.lastSample.1, e.lastSample.2, true) ::
          (framesOf b c data).map (fun f => (f.1, f.2, true)) ∧
      (framesOf b c data).length = N ∧
      (consumed e2.calls).length = (consumed e.calls).length + (N + 1) := by
  obtain ⟨e1, h1, hrun, hf, hbuf, -, hl, hbs, hbits, hch, hls, hout, hcons⟩ :=
    begin_stream O hRate hBits hChan hBegin e t fuel riffSize c r byteRate blockAlign b dataSize
      chunks data hc hr hr32 hb hchunks hfuel
  obtain ⟨hR, hp⟩ := begin_stream_ready e1 _ data _ hrun hf hbuf hl (by rw [hbs]; exact hsz)
  obtain ⟨hacc, hoc⟩ := offer_accepted O hO e1 hout
  obtain ⟨hfb, hfc, hfo⟩ := offer_format O e1
  obtain ⟨e2, d1, d2, d3⟩ := decodeLoop_frames memSource O MemFile.rem memSource_sequential hO
    data.length (offer O e1).2 (ReadyOn_offer O e1 hR) (by rw [hfb, hbits]; exact hb)
    (hfo hout) (by rw [pendingOf_offer, hp]) k hk
  obtain ⟨-, -, tail, ht, -⟩ := decodeLoop_buffer memSource memSource_bounded O k _ _ d1
  have hcalls : (offer O e1).2.calls =
      e1.calls ++ [Call.ConsumeSample e.lastSample.1 e.lastSample.2 true] := by
    obtain ⟨t1, ht1⟩ := hout
    simp [offer, ht1, hO, hls]
  have hlen := framesOf_length b c N data hN
  have hfin : consumed e2.calls = consumed e.calls ++
      (e.lastSample.1, e.lastSample.2, true) ::
        (framesOf b c data).map (fun f => (f.1, f.2, true)) := by
    rw [d3, hoc, hcons, pendingOf_offer, hp, hfb, hfc, hbits, hch, hls]
    simp
  refine ⟨e1, e2, tail, h1, hcons, hf, hl, ?_, ?_, hfin, hlen, ?_⟩
  · simp [loop, hrun, hacc, d1, d2]
  · rw [ht, hcalls]; simp
  · rw [hfin]; simp [hlen]

set_option maxRecDepth 8000 in
/-- C19 at a concrete input: the 16-bit stereo stream whose data region is `twoFrames16`
(`N = 2`) and the recording sink; `lastSample` held `(7, 9)`. -/
theorem C19_first_offer_is_not_decoded_witness :
    ((2 = 1 ∨ 2 = 2) ∧ 1 ≤ 8000 ∧ 8000 < 4294967296 ∧ (16 = 8 ∨ 16 = 16) ∧
      twoFrames16.length = 2 * frameSize 16 2 ∧ twoFrames16.length < 9) ∧
    ∃ e1 e2 tail,
      begin memSource recordingSink 1
        (some (MemFile.ofStream (wavHeader 44 2 8000 32000 4 16 ++
          chunksBytes [] ++ chunk idData 8 twoFrames16))) (some []) (freshRecorder (7, 9)) =
        some (true, e1) ∧
      consumed e1.calls = consumed (freshRecorder (7, 9)).calls ∧
      e1.file = some (MemFile.mid (wavHeader 44 2 8000 32000 4 16 ++
        chunksBytes [] ++ le32 idData ++ le32 8) twoFrames16 true) ∧
      e1.buffLen = 0 ∧
      loop memSource recordingSink 9 e1 = some (false, e2) ∧
      e2.calls = e1.calls ++
        Call.ConsumeSample (freshRecorder (7, 9)).lastSample.1
          (freshRecorder (7, 9)).lastSample.2 true :: tail ∧
      consumed e2.calls = consumed (freshRecorder (7, 9)).calls ++
        ((freshRecorder (7, 9)).lastSample.1, (freshRecorder (7, 9)).lastSample.2, true) ::
          (framesOf 16 2 twoFrames16).map (fun f => (f.1, f.2, true)) ∧
      (framesOf 16 2 twoFrames16).length = 2 ∧
      (consumed e2.calls).length = (consumed (freshRecorder (7, 9)).calls).length + (2 + 1) :=
  ⟨⟨Or.inr rfl, by decide, by decide, Or.inr rfl, rfl, by decide⟩,
   C19_first_offer_is_not_decoded recordingSink (fun _ _ => rfl) (fun _ _ => rfl)
     (fun _ _ => rfl) (fun _ => rfl) (fun _ _ => rfl) (freshRecorder (7, 9)) [] 1 9 2
     44 2 8000 32000 4 16 8 [] twoFrames16
     (Or.inr rfl) (by decide) (by decide) (Or.inr rfl) (by simp) (by decide) (by decide)
     rfl (by decide)⟩

/-! ## C3: backpressure -/

theorem offer_consumed (O : AudioOutput τ) (e : AudioGeneratorWAV σ τ)
    (ho : ∃ t, e.output = some t) :
    consumed (offer O e).2.calls =
      consumed e.calls ++ [(e.lastSample.1, e.lastSample.2, (offer O e).1)] ∧
    (offer O e).2.lastSample = e.lastSample ∧ (offer O e).2.running = e.running ∧
    (offer O e).2.calls =
      e.calls ++ [Call.ConsumeSample e.lastSample.1 e.lastSample.2 (offer O e).1] := by
  obtain ⟨t, ht⟩ := ho
  simp [offer, ht, consumed_append, consumed]

/-- What a run of offers made by one call leaves in the log: the first `k` of the frames
`F` accepted, and, when the call ends with the engine `e1` still running, one declined offer
of the frame `e1` holds. -/
theorem decodeLoop_offers (S : AudioFileSource σ) (O : AudioOutput τ) (rem : σ → List Byte)
    (hS : Sequential S rem) (fuel : Nat) :
    ∀ (e : AudioGeneratorWAV σ τ), ReadyOn e →
      (e.bitsPerSample = 8 ∨ e.bitsPerSample = 16) → (∃ t, e.output = some t) →
      (pendingOf rem e).length < fuel →
      ∃ e1 k, decodeLoop S O fuel e = some e1 ∧
        consumed e1.calls = consumed e.calls ++
          ((framesOf e.bitsPerSample e.channels (pendingOf rem e)).take k).map
            (fun f => (f.1, f.2, true)) ++
          (if e1.running then [(e1.lastSample.1, e1.lastSample.2, false)] else []) ∧
        (e1.running = true → ReadyOn e1 ∧ (∃ t, e1.output = some t) ∧
          framesDue rem e1 = (framesOf e.bitsPerSample e.channels (pendingOf rem e)).drop k ∧
          (pendingOf rem e1).length ≤ (pendingOf rem e).length) ∧
        e1.bitsPerSample = e.bitsPerSample ∧ e1.channels = e.channels ∧
        (e1.running = false →
          k = (framesOf e.bitsPerSample e.channels (pendingOf rem e)).length) := by
  induction fuel with
  | zero => intro e _ _ _ h; omega
  | succ fuel ih =>
    intro e hR hb hout hlen
    have hset := decodeFrame_setup S e
    simp only [decodeLoop]
    rcases decodeFrame_step S rem hS e hR hb with ⟨hf, hrun⟩ | ⟨rest, hf, hR1, hp1, hlt⟩
    · rw [if_pos hrun]
      refine ⟨_, 0, rfl, ?_, ?_, hset.2.2.1, hset.2.1, ?_⟩
      · simp [hrun, decodeFrame_consumed]
      · intro h; rw [hrun] at h; cases h
      · intro _; simp [hf]
    · have hout1 : ∃ t, (decodeFrame S e).output = some t := by
        rw [hset.1]; exact hout
      obtain ⟨hoc, hol, hor, -⟩ := offer_consumed O (decodeFrame S e) hout1
      obtain ⟨hfb, hfc, hfo⟩ := offer_format O (decodeFrame S e)
      rw [if_neg (by simp [hR1.1])]
      cases hacc : (offer O (decodeFrame S e)).1
      · -- declined: the call ends here with the frame kept
        simp only [Bool.false_eq_true, if_false]
        have hrun2 : (offer O (decodeFrame S e)).2.running = true := hor.trans hR1.1
        refine ⟨_, 0, rfl, ?_, ?_, by rw [hfb, hset.2.2.1], by rw [hfc, hset.2.1], ?_⟩
        · rw [hoc, hacc, decodeFrame_consumed, hrun2, hol]
          simp
        · intro _
          refine ⟨ReadyOn_offer O _ hR1, hfo hout1, ?_, ?_⟩
          · simp only [framesDue, hol, pendingOf_offer, hp1, hfb, hfc, hset.2.2.1, hset.2.1,
              List.drop_zero]
            exact hf.symm
          · rw [pendingOf_offer, hp1]; omega
        · intro h; rw [hrun2] at h; cases h
      · -- accepted: go on with the octets behind the frame
        simp only [if_true]
        obtain ⟨e1, k, h1, h2, h3, h4, h5, h6⟩ := ih (offer O (decodeFrame S e)).2
          (ReadyOn_offer O _ hR1) (by rw [hfb, hset.2.2.1]; exact hb) (hfo hout1)
          (by rw [pendingOf_offer, hp1]; omega)
        rw [pendingOf_offer, hp1, hfb, hfc, hset.2.2.1, hset.2.1] at h2 h3 h6
        refine ⟨e1, k + 1, h1, ?_, ?_, by rw [h4, hfb, hset.2.2.1],
          by rw [h5, hfc, hset.2.1], ?_⟩
        · rw [h2, hoc, hacc, decodeFrame_consumed, hf]
          simp
        · intro hr
          obtain ⟨a1, a2, a3, a4⟩ := h3 hr
          refine ⟨a1, a2, ?_, ?_⟩
          · rw [a3, hf]; rfl
          · omega
        · intro hr
          rw [hf, h6 hr]; rfl

/-- One `loop()` call on a running engine over a sequential source, for any sink: the call
offers the frames due in order, each once, for as long as the sink accepts, and ends either
stopped with all of them accepted or running on a declined offer of the frame it then
holds, with the frames after the accepted ones still due. -/
theorem loop_offers (S : AudioFileSource σ) (O : AudioOutput τ) (rem : σ → List Byte)
    (hS : Sequential S rem) (fuel : Nat) (e : AudioGeneratorWAV σ τ) (hR : ReadyOn e)
    (hb : e.bitsPerSample = 8 ∨ e.bitsPerSample = 16) (hout : ∃ t, e.output = some t)
    (hlen : (pendingOf rem e).length < fuel) :
    ∃ e1 j, loop S O fuel e = some (e1.running, e1) ∧
      consumed e1.calls = consumed e.calls ++
        ((framesDue rem e).take j).map (fun f => (f.1, f.2, true)) ++
        (if e1.running then [(e1.lastSample.1, e1.lastSample.2, false)] else []) ∧
      (e1.running = true → ReadyOn e1 ∧ (∃ t, e1.output = some t) ∧
        framesDue rem e1 = (framesDue rem e).drop j ∧
        (pendingOf rem e1).length ≤ (pendingOf rem e).length) ∧
      e1.bitsPerSample = e.bitsPerSample ∧ e1.channels = e.channels ∧
      (e1.running = false → j = (framesDue rem e).length) ∧
      ∃ tail, e1.calls =
        e.calls ++ Call.ConsumeSample e.lastSample.1 e.lastSample.2 (offer O e).1 :: tail := by
  obtain ⟨hoc, hol, hor, hcalls⟩ := offer_consumed O e hout
  obtain ⟨hfb, hfc, hfo⟩ := offer_format O e
  have hrun2 : (offer O e).2.running = true := hor.trans hR.1
  simp only [loop, hR.1, Bool.true_eq_false, if_false]
  cases hacc : (offer O e).1
  · simp only [if_true]
    refine ⟨(offer O e).2, 0, by rw [hrun2], ?_, ?_, hfb, hfc, ?_, [], ?_⟩
    · rw [hoc, hacc, hrun2, hol]; simp
    · intro _
      refine ⟨ReadyOn_offer O e hR, hfo hout, ?_, by rw [pendingOf_offer]⟩
      simp only [framesDue, hol, pendingOf_offer, hfb, hfc, List.drop_zero]
    · intro h; rw [hrun2] at h; cases h
    · rw [hcalls, hacc]
  · simp only [Bool.true_eq_false, if_false]
    obtain ⟨e1, k, h1, h2, h3, h4, h5, h6⟩ := decodeLoop_offers S O rem hS fuel (offer O e).2
      (ReadyOn_offer O e hR) (by rw [hfb]; exact hb) (hfo hout)
      (by rw [pendingOf_offer]; exact hlen)
    obtain ⟨-, -, tail, ht, -⟩ :=
      decodeLoop_buffer S (sequential_bounded S rem hS) O fuel _ _ h1
    rw [pendingOf_offer, hfb, hfc] at h2 h3 h6
    refine ⟨e1, k + 1, by rw [h1]; rfl, ?_, ?_, h4.trans hfb, h5.trans hfc, ?_, tail, ?_⟩
    · rw [h2, hoc, hacc]
      simp [framesDue]
    · intro hr
      obtain ⟨a1, a2, a3, a4⟩ := h3 hr
      refine ⟨a1, a2, ?_, a4⟩
      rw [a3]; rfl
    · intro hr
      rw [h6 hr]; rfl
    · rw [ht, hcalls, hacc]; simp

theorem runLoops_stopped (S : AudioFileSource σ) (O : AudioOutput τ) (fuel n : Nat)
    (e : AudioGeneratorWAV σ τ) (h : e.running = false) : runLoops S O fuel n e = some e := by
  induction n with
  | zero => rfl
  | succ n ih => simp [runLoops, loop, h, ih]

theorem filterMap_accepted (fs : List (Int × Int)) :
    (fs.map (fun f : Int × Int => (f.1, f.2, true))).filterMap
      (fun x : Int × Int × Bool => if x.2.2 then some (x.1, x.2.1) else none) = fs := by
  induction fs with
  | nil => rfl
  | cons f fs ih => simp [List.filterMap_cons, ih]

theorem acceptedOf_offers (cs : List Call) (fs : List (Int × Int))
    (d : List (Int × Int × Bool)) (hd : ∀ x ∈ d, x.2.2 = false) (cs1 : List Call)
    (h : consumed cs1 = consumed cs ++ fs.map (fun f => (f.1, f.2, true)) ++ d) :
    acceptedOf cs1 = acceptedOf cs ++ fs := by
  have h2 : d.filterMap
      (fun x : Int × Int × Bool => if x.2.2 then some (x.1, x.2.1) else none) = [] := by
    rw [List.filterMap_eq_nil_iff]
    intro x hx
    simp [hd x hx]
  simp only [acceptedOf, h, List.filterMap_append, filterMap_accepted, h2, List.append_nil]

/-- Any number of `loop()` calls in a row, whatever the sink answers: the frames accepted so
far are the first `j` of the frames that were due, in order and each once; while the engine
runs, the frames after them are still due, and once it has stopped all were accepted. -/
theorem runLoops_accepts (S : AudioFileSource σ) (O : AudioOutput τ) (rem : σ → List Byte)
    (hS : Sequential S rem) (fuel n : Nat) :
    ∀ (e : AudioGeneratorWAV σ τ), ReadyOn e →
      (e.bitsPerSample = 8 ∨ e.bitsPerSample = 16) → (∃ t, e.output = some t) →
      (pendingOf rem e).length < fuel →
      ∃ e1 j, runLoops S O fuel n e = some e1 ∧
        acceptedOf e1.calls = acceptedOf e.calls ++ (framesDue rem e).take j ∧
        (e1.running = true → framesDue rem e1 = (framesDue rem e).drop j) ∧
        (e1.running = false → j = (framesDue rem e).length) := by
  induction n with
  | zero =>
    intro e hR _ _ _
    refine ⟨e, 0, rfl, by simp, fun _ => by simp, ?_⟩
    intro h
    rw [hR.1] at h
    cases h
  | succ n ih =>
    intro e hR hb hout hlen
    obtain ⟨e1, j1, h1, h2, h3, h4, h5, h6, -⟩ := loop_offers S O rem hS fuel e hR hb hout hlen
    have hacc1 : acceptedOf e1.calls = acceptedOf e.calls ++ (framesDue rem e).take j1 := by
      apply acceptedOf_offers e.calls _ _ _ e1.calls h2
      intro x hx
      split_ifs at hx
      · simp only [List.mem_singleton] at hx
        rw [hx]
      · simp at hx
    simp only [runLoops, h1]
    cases hr : e1.running
    · rw [runLoops_stopped S O fuel n e1 hr]
      refine ⟨e1, j1, rfl, hacc1, ?_, fun _ => h6 hr⟩
      intro h
      rw [hr] at h
      cases h
    · obtain ⟨a1, a2, a3, a4⟩ := h3 hr
      obtain ⟨e2, j2, k1, k2, k3, k4⟩ := ih e1 a1 (by rw [h4]; exact hb) a2 (by omega)
      refine ⟨e2, j1 + j2, k1, ?_, ?_, ?_⟩
      · rw [k2, hacc1, a3, List.append_assoc, List.take_add]
      · intro h
        rw [k3 h, a3, List.drop_drop]
      · intro h
        have := k4 h
        rw [a3, List.length_drop] at this
        have hle : j1 ≤ (framesDue rem e).length := by
          by_contra hc
          have : (framesDue rem e).drop j1 = [] := List.drop_eq_nil_of_le (by omega)
          rw [this] at a3
          simp [framesDue] at a3
        omega

/-- C3: take a running engine over a sequential source and a `loop()` call on it that
returned true, that is, that ended because the sink declined the frame `f` the engine now
holds in `lastSample`; the log ends with that declined offer.  Whatever the sink does next,
the next `loop()` call starts by offering `f`.  If the sink declines again, the call returns
true and changes only the sink's state and the log, which gains that one offer: no source
read, and `buffPtr`, `buffLen`, `lastSample` and `running` are as before.  If the sink
accepts, `f` is offered that once, and the offers that follow are the frames decoded from
the octets behind `f`, in order and each once, up to the end of the stream or up to the next
declined frame, which is then the frame held.  Over any number of `loop()` calls and any
pattern of declines, the accepted frames are `f` and the frames behind it, in order, none
missing and none twice. -/
theorem C3_declined_frame_is_retried (S : AudioFileSource σ) (O : AudioOutput τ)
    (rem : σ → List Byte) (hS : Sequential S rem) (fuel0 : Nat)
    (e0 e : AudioGeneratorWAV σ τ) (hR0 : ReadyOn e0)
    (hb : e0.bitsPerSample = 8 ∨ e0.bitsPerSample = 16) (ho : ∃ t, e0.output = some t)
    (hf0 : (pendingOf rem e0).length < fuel0)
    (hl : loop S O fuel0 e0 = some (true, e)) :
    e.running = true ∧
    (∃ pre, e.calls = pre ++ [Call.ConsumeSample e.lastSample.1 e.lastSample.2 false]) ∧
    (∀ fuel1 r, loop S O fuel1 e = some r →
      ∃ ok tail, r.2.calls =
        e.calls ++ Call.ConsumeSample e.lastSample.1 e.lastSample.2 ok :: tail) ∧
    (∀ fuel1 t, e.output = some t → (O.ConsumeSample t e.lastSample).1 = false →
      loop S O fuel1 e = some (true,
        { e with output := some (O.ConsumeSample t e.lastSample).2,
                 calls := e.calls ++
                   [Call.ConsumeSample e.lastSample.1 e.lastSample.2 false] })) ∧
    (∀ fuel1 t, e.output = some t → (O.ConsumeSample t e.lastSample).1 = true →
      (pendingOf rem e).length < fuel1 →
      ∃ e1 k, loop S O fuel1 e = some (e1.running, e1) ∧
        consumed e1.calls = consumed e.calls ++
          (e.lastSample.1, e.lastSample.2, true) ::
            ((framesOf e.bitsPerSample e.channels (pendingOf rem e)).take k).map
              (fun f => (f.1, f.2, true)) ++
          (if e1.running then [(e1.lastSample.1, e1.lastSample.2, false)] else []) ∧
        (e1.running = true →
          framesDue rem e1 = (framesOf e.bitsPerSample e.channels (pendingOf rem e)).drop k) ∧
        (e1.running = false →
          k = (framesOf e.bitsPerSample e.channels (pendingOf rem e)).length)) ∧
    (∀ fuel1 n, (pendingOf rem e).length < fuel1 →
      ∃ e1 j, runLoops S O fuel1 n e = some e1 ∧
        acceptedOf e1.calls = acceptedOf e.calls ++ (framesDue rem e).take j ∧
        (e1.running = true → framesDue rem e1 = (framesDue rem e).drop j) ∧
        (e1.running = false → j = (framesDue rem e).length)) := by
  obtain ⟨t0, ht0⟩ := ho
  -- the state the call ended in
  obtain ⟨ep, t, -, -, -, hep, -, -⟩ := loop_after_declined_offer S O fuel0 e0 e t0 hR0.1 ht0 hl
  obtain ⟨e', j0, h1, -, h3, h4, -, -, -⟩ := loop_offers S O rem hS fuel0 e0 hR0 hb ⟨t0, ht0⟩ hf0
  rw [hl] at h1
  simp only [Option.some.injEq, Prod.mk.injEq] at h1
  obtain ⟨hrun', rfl⟩ := h1
  have hrun : e.running = true := hrun'.symm
  obtain ⟨hR, hout, -, -⟩ := h3 hrun
  have hbe : e.bitsPerSample = 8 ∨ e.bitsPerSample = 16 := by rw [h4]; exact hb
  refine ⟨hrun, ?_, ?_, ?_, ?_, ?_⟩
  · refine ⟨ep.calls, ?_⟩
    rw [hep]
  · intro fuel1 r hr
    simp only [loop, hrun, Bool.true_eq_false, if_false] at hr
    obtain ⟨-, -, -, hcalls⟩ := offer_consumed O e hout
    split_ifs at hr with hd
    · cases hr
      exact ⟨(offer O e).1, [], hcalls⟩
    · rcases hdl : decodeLoop S O fuel1 (offer O e).2 with _ | e2
      · simp [hdl] at hr
      · simp only [hdl, Option.map_some', Option.some.injEq] at hr
        subst hr
        obtain ⟨-, -, tail, ht, -⟩ :=
          decodeLoop_buffer S (sequential_bounded S rem hS) O fuel1 _ _ hdl
        exact ⟨(offer O e).1, tail, by rw [ht, hcalls]; simp⟩
  · intro fuel1 t1 ht1 hd
    simp [loop, hrun, offer, ht1, hd]
  · intro fuel1 t1 ht1 ha hlen
    have hacc : (offer O e).1 = true := by simp [offer, ht1, ha]
    have hce := (offer_consumed O e hout).1
    obtain ⟨hfb, hfc, hfo⟩ := offer_format O e
    obtain ⟨e1, k, d1, d2, d3, -, -, d6⟩ := decodeLoop_offers S O rem hS fuel1 (offer O e).2
      (ReadyOn_offer O e hR) (by rw [hfb]; exact hbe) (hfo hout)
      (by rw [pendingOf_offer]; exact hlen)
    rw [pendingOf_offer, hfb, hfc] at d2 d3 d6
    refine ⟨e1, k, ?_, ?_, fun hr => (d3 hr).2.2.1, d6⟩
    · simp only [loop, hrun, Bool.true_eq_false, if_false, hacc, d1, Option.map_some']
    · rw [d2, hce, hacc]
      simp
  · intro fuel1 n hlen
    exact runLoops_accepts S O rem hS fuel1 n e hR hbe hout hlen

set_option maxRecDepth 8000 in
/-- C3 at a concrete input: `wav8mono` read from a `MemFile`, with a sink that accepts the
first offer and declines the next two.  The first `loop()` call ends on the declined frame
`(16, 0)`; the second call is declined again; the third is accepted and decodes on.  The
frames accepted over the three calls are `(7, 9)`, `(16, 0)`, `(32, 0)`. -/
theorem C3_declined_frame_is_retried_witness :
    (ReadyOn (demoStart wav8mono [true, false, false]) ∧
      (pendingOf MemFile.rem (demoStart wav8mono [true, false, false])).length < 8 ∧
      loop memSource scriptedSink 8 (demoStart wav8mono [true, false, false]) =
        some (true, demoStep (demoStart wav8mono [true, false, false]))) ∧
    (demoStep (demoStart wav8mono [true, false, false])).lastSample = (16, 0) ∧
    (runLoops memSource scriptedSink 8 2
        (demoStep (demoStart wav8mono [true, false, false]))).map
      (fun e1 => (e1.running, acceptedOf e1.calls)) =
      some (false, [(7, 9), (16, 0), (32, 0)]) ∧
    ∃ e1 j, runLoops memSource scriptedSink 8 2
        (demoStep (demoStart wav8mono [true, false, false])) = some e1 ∧
      acceptedOf e1.calls =
        acceptedOf (demoStep (demoStart wav8mono [true, false, false])).calls ++
          (framesDue MemFile.rem (demoStep (demoStart wav8mono [true, false, false]))).take j ∧
      (e1.running = true →
        framesDue MemFile.rem e1 =
          (framesDue MemFile.rem (demoStep (demoStart wav8mono [true, false, false]))).drop j) ∧
      (e1.running = false →
        j = (framesDue MemFile.rem (demoStep (demoStart wav8mono [true, false, false]))).length) :=
  ⟨⟨⟨rfl, ⟨_, rfl⟩, ⟨_, rfl, Nat.le_of_ble_eq_true rfl⟩, Nat.le_of_ble_eq_true rfl⟩,
     Nat.le_of_ble_eq_true rfl, rfl⟩,
   rfl, rfl,
   (C3_declined_frame_is_retried memSource scriptedSink MemFile.rem memSource_sequential 8
     (demoStart wav8mono [true, false, false])
     (demoStep (demoStart wav8mono [true, false, false]))
     ⟨rfl, ⟨_, rfl⟩, ⟨_, rfl, Nat.le_of_ble_eq_true rfl⟩, Nat.le_of_ble_eq_true rfl⟩
     (Or.inl rfl) ⟨_, rfl⟩ (Nat.le_of_ble_eq_true rfl) rfl).2.2.2.2.2 8 2
     (Nat.le_of_ble_eq_true rfl)⟩

/-! ## C6: the source runs out inside a frame -/

end ESP8266Audio
